import Mathlib

/-!
# RayTracer: a shallow embedding of `source/render.cpp`, `source/color.cpp`
and `source/light.cpp`

Conventions of the embedding.

* A C++ `double` is an element of an ordered field `K` (exact arithmetic, no
  rounding, no NaN).  Every definition is computable and can be run at `K = ℚ`.
  A distance (`t_near`) is an element of `WithTop K`, where `⊤` is `INFINITY`.
  Only the counter of the sampling loops of an area light is given a second
  time with the rounding of `double` written out (`binary64`,
  `doubleLoopRounds`), because the number of rounds depends on it.
* A C++ `unsigned` is a natural number below `2 ^ 32`; where the source can
  leave that range the wrap-around `% 2 ^ 32` is written out.
* A pointer into the object list (`const Object*`) is `Option Nat`: `none` is
  `NULL`, `some i` is the address of the `i`-th element of the list.
* What the three source files use but do not define (the `estl` vector
  library, `pow`, `Rand`, the default constructors declared in the headers) is
  collected in the structure `Env` and is a parameter of every function.
-/

namespace ray

/-! ## Vectors (`estl::base::Vec3d`) -/

/-- Three real components, the `Vec3d` of the `estl` library. -/
structure Vec3 (K : Type) where
  x : K
  y : K
  z : K

/-- Colour value of `color.hpp`: three real channels. -/
structure Color (K : Type) where
  r : K
  g : K
  b : K

/-- Material snapshot read by `CastRay` (`inter.mat`). -/
structure Material (K : Type) where
  ambient : Color K
  diffuse : Color K
  specular : Color K
  specular_exp : K
  reflectivity : K

/-- Record `IntersectData` of `object.hpp`, with the members `render.cpp` uses. -/
structure IntersectData (K : Type) where
  t_near : WithTop K
  point : Vec3 K
  normal : Vec3 K
  mat : Material K
  obj : Option Nat

/-- An object of the scene: its virtual `Intersect(start, dir, it)`, which
returns the `bool` result together with the record `it` it may have filled. -/
structure Object (K : Type) where
  Intersect : Vec3 K → Vec3 K → IntersectData K → Bool × IntersectData K

/-- Discriminant `type_` of a light. -/
inductive LightType where
  | DISTANT
  | POINT
  | AREA
deriving DecidableEq

/-- A light as `ShadowRay` sees it: the discriminant `type_`, the virtual
`Illuminate(point, dir, intensity, dist)` returning its three output
parameters, and the members read through `dynamic_cast<AreaLight*>` when
`type_ == AREA`. -/
structure Light (K : Type) where
  type_ : LightType
  Illuminate : Vec3 K → Vec3 K × Vec3 K × WithTop K
  position_ : Vec3 K
  direction_ : Vec3 K
  width_ : K
  height_ : K
  samples_ : Nat

/-- What the source files use without defining it. `Length` is the vector
length of `estl`, `pow` the C library power, `pi` the constant `M_PI`,
`Rand k lo hi` the value the `k`-th call of `Rand(lo, hi)` returns, `defaultColor` the value of a
default-constructed `Color` (`Color() {}` assigns no member) and
`defaultInter` the value of a default-constructed `IntersectData`. -/
structure Env (K : Type) where
  Length : Vec3 K → K
  pow : K → K → K
  pi : K
  Rand : Nat → K → K → K
  defaultColor : Color K
  defaultInter : IntersectData K

section Defs

variable {K : Type} [LinearOrderedField K]

/-- Vector sum `a + b`. -/
def Vec3.add (a b : Vec3 K) : Vec3 K := ⟨a.x + b.x, a.y + b.y, a.z + b.z⟩

/-- Vector difference `a - b`. -/
def Vec3.sub (a b : Vec3 K) : Vec3 K := ⟨a.x - b.x, a.y - b.y, a.z - b.z⟩

/-- Product with a scalar, `a * s`. -/
def Vec3.scale (a : Vec3 K) (s : K) : Vec3 K := ⟨a.x * s, a.y * s, a.z * s⟩

/-- Quotient by a scalar, `a / s`. -/
def Vec3.divs (a : Vec3 K) (s : K) : Vec3 K := ⟨a.x / s, a.y / s, a.z / s⟩

/-- Componentwise product of two vectors, `a * b`. -/
def Vec3.mul (a b : Vec3 K) : Vec3 K := ⟨a.x * b.x, a.y * b.y, a.z * b.z⟩

/-- Scalar product `Dot(a, b)`. -/
def Dot (a b : Vec3 K) : K := a.x * b.x + a.y * b.y + a.z * b.z

/-- Vector product `Cross(a, b)`. -/
def Cross (a b : Vec3 K) : Vec3 K :=
  ⟨a.y * b.z - a.z * b.y, a.z * b.x - a.x * b.z, a.x * b.y - a.y * b.x⟩

/-- Unit vector `Normalize(v)`: the vector divided by its length. -/
def Normalize (env : Env K) (v : Vec3 K) : Vec3 K := v.divs (env.Length v)

/-! ## `color.cpp` -/

/-- Constructor `Color(estl::vector::Vector<double, 3> vec)`. -/
def Color.ofVector (vec : Vec3 K) : Color K := ⟨vec.x, vec.y, vec.z⟩

/-- Accessor `Color::Vector()`: the channels as a vector. -/
def Color.Vector (c : Color K) : Vec3 K := ⟨c.r, c.g, c.b⟩

/-- Weighted combination `Combine(lhs, lhs_perc, rhs, rhs_perc)`. -/
def Combine (lhs : Color K) (lhs_perc : K) (rhs : Color K) (rhs_perc : K) : Color K :=
  ⟨lhs.r * lhs_perc + rhs.r * rhs_perc,
   lhs.g * lhs_perc + rhs.g * rhs_perc,
   lhs.b * lhs_perc + rhs.b * rhs_perc⟩

/-- Compound assignment `Color::operator+=`: the body evaluates
`Combine(*this, 0.5, rhs, 0.5)`, drops the value and returns `*this`. The
result is the new value of the left operand. -/
def Color.addAssign (self rhs : Color K) : Color K :=
  (fun (_ : Color K) => self) (Combine self (1 / 2) rhs (1 / 2))

/-! ## `light.cpp` -/

/-- Method `DistantLight::Illuminate` for a light with members `direction_`,
`color_` and `intensity_`: the outputs `dir`, `intensity` and `dist`. -/
def DistantLight.Illuminate (direction_ : Vec3 K) (color_ : Color K) (intensity_ : K)
    (_point : Vec3 K) : Vec3 K × Vec3 K × WithTop K :=
  (direction_, (Vec3.mk color_.r color_.g color_.b).scale intensity_, ⊤)

/-- Method `PointLight::Illuminate` for a light with members `position_`,
`color_` and `intensity_`: the outputs `dir`, `intensity` and `dist`. -/
def PointLight.Illuminate (env : Env K) (position_ : Vec3 K) (color_ : Color K)
    (intensity_ : K) (point : Vec3 K) : Vec3 K × Vec3 K × WithTop K :=
  let dir := point.sub position_
  let dist := env.Length dir
  let dir := dir.divs dist
  (dir, ((Vec3.mk color_.r color_.g color_.b).scale intensity_).divs
    (4 * env.pi * env.pow dist 2), (dist : WithTop K))

/-- Object built by the constructor `DistantLight(dir, color, i)`. The
constructor in `light.cpp` assigns `direction_`, `color_` and `intensity_`
only; the member `type_` is declared, and given its value, in `light.hpp`, and
is taken here to be `DISTANT`, the value `ShadowRay` tests for. The members of
an area light are unused. -/
def DistantLight (env : Env K) (dir : Vec3 K) (color : Color K) (i : K) : Light K where
  type_ := LightType.DISTANT
  Illuminate := DistantLight.Illuminate (Normalize env dir) color i
  position_ := ⟨0, 0, 0⟩
  direction_ := Normalize env dir
  width_ := 0
  height_ := 0
  samples_ := 0

/-- Object built by the constructor `PointLight(position, color, i)`. The
constructor in `light.cpp` assigns `position_`, `color_` and `intensity_`
only; the member `type_` is declared, and given its value, in `light.hpp`, and
is taken here to be `POINT`, the value `ShadowRay` tests for. The members of
an area light are unused. -/
def PointLight (env : Env K) (position : Vec3 K) (color : Color K) (i : K) : Light K where
  type_ := LightType.POINT
  Illuminate := PointLight.Illuminate env position color i
  position_ := position
  direction_ := ⟨0, 0, 0⟩
  width_ := 0
  height_ := 0
  samples_ := 0

/-! ## Globals of `render.cpp` -/

/-- Global `unsigned max_depth = 10`. -/
def max_depth : Nat := 10

/-- Global `double bias = 0.001`. -/
def bias : K := 1 / 1000

/-- Global `ray::Color background_color = {0.2, 0.2, 0.3}`. -/
def background_color : Color K := ⟨2 / 10, 2 / 10, 3 / 10⟩

/-! ## `TraceRay` -/

/-- The statements `IntersectData it; it.t_near = INFINITY;` and the call
`(*iter)->Intersect(start, dir, it)` of the loop of `TraceRay`: the `bool`
result and the record `it` after the call. -/
def hitOf (env : Env K) (start dir : Vec3 K) (o : Object K) : Bool × IntersectData K :=
  o.Intersect start dir { env.defaultInter with t_near := ⊤ }

/-- The `for` loop of `TraceRay` over the object list; `idx` is the position
of the head of the remaining list, that is the address `iter->get()`. -/
def TraceRay.loop (env : Env K) (start dir : Vec3 K) :
    List (Object K) → Nat → IntersectData K → IntersectData K
  | [], _, inter => inter
  | o :: rest, idx, inter =>
    let res := hitOf env start dir o
    if res.1 = true ∧ res.2.t_near < inter.t_near then
      TraceRay.loop env start dir rest (idx + 1) { res.2 with obj := some idx }
    else
      TraceRay.loop env start dir rest (idx + 1) inter

/-- Function `TraceRay(start, dir, objs, inter, base_ray)`: returns the `bool`
result and the record `inter` as the call leaves it. The parameter `base_ray`
is not read by the source. -/
def TraceRay (env : Env K) (start dir : Vec3 K) (objs : List (Object K))
    (inter : IntersectData K) : Bool × IntersectData K :=
  let out := TraceRay.loop env start dir objs 0 { inter with obj := none }
  (out.obj.isSome, out)

/-! ## `ShadowRay` -/


/-- Loop `for (double u = u0; u < hi; u += step) body`, called with `u = u0`.
While the step is positive the body runs and the loop goes on from
`u + step`. The source builds the step as `width_ / samples_`, so the loop is
entered with a step that is not positive only when `samples_` is `0`; the
step of the source is then infinite and the loop ends after one execution
of the body. The counter of the source is a `double`; the additions here are
exact, so the rounds counted are those of exact arithmetic, and
`doubleLoopRounds` below counts them with every addition rounded to
binary64. -/
def forDouble [FloorRing K] {σ : Type} (hi step : K) (body : K → σ → σ) (u : K) (s : σ) : σ :=
  if u < hi ∧ 0 < step then forDouble hi step body (u + step) (body u s)
  else if u < hi then body u s else s
termination_by Nat.ceil ((hi - u) / step)
decreasing_by
  rename_i h
  obtain ⟨hu, hs⟩ := h
  have hx : 0 < (hi - u) / step := div_pos (sub_pos.mpr hu) hs
  have he : (hi - (u + step)) / step = (hi - u) / step - 1 := by
    field_simp
    ring
  rw [he, Nat.lt_ceil]
  rcases le_or_lt 0 ((hi - u) / step - 1) with h0 | h0
  · have := Nat.ceil_lt_add_one h0
    linarith
  · rw [Nat.ceil_eq_zero.mpr h0.le]
    simpa using hx

/-- Locals of `ShadowRay` that the sampling loops of an area light update. -/
structure ShadowState (K : Type) where
  vis : K
  light_dir : Vec3 K
  isec : IntersectData K
  rng : Nat

/-- Value of a `ShadowRay` call: the returned visibility, the output
parameters `light_dir` and `light_intensity`, and the number of `Rand` calls
made so far. -/
structure ShadowResult (K : Type) where
  vis : K
  light_dir : Vec3 K
  light_intensity : Vec3 K
  rng : Nat

/-- The occlusion test of `ShadowRay`, the call
`TraceRay(inter.point + (light_dir * -bias), light_dir * -1.0, objs, isec, false)`. -/
def ShadowRay.occlusion (env : Env K) (inter : IntersectData K) (objs : List (Object K))
    (light_dir : Vec3 K) (isec : IntersectData K) : Bool × IntersectData K :=
  TraceRay env (inter.point.add (light_dir.scale (-bias))) (light_dir.scale (-1)) objs isec

/-- Body of the inner sampling loop of `ShadowRay` for an area light (one
jittered sample at grid position `u`, `v`). The first `Rand` call is the one
for `u`. -/
def ShadowRay.sample (env : Env K) (light : Light K) (inter : IntersectData K)
    (objs : List (Object K)) (u_vec v_vec : Vec3 K) (step_size_u step_size_v : K)
    (sample_count : Nat) (u v : K) (st : ShadowState K) : ShadowState K :=
  let point := (light.position_.add (u_vec.scale (u + env.Rand st.rng 0 step_size_u))).add
    (v_vec.scale (v + env.Rand (st.rng + 1) 0 step_size_v))
  let light_dir := inter.point.sub point
  let t_near := env.Length light_dir
  let light_dir := light_dir.divs t_near
  let tr := ShadowRay.occlusion env inter objs light_dir
    { st.isec with t_near := (t_near : WithTop K) }
  let ray_vis : Bool := !tr.1
  let ray_vis : Bool := if tr.2.obj = inter.obj then true else ray_vis
  { vis := st.vis + (if ray_vis = true then 1 else 0) / (sample_count : K)
    light_dir := light_dir
    isec := tr.2
    rng := st.rng + 2 }

/-- Function `ShadowRay(light, inter, objs, light_dir, light_intensity)`;
`rng` counts the `Rand` calls made before the call. -/
def ShadowRay [FloorRing K] (env : Env K) (light : Light K) (inter : IntersectData K)
    (objs : List (Object K)) (rng : Nat) : ShadowResult K :=
  let ill := light.Illuminate inter.point
  let light_dir := ill.1
  let light_intensity := ill.2.1
  let isec : IntersectData K := { env.defaultInter with t_near := ill.2.2 }
  if light.type_ = LightType.DISTANT ∨ light.type_ = LightType.POINT then
    let tr := ShadowRay.occlusion env inter objs light_dir isec
    let vis : K := if tr.1 = true then 0 else 1
    let vis : K := if tr.2.obj = inter.obj then 1 else vis
    { vis := vis, light_dir := light_dir, light_intensity := light_intensity, rng := rng }
  else if light.type_ = LightType.AREA then
    let u_vec := Normalize env ⟨light.direction_.y, -light.direction_.x, 0⟩
    let v_vec := Cross light.direction_ u_vec
    let sample_count := (light.samples_ * light.samples_) % 2 ^ 32
    let step_size_u := light.width_ / (light.samples_ : K)
    let step_size_v := light.height_ / (light.samples_ : K)
    let st := forDouble (light.width_ / 2) (light.width_ / (light.samples_ : K))
      (fun u st => forDouble (light.height_ / 2) (light.height_ / (light.samples_ : K))
        (fun v st => ShadowRay.sample env light inter objs u_vec v_vec step_size_u step_size_v
          sample_count u v st)
        (-light.height_ / 2) st)
      (-light.width_ / 2)
      { vis := 0, light_dir := light_dir, isec := isec, rng := rng }
    { vis := st.vis, light_dir := st.light_dir, light_intensity := light_intensity,
      rng := st.rng }
  else
    { vis := 1, light_dir := light_dir, light_intensity := light_intensity, rng := rng }

/-! ## `CastRay` and `Reflect` -/

/-- Locals of `CastRay` that the loop over the lights updates: the record
`inter` (its normal may be flipped), the accumulator `color` and the number
of `Rand` calls. -/
structure ShadeState (K : Type) where
  inter : IntersectData K
  color : Color K
  rng : Nat

/-- The colour built on the right of `color += ...` in the light loop. -/
def CastRay.contribution (mat : Material K) (light_intensity : Vec3 K)
    (ambient diffuse specular : K) : Color K :=
  Color.ofVector
    ((((mat.ambient.Vector.mul light_intensity).scale ambient).add
      ((mat.diffuse.Vector.mul light_intensity).scale diffuse)).add
      ((mat.specular.Vector.mul light_intensity).scale specular))

/-- Body of the loop `for (auto& it : lights)` of `CastRay`. -/
def CastRay.light [FloorRing K] (env : Env K) (start dir : Vec3 K) (objs : List (Object K))
    (st : ShadeState K) (it : Light K) : ShadeState K :=
  let sh := ShadowRay env it st.inter objs st.rng
  let vis := sh.vis
  let light_dir := sh.light_dir
  let light_intensity := sh.light_intensity
  let normal :=
    if Dot st.inter.normal light_dir < 0 ∧ Dot st.inter.normal dir < 0 then
      st.inter.normal.scale (-1)
    else st.inter.normal
  let reflection := light_dir.sub ((normal.scale 2).scale (Dot normal light_dir))
  let ambient : K := 2 / 10
  let diffuse : K := 5 / 10 * vis * max 0 (Dot normal light_dir)
  let specular : K := 3 / 10 * vis *
    env.pow (max 0 (Dot (Normalize env (start.sub st.inter.point)) reflection))
      st.inter.mat.specular_exp
  let diffuse : K := if Dot dir normal * Dot light_dir normal < 0 then 0 else diffuse
  { inter := { st.inter with normal := normal }
    color := st.color.addAssign
      (CastRay.contribution st.inter.mat light_intensity ambient diffuse specular)
    rng := sh.rng }

mutual

/-- Function `CastRay(start, dir, objs, lights, depth, caster)`; the value is
the returned colour and the number of `Rand` calls made so far. -/
def CastRay [FloorRing K] (env : Env K) (start dir : Vec3 K) (objs : List (Object K))
    (lights : List (Light K)) (depth : Nat) (caster : Option Nat) (rng : Nat) :
    Color K × Nat :=
  if h : depth ≥ max_depth then (background_color, rng)
  else
    let tr := TraceRay env start dir objs env.defaultInter
    if tr.1 = true ∧ tr.2.obj ≠ caster then
      let st := lights.foldl (CastRay.light env start dir objs)
        { inter := tr.2, color := env.defaultColor, rng := rng }
      if st.inter.mat.reflectivity ≠ 0 then
        let reflected := Reflect env st.inter.point st.inter.normal dir objs lights depth
          st.inter.obj st.rng
        (Combine st.color (1 - st.inter.mat.reflectivity) reflected.1
          st.inter.mat.reflectivity, reflected.2)
      else (st.color, st.rng)
    else (background_color, rng)
termination_by 2 * (max_depth - depth)
decreasing_by
  simp only [ge_iff_le, not_le] at h
  omega

/-- Function `Reflect(point, normal, dir, objs, lights, depth, obj)`. The
source takes `depth` as a `double`; it is below `max_depth`, so `depth + 1`
converts back to `unsigned` unchanged. -/
def Reflect [FloorRing K] (env : Env K) (point normal dir : Vec3 K) (objs : List (Object K))
    (lights : List (Light K)) (depth : Nat) (obj : Option Nat) (rng : Nat) :
    Color K × Nat :=
  let reflection := dir.sub ((normal.scale 2).scale (Dot normal dir))
  CastRay env (point.add (reflection.scale bias)) reflection objs lights (depth + 1) obj rng
termination_by 2 * (max_depth - (depth + 1)) + 1
decreasing_by
  omega

end

/-! ## The pixel sink (`entis`) and the render passes

The passes hand `scale`, `aspect`, `width`, `height`, `objs` and `lights` on to
`RenderPixel` and read nothing else of them; the embedding takes the per-pixel
function `pixel i j`, the colour `RenderPixel(..., i, j)` returns for row `i`
and column `j`, as a parameter. -/

/-- State of the pixel sink: the current drawing colour, the points plotted so
far in the order of plotting, each `((x, y), colour)`, and the number of
`entis_update` calls. -/
structure Sink (K : Type) where
  color : Color K
  points : List ((Nat × Nat) × Color K)
  updates : Nat

/-- Call `entis_set_color_drgb(r, g, b)`. -/
def entis_set_color_drgb (r g b : K) (s : Sink K) : Sink K :=
  { s with color := ⟨r, g, b⟩ }

/-- Call `entis_point(x, y)`: plots the point in the current colour. -/
def entis_point (x y : Nat) (s : Sink K) : Sink K :=
  { s with points := s.points ++ [((x, y), s.color)] }

/-- Call `entis_update()`. -/
def entis_update (s : Sink K) : Sink K :=
  { s with updates := s.updates + 1 }

/-- Colour the sink shows at `(x, y)`: that of the last point plotted there. -/
def Sink.pixel (s : Sink K) (x y : Nat) : Option (Color K) :=
  (s.points.reverse.find? (fun p => decide (p.1 = (x, y)))).map Prod.snd

/-- Number of times `(x, y)` has been plotted. -/
def Sink.writes (s : Sink K) (x y : Nat) : Nat :=
  s.points.countP (fun p => decide (p.1 = (x, y)))

/-- Loop `for (unsigned i = lo; i < hi; ++i) body`. -/
def forRange {σ : Type} (lo hi : Nat) (body : Nat → σ → σ) (s : σ) : σ :=
  (List.range' lo (hi - lo)).foldl (fun acc i => body i acc) s

/-- The three statements every pass runs for a pixel: take the colour, set it,
plot the point in column `j` of row `i`. -/
def plot (color : Color K) (i j : Nat) (s : Sink K) : Sink K :=
  entis_point j i (entis_set_color_drgb color.r color.g color.b s)

/-- Function `RenderSinglePass`. -/
def RenderSinglePass (pixel : Nat → Nat → Color K) (width height : Nat) (s : Sink K) :
    Sink K :=
  forRange 0 height (fun i s => forRange 0 width (fun j s => plot (pixel i j) i j s) s) s

/-- Function `RenderHorizontalPass`. -/
def RenderHorizontalPass (pixel : Nat → Nat → Color K) (width height : Nat) (s : Sink K) :
    Sink K :=
  forRange 0 height
    (fun i s => entis_update (forRange 0 width (fun j s => plot (pixel i j) i j s) s)) s

/-- Function `RenderVerticalPass`. -/
def RenderVerticalPass (pixel : Nat → Nat → Color K) (width height : Nat) (s : Sink K) :
    Sink K :=
  forRange 0 width
    (fun j s => entis_update (forRange 0 height (fun i s => plot (pixel i j) i j s) s)) s

/-- Inner loop `for (unsigned k = offset; k < pixels; k += passes)` of
`RenderScatterPass`. The addition is that of `unsigned`, modulo `2 ^ 32`, so
the loop need not end: `fuel` bounds the number of tests of `k < pixels`, and
`none` says the bound was reached. -/
def RenderScatterPass.inner (pixel : Nat → Nat → Color K) (width pixels passes : Nat) :
    Nat → Nat → Sink K → Option (Sink K)
  | 0, _, _ => none
  | fuel + 1, k, s =>
    if k < pixels then
      let j := k % width
      let i := (k - j) / width
      RenderScatterPass.inner pixel width pixels passes fuel ((k + passes) % 2 ^ 32)
        (plot (pixel i j) i j s)
    else some s

/-- Function `RenderScatterPass`; `fuel` is the bound handed to each run of the
inner loop. -/
def RenderScatterPass (fuel : Nat) (pixel : Nat → Nat → Color K) (width height passes : Nat)
    (s : Sink K) : Option (Sink K) :=
  let pixels := (height * width) % 2 ^ 32
  forRange 0 passes
    (fun offset acc => acc.bind (fun s =>
      (RenderScatterPass.inner pixel width pixels passes fuel offset s).map entis_update))
    (some s)

/-- Function `RenderThread`: the colours of rows `start` to `end - 1`, row by
row. -/
def RenderThread (pixel : Nat → Nat → Color K) (width start end_ : Nat) : List (Color K) :=
  forRange start end_
    (fun i colors => forRange 0 width (fun j colors => colors ++ [pixel i j]) colors) []

/-- The plotting loops of `RenderMultiThreadPass` for one row range: rows
`start` to `end - 1`, every column, reading `colors[pos]` with `pos` counting
from `0`. The value carries the sink and `pos`; `pos` is an `unsigned`, so
`pos++` counts modulo `2 ^ 32`. An index `pos` outside the vector has no
defined effect in the source; here it plots nothing. -/
def RenderMultiThreadPass.plotRows (width : Nat) (colors : List (Color K)) (start end_ : Nat)
    (s : Sink K) : Sink K × Nat :=
  forRange start end_
    (fun i st => forRange 0 width
      (fun j st =>
        match colors[st.2]? with
        | some color => (plot color i j st.1, (st.2 + 1) % 2 ^ 32)
        | none => (st.1, (st.2 + 1) % 2 ^ 32)) st)
    (s, 0)

/-- Function `RenderMultiThreadPass`. `ppt` is `height / passes` in `unsigned`
division; the asynchronous `RenderThread` calls are pure, so each future holds
the list the call returns. With `passes = 0` the source divides by zero and
has no value; the definition stands for the source for `passes >= 1` only,
which every statement about it assumes. -/
def RenderMultiThreadPass (pixel : Nat → Nat → Color K) (width height passes : Nat)
    (s : Sink K) : Sink K :=
  let ppt := height / passes
  let threads := (List.range (passes - 1)).map
    (fun id => RenderThread pixel width (ppt * id) (ppt * (id + 1)))
  let colors := RenderThread pixel width (ppt * (passes - 1)) height
  let s := (RenderMultiThreadPass.plotRows width colors (ppt * (passes - 1)) height s).1
  let s := forRange 0 (passes - 1)
    (fun id s =>
      (RenderMultiThreadPass.plotRows width (threads.getD id []) (ppt * id) (ppt * (id + 1)) s).1)
    s
  entis_update s

/-- Locals of `CastRay` when the loop over the lights has ended, for a ray
whose `TraceRay` call succeeded: `inter`, `color`, and the `Rand` count. -/
def CastRay.afterLights [FloorRing K] (env : Env K) (start dir : Vec3 K)
    (objs : List (Object K)) (lights : List (Light K)) (rng : Nat) : ShadeState K :=
  lights.foldl (CastRay.light env start dir objs)
    { inter := (TraceRay env start dir objs env.defaultInter).2, color := env.defaultColor,
      rng := rng }

/-- The body of `CastRay` with `Reflect` written in place and an explicit
budget of nested calls: `fuel` bounds the number of `CastRay` activations
above one another, and `none` says the budget did not suffice. -/
def CastRayFuel [FloorRing K] (env : Env K) (objs : List (Object K)) (lights : List (Light K)) :
    Nat → Vec3 K → Vec3 K → Nat → Option Nat → Nat → Option (Color K × Nat)
  | 0, _, _, _, _, _ => none
  | fuel + 1, start, dir, depth, caster, rng =>
    if depth ≥ max_depth then some (background_color, rng)
    else
      let tr := TraceRay env start dir objs env.defaultInter
      if tr.1 = true ∧ tr.2.obj ≠ caster then
        let st := lights.foldl (CastRay.light env start dir objs)
          { inter := tr.2, color := env.defaultColor, rng := rng }
        if st.inter.mat.reflectivity ≠ 0 then
          let reflection := dir.sub ((st.inter.normal.scale 2).scale (Dot st.inter.normal dir))
          (CastRayFuel env objs lights fuel (st.inter.point.add (reflection.scale bias))
              reflection (depth + 1) st.inter.obj st.rng).map
            (fun reflected =>
              (Combine st.color (1 - st.inter.mat.reflectivity) reflected.1
                st.inter.mat.reflectivity, reflected.2))
        else some (st.color, st.rng)
      else some (background_color, rng)

/-- An environment over `ℚ` for running the definitions: the length is exact
on vectors along a coordinate axis, the power on the exponent `1`, `pi` is
`355 / 113`; `Rand` returns its lower bound; default-constructed values are zero, with
`t_near = INFINITY`. -/
def axisEnv : Env ℚ where
  Length := fun v => |v.x| + |v.y| + |v.z|
  pow := fun a _ => a
  pi := 355 / 113
  Rand := fun _ lo _ => lo
  defaultColor := ⟨0, 0, 0⟩
  defaultInter :=
    { t_near := ⊤, point := ⟨0, 0, 0⟩, normal := ⟨0, 0, 0⟩,
      mat := ⟨⟨0, 0, 0⟩, ⟨0, 0, 0⟩, ⟨0, 0, 0⟩, 0, 0⟩, obj := none }

/-- The environment `axisEnv` with a length that is exact on the vectors of
squared length `9` too. -/
def latticeEnv : Env ℚ :=
  { axisEnv with Length := fun v => if Dot v v = 9 then 3 else axisEnv.Length v }

/-- An object whose `Intersect` reports a hit at distance `t` for every ray,
at the point `p` with normal `n` and material `m`. -/
def constObject (t : ℚ) (p n : Vec3 ℚ) (m : Material ℚ) : Object ℚ where
  Intersect := fun _ _ it => (true, { it with t_near := (t : WithTop ℚ), point := p, normal := n, mat := m })

/-- An object whose `Intersect` reports no hit and leaves the record alone. -/
def missObject : Object ℚ where
  Intersect := fun _ _ it => (false, it)

/-- A material with the given reflectivity, white ambient colour and no
diffuse or specular colour. -/
def plainMaterial (k : ℚ) : Material ℚ :=
  ⟨⟨1, 1, 1⟩, ⟨0, 0, 0⟩, ⟨0, 0, 0⟩, 1, k⟩

/-- A perfect mirror in the plane `z = z0`, with normal `n`: its `Intersect`
reports a hit, at the point where the ray reaches the plane, for a ray that
reaches it at a positive distance; for every other ray it reports no hit and
leaves the record alone. -/
def mirrorPlane (z0 : ℚ) (n : Vec3 ℚ) : Object ℚ where
  Intersect := fun start dir it =>
    if dir.z ≠ 0 ∧ 0 < (z0 - start.z) / dir.z then
      (true, { it with t_near := (((z0 - start.z) / dir.z : ℚ) : WithTop ℚ),
                       point := start.add (dir.scale ((z0 - start.z) / dir.z)),
                       normal := n, mat := plainMaterial 1 })
    else (false, it)

/-- A record for a shading point `p` lying on the object with address `obj`,
with normal `n` and material `m`. -/
def shadingPoint (p n : Vec3 ℚ) (m : Material ℚ) (obj : Option Nat) : IntersectData ℚ :=
  { t_near := ⊤, point := p, normal := n, mat := m, obj := obj }

/-- An area light at `(5, 0, 0)` facing along the first axis, one unit wide
and high, with `n` samples per axis. Its `Illuminate` (not part of the three
source files) reports the facing direction, intensity `(1, 1, 1)` and an
infinite distance. -/
def unitAreaLight (n : Nat) : Light ℚ where
  type_ := LightType.AREA
  Illuminate := fun _ => (⟨1, 0, 0⟩, ⟨1, 1, 1⟩, ⊤)
  position_ := ⟨5, 0, 0⟩
  direction_ := ⟨1, 0, 0⟩
  width_ := 1
  height_ := 1
  samples_ := n

/-- The statement that between the sink states `s` and `s1` exactly the pixels
with `D i j` (row `i`, column `j`) were plotted, each once and in the colour
`pixel i j`, and nothing else was plotted. -/
def Plots (pixel : Nat → Nat → Color K) (s s1 : Sink K) (D : Nat → Nat → Prop) : Prop :=
  ∃ cs : List (Nat × Nat),
    s1.points = s.points ++ cs.map (fun p => ((p.2, p.1), pixel p.1 p.2)) ∧
    cs.Nodup ∧ ∀ i j, (i, j) ∈ cs ↔ D i j

/-- Row range `[start, end)` that `RenderMultiThreadPass` gives the worker
`id`: `ppt * id` to `ppt * (id + 1)` for the asynchronous workers
`id < passes - 1`, and `ppt * (passes - 1)` to `height` for the range the
caller renders itself. -/
def RenderMultiThreadPass.rowRange (height passes id : Nat) : Nat × Nat :=
  if id < passes - 1 then (height / passes * id, height / passes * (id + 1))
  else (height / passes * (passes - 1), height)

/-- The colour the plotting loops of `RenderMultiThreadPass` plot at row `i`,
column `j` of a row range that starts at row `start`, when they read the
vector `RenderThread` returned for that range: the pixel is the
`(i - start) * width + j`-th of the range, `pos` is that number modulo
`2 ^ 32`, and the colour at position `pos` of the vector is that of row
`start + pos / width`, column `pos % width`. -/
def RenderMultiThreadPass.plottedColor (pixel : Nat → Nat → Color K) (width start i j : Nat) :
    Color K :=
  pixel (start + (((i - start) * width + j) % 2 ^ 32) / width)
    ((((i - start) * width + j) % 2 ^ 32) % width)

/-- The final state of the pixel sink after a pass started in state `s`:
every pixel of the image (row `i < height`, column `j < width`) shows
`pixel i j` and has been plotted exactly once more than before, and every
coordinate outside the image is as it was. -/
def ImageWritten (pixel : Nat → Nat → Color K) (width height : Nat) (s r : Sink K) : Prop :=
  (∀ i j, i < height → j < width →
    r.pixel j i = some (pixel i j) ∧ r.writes j i = s.writes j i + 1) ∧
  (∀ x y, ¬ (y < height ∧ x < width) → r.writes x y = s.writes x y ∧ r.pixel x y = s.pixel x y)

/-- A sink on which nothing has been plotted yet. -/
def emptySink : Sink ℚ := { color := ⟨0, 0, 0⟩, points := [], updates := 0 }

/-- A per-pixel function that tags every pixel with its row and column. -/
def tagPixel (i j : Nat) : Color ℚ := ⟨(i : ℚ), (j : ℚ), 0⟩

/-! ## The loop counter of the sampling loops in IEEE arithmetic

The definitions above compute with exact numbers. The number of rounds of
`for (double u = -width_ / 2.0; u < width_ / 2.0; u += width_ / samples_)`
depends on the rounding of `u`, so the counter alone is also given with the
rounding of `double` written out. -/

/-- Nearest integer, ties to the even one. -/
def roundHalfEven (q : ℚ) : ℤ :=
  if q - ⌊q⌋ < 1 / 2 then ⌊q⌋
  else if 1 / 2 < q - ⌊q⌋ then ⌊q⌋ + 1
  else if ⌊q⌋ % 2 = 0 then ⌊q⌋ else ⌊q⌋ + 1

/-- The `double` nearest to `x` (IEEE 754 binary64, round to nearest, ties to
even), for `x` in the range of normal numbers: a significand of 53 bits. -/
def binary64 (x : ℚ) : ℚ :=
  if x = 0 then 0
  else (roundHalfEven (x / 2 ^ (Int.log 2 |x| - 52)) : ℚ) * 2 ^ (Int.log 2 |x| - 52)

/-- Number of times the body of `for (double u = u0; u < hi; u += step)` runs,
every sum rounded to `double`; `fuel` bounds the number of tests of `u < hi`
and `none` says the bound was reached. -/
def doubleLoopRounds (hi step : ℚ) : Nat → ℚ → Option Nat
  | 0, _ => none
  | fuel + 1, u =>
    if u < hi then (doubleLoopRounds hi step fuel (binary64 (u + step))).map (fun n => n + 1)
    else some 0

/-! ## The arithmetic operators of `color.cpp` -/

/-- Operator `operator+(Color lhs, Color rhs)`. -/
def Color.add (lhs rhs : Color K) : Color K := Combine lhs 1 rhs 1

/-- Operator `operator-(Color lhs, Color rhs)`, which the source writes as
`Combine(lhs, 0.5, rhs, -0.5)`. -/
def Color.sub (lhs rhs : Color K) : Color K := Combine lhs (1 / 2) rhs (-(1 / 2))

/-- Operator `operator*(Color lhs, Color rhs)`. -/
def Color.mul (lhs rhs : Color K) : Color K := ⟨lhs.r * rhs.r, lhs.g * rhs.g, lhs.b * rhs.b⟩

/-- Operator `operator/(Color lhs, Color rhs)`. -/
def Color.div (lhs rhs : Color K) : Color K := ⟨lhs.r / rhs.r, lhs.g / rhs.g, lhs.b / rhs.b⟩

/-- Operator `operator+(Color lhs, double rhs)`. -/
def Color.addScalar (lhs : Color K) (rhs : K) : Color K := ⟨lhs.r + rhs, lhs.g + rhs, lhs.b + rhs⟩

/-- Operator `operator-(Color lhs, double rhs)`. -/
def Color.subScalar (lhs : Color K) (rhs : K) : Color K := ⟨lhs.r - rhs, lhs.g - rhs, lhs.b - rhs⟩

/-- Operator `operator*(Color lhs, double rhs)`. -/
def Color.mulScalar (lhs : Color K) (rhs : K) : Color K := ⟨lhs.r * rhs, lhs.g * rhs, lhs.b * rhs⟩

/-- Operator `operator/(Color lhs, double rhs)`. -/
def Color.divScalar (lhs : Color K) (rhs : K) : Color K := ⟨lhs.r / rhs, lhs.g / rhs, lhs.b / rhs⟩

/-- Operator `operator+(double lhs, Color rhs)`. -/
def Color.scalarAdd (lhs : K) (rhs : Color K) : Color K := ⟨rhs.r + lhs, rhs.g + lhs, rhs.b + lhs⟩

/-- Operator `operator-(double lhs, Color rhs)`. -/
def Color.scalarSub (lhs : K) (rhs : Color K) : Color K := ⟨rhs.r - lhs, rhs.g - lhs, rhs.b - lhs⟩

/-- Operator `operator*(double lhs, Color rhs)`. -/
def Color.scalarMul (lhs : K) (rhs : Color K) : Color K := ⟨rhs.r * lhs, rhs.g * lhs, rhs.b * lhs⟩

/-- Operator `operator/(double lhs, Color rhs)`. -/
def Color.scalarDiv (lhs : K) (rhs : Color K) : Color K := ⟨rhs.r / lhs, rhs.g / lhs, rhs.b / lhs⟩

/-! ## The local basis of an area light and the primary ray -/

/-- Vector `u_vec` that `ShadowRay` builds for an area light with facing
direction `direction_`. -/
def ShadowRay.u_vec (env : Env K) (direction_ : Vec3 K) : Vec3 K :=
  Normalize env ⟨direction_.y, -direction_.x, 0⟩

/-- Vector `v_vec` that `ShadowRay` builds for an area light with facing
direction `direction_`. -/
def ShadowRay.v_vec (env : Env K) (direction_ : Vec3 K) : Vec3 K :=
  Cross direction_ (ShadowRay.u_vec env direction_)

/-- The vector `Vec3d dir(x, y, 1)` of `RenderPixel`, before normalisation. -/
def RenderPixel.vector (scale aspect : K) (width height row col : Nat) : Vec3 K :=
  ⟨(2 * ((col : K) + 1 / 2) / (width : K) - 1) * aspect * scale,
   (1 - 2 * ((row : K) + 1 / 2) / (height : K)) * scale, 1⟩

/-- Function `RenderPixel`; `Clamp` is `Color::Clamp` of `color.hpp`, and the
call of `CastRay` takes the default arguments `depth = 0` and
`caster = NULL`. The value is the colour and the number of `Rand` calls. -/
def RenderPixel [FloorRing K] (env : Env K) (Clamp : Color K → Color K) (scale aspect : K)
    (width height : Nat) (objs : List (Object K)) (lights : List (Light K)) (row col : Nat)
    (rng : Nat) : Color K × Nat :=
  let dir := RenderPixel.vector scale aspect width height row col
  let dir := Normalize env dir
  let color := CastRay env ⟨0, 0, 0⟩ dir objs lights 0 none rng
  (Clamp color.1, color.2)

/-! ## The factories of `light.cpp` -/

/-- Object that `std::make_unique<Light>(d)` builds from an object `d` of a
derived class: the copy constructor of `Light` copies the members of the base
class, here `type_`, `color_` and `intensity_`, and the new object is of class
`Light`, so its `Illuminate` is `Light::Illuminate`. That method is declared in
`light.hpp`; `lightIlluminate` is what it returns from the members of the base
class and the point. -/
def sliceToLight
    (lightIlluminate : LightType → Color K → K → Vec3 K → Vec3 K × Vec3 K × WithTop K)
    (type_ : LightType) (color_ : Color K) (intensity_ : K) : Light K where
  type_ := type_
  Illuminate := lightIlluminate type_ color_ intensity_
  position_ := ⟨0, 0, 0⟩
  direction_ := ⟨0, 0, 0⟩
  width_ := 0
  height_ := 0
  samples_ := 0

/-- Factory `MakeDistantLight(dir, color, intensity)`:
`std::make_unique<Light>(DistantLight(dir, color, intensity))`. -/
def MakeDistantLight (env : Env K)
    (lightIlluminate : LightType → Color K → K → Vec3 K → Vec3 K × Vec3 K × WithTop K)
    (dir : Vec3 K) (color : Color K) (intensity : K) : Light K :=
  sliceToLight lightIlluminate (DistantLight env dir color intensity).type_ color intensity

/-- Factory `MakePointLight(position, color, intensity)`:
`std::make_unique<Light>(PointLight(position, color, intensity))`. -/
def MakePointLight (env : Env K)
    (lightIlluminate : LightType → Color K → K → Vec3 K → Vec3 K × Vec3 K × WithTop K)
    (position : Vec3 K) (color : Color K) (intensity : K) : Light K :=
  sliceToLight lightIlluminate (PointLight env position color intensity).type_ color intensity

/-! ## `Render` -/

/-- Values of `RenderStyle`, the cases of the `switch` in `Render`. -/
inductive RenderStyle where
  | SINGLE_PASS
  | HORIZONTAL_PASS
  | VERTICAL_PASS
  | SCATTER_PASS
  | MULTI_THREAD
deriving DecidableEq

/-- Conversion of an `int` argument to the parameter type `unsigned`. -/
def toUnsigned (n : Int) : Nat := (n % 2 ^ 32).toNat

/-- Function `Render(objs, lights, width, height, fov, style, passes)`, without
the timing output. `tan` is the C library tangent; `pixel scale aspect width
height i j` is the colour `RenderPixel(scale, aspect, width, height, objs,
lights, i, j)` returns; `fuel` is the bound handed to `RenderScatterPass`, and
`none` says that bound was reached. The source has no other exit: it tests
none of its arguments and throws nothing. -/
def Render (tan : K → K) (pixel : K → K → Nat → Nat → Nat → Nat → Color K) (fuel : Nat)
    (width height : Nat) (fov : K) (style : RenderStyle) (passes : Int) (s : Sink K) :
    Option (Sink K) :=
  let scale := tan (fov / 2)
  let aspect := (width : K) / (height : K)
  let r : Option (Sink K) :=
    match style with
    | RenderStyle.SINGLE_PASS =>
      some (RenderSinglePass (pixel scale aspect width height) width height s)
    | RenderStyle.HORIZONTAL_PASS =>
      some (RenderHorizontalPass (pixel scale aspect width height) width height s)
    | RenderStyle.VERTICAL_PASS =>
      some (RenderVerticalPass (pixel scale aspect width height) width height s)
    | RenderStyle.SCATTER_PASS =>
      RenderScatterPass fuel (pixel scale aspect width height) width height (toUnsigned passes) s
    | RenderStyle.MULTI_THREAD =>
      some (RenderMultiThreadPass (pixel scale aspect width height) width height
        (toUnsigned passes) s)
  r.map entis_update

/-! ## The order of events in `RenderMultiThreadPass` -/

/-- What the flow that runs `RenderMultiThreadPass` does, in program order:
`launch id` is the `std::async` call that starts worker `id`, `get id` the
return of `threads[id].get()`, at which worker `id` has completed,
`point x y` the call `entis_point(x, y)`, `update` the call `entis_update()`. -/
inductive PassEvent where
  | launch (id : Nat)
  | get (id : Nat)
  | point (x y : Nat)
  | update
deriving DecidableEq

/-- The coordinate an event writes to the pixel sink, if it is a write. -/
def PassEvent.coordinate : PassEvent → Option (Nat × Nat)
  | PassEvent.point x y => some (x, y)
  | _ => none

/-- The `entis_point` calls of the plotting loops of `RenderMultiThreadPass`
for rows `start` to `end - 1`, appended to the events so far. -/
def RenderMultiThreadPass.pointRows (width start end_ : Nat) (tr : List PassEvent) :
    List PassEvent :=
  forRange start end_
    (fun i tr => forRange 0 width (fun j tr => tr ++ [PassEvent.point j i]) tr) tr

/-- The events of `RenderMultiThreadPass`, statement by statement: the loop of
`std::async` calls, the plotting loops for the range the caller rendered
itself, the loop that for each `id` calls `threads[id].get()` and then plots
that worker's range, and `entis_update()`. -/
def RenderMultiThreadPass.events (width height passes : Nat) : List PassEvent :=
  let ppt := height / passes
  let tr := forRange 0 (passes - 1) (fun id tr => tr ++ [PassEvent.launch id]) []
  let tr := RenderMultiThreadPass.pointRows width (ppt * (passes - 1)) height tr
  let tr := forRange 0 (passes - 1)
    (fun id tr =>
      RenderMultiThreadPass.pointRows width (ppt * id) (ppt * (id + 1))
        (tr ++ [PassEvent.get id]))
    tr
  tr ++ [PassEvent.update]

/-- The writes of rows `start` to `end - 1` in row-major order: rows
ascending, columns ascending within a row. -/
def rowMajorPoints (width start end_ : Nat) : List PassEvent :=
  (List.range ((end_ - start) * width)).map
    (fun k => PassEvent.point (k % width) (start + k / width))

end Defs

/-! # Theorems -/

section Theorems

variable {K : Type} [LinearOrderedField K]

/-! ## Scene traversal -/

/-- The loop of `TraceRay` either leaves the record untouched, and then no
object reports a hit nearer than the record's bound, or it leaves the record
of the first object among those with the least `t_near`, which is below the
bound. -/
theorem TraceRay.loop_spec (env : Env K) (start dir : Vec3 K) :
    ∀ (objs : List (Object K)) (idx : Nat) (inter : IntersectData K),
      (TraceRay.loop env start dir objs idx inter = inter ∧
        ∀ (j : Nat) (o : Object K), objs[j]? = some o →
          ¬ ((hitOf env start dir o).1 = true ∧ (hitOf env start dir o).2.t_near < inter.t_near)) ∨
      (∃ (i : Nat) (o : Object K), objs[i]? = some o ∧
        TraceRay.loop env start dir objs idx inter =
          { (hitOf env start dir o).2 with obj := some (idx + i) } ∧
        (hitOf env start dir o).1 = true ∧
        (hitOf env start dir o).2.t_near < inter.t_near ∧
        (∀ (j : Nat) (p : Object K), objs[j]? = some p → (hitOf env start dir p).1 = true →
          (hitOf env start dir o).2.t_near ≤ (hitOf env start dir p).2.t_near) ∧
        (∀ (j : Nat) (p : Object K), j < i → objs[j]? = some p → (hitOf env start dir p).1 = true →
          (hitOf env start dir o).2.t_near < (hitOf env start dir p).2.t_near)) := by
  intro objs
  induction objs with
  | nil =>
    intro idx inter
    left
    exact ⟨rfl, by simp⟩
  | cons a rest ih =>
    intro idx inter
    by_cases hc : (hitOf env start dir a).1 = true ∧
        (hitOf env start dir a).2.t_near < inter.t_near
    · have hstep : TraceRay.loop env start dir (a :: rest) idx inter =
          TraceRay.loop env start dir rest (idx + 1)
            { (hitOf env start dir a).2 with obj := some idx } := by
        simp only [TraceRay.loop]
        rw [if_pos hc]
      right
      rcases ih (idx + 1) { (hitOf env start dir a).2 with obj := some idx } with
        ⟨heq, hnone⟩ | ⟨i, o, hio, heq, hhit, hlt, hmin, hfirst⟩
      · refine ⟨0, a, by simp, ?_, hc.1, hc.2, ?_, ?_⟩
        · rw [hstep, heq]
          rfl
        · intro j p hj hp
          cases j with
          | zero =>
            simp at hj
            subst hj
            exact le_refl _
          | succ j =>
            simp at hj
            have := hnone j p hj
            exact not_lt.mp (fun hlt => this ⟨hp, hlt⟩)
        · intro j p hj
          omega
      · refine ⟨i + 1, o, by simpa using hio, ?_, hhit, lt_trans hlt hc.2, ?_, ?_⟩
        · rw [hstep, heq]
          simp only [Nat.add_assoc, Nat.add_comm 1 i]
        · intro j p hj hp
          cases j with
          | zero =>
            simp at hj
            subst hj
            exact le_of_lt hlt
          | succ j =>
            simp at hj
            exact hmin j p hj hp
        · intro j p hji hj hp
          cases j with
          | zero =>
            simp at hj
            subst hj
            exact hlt
          | succ j =>
            simp at hj
            exact hfirst j p (by omega) hj hp
    · have hstep : TraceRay.loop env start dir (a :: rest) idx inter =
          TraceRay.loop env start dir rest (idx + 1) inter := by
        simp only [TraceRay.loop]
        rw [if_neg hc]
      rcases ih (idx + 1) inter with
        ⟨heq, hnone⟩ | ⟨i, o, hio, heq, hhit, hlt, hmin, hfirst⟩
      · left
        refine ⟨by rw [hstep, heq], ?_⟩
        intro j p hj
        cases j with
        | zero =>
          simp at hj
          subst hj
          exact hc
        | succ j =>
          simp at hj
          exact hnone j p hj
      · right
        have ha : (hitOf env start dir a).1 = true →
            (hitOf env start dir o).2.t_near < (hitOf env start dir a).2.t_near := by
          intro h1
          have : inter.t_near ≤ (hitOf env start dir a).2.t_near :=
            not_lt.mp (fun h2 => hc ⟨h1, h2⟩)
          exact lt_of_lt_of_le hlt this
        refine ⟨i + 1, o, by simpa using hio, ?_, hhit, hlt, ?_, ?_⟩
        · rw [hstep, heq]
          simp only [Nat.add_assoc, Nat.add_comm 1 i]
        · intro j p hj hp
          cases j with
          | zero =>
            simp at hj
            subst hj
            exact le_of_lt (ha hp)
          | succ j =>
            simp at hj
            exact hmin j p hj hp
        · intro j p hji hj hp
          cases j with
          | zero =>
            simp at hj
            subst hj
            exact ha hp
          | succ j =>
            simp at hj
            exact hfirst j p (by omega) hj hp

/-- When no object reports a hit, `TraceRay` returns `false` and leaves a null
object reference, whatever bound the record came with. -/
theorem TraceRay_no_hit (env : Env K) (start dir : Vec3 K) (objs : List (Object K))
    (inter : IntersectData K) (h : ∀ o ∈ objs, (hitOf env start dir o).1 = false) :
    (TraceRay env start dir objs inter).1 = false ∧
      (TraceRay env start dir objs inter).2.obj = none := by
  have key : TraceRay.loop env start dir objs 0 { inter with obj := none } =
      { inter with obj := none } := by
    rcases TraceRay.loop_spec env start dir objs 0 { inter with obj := none } with
      ⟨heq, _⟩ | ⟨i, o, hio, _, hhit, _⟩
    · exact heq
    · have hmem : o ∈ objs := List.getElem?_mem hio
      rw [h o hmem] at hhit
      exact absurd hhit (by simp)
  simp [TraceRay, key]

/-- C3: started with `t_near = +infinity`, `TraceRay` returns `true` exactly
when some object reports a hit with finite `t_near`; the record it then leaves
is that of an object whose `t_near` is least among all objects reporting a
hit and strictly below that of every earlier object reporting a hit (so of
the earliest object attaining the minimum), with the object reference set to
it; when the result is `false`, and in particular when no object reports a
hit, the object reference is null. -/
theorem TraceRay_nearest_first (env : Env K) (start dir : Vec3 K) (objs : List (Object K))
    (inter : IntersectData K) (h : inter.t_near = ⊤) :
    ((TraceRay env start dir objs inter).1 = true ↔
      ∃ (i : Nat) (o : Object K), objs[i]? = some o ∧ (hitOf env start dir o).1 = true ∧
        (hitOf env start dir o).2.t_near < ⊤) ∧
    ((TraceRay env start dir objs inter).1 = true →
      ∃ (i : Nat) (o : Object K), objs[i]? = some o ∧
        (TraceRay env start dir objs inter).2 = { (hitOf env start dir o).2 with obj := some i } ∧
        (hitOf env start dir o).1 = true ∧
        (∀ (j : Nat) (p : Object K), objs[j]? = some p → (hitOf env start dir p).1 = true →
          (hitOf env start dir o).2.t_near ≤ (hitOf env start dir p).2.t_near) ∧
        (∀ (j : Nat) (p : Object K), j < i → objs[j]? = some p →
          (hitOf env start dir p).1 = true →
          (hitOf env start dir o).2.t_near < (hitOf env start dir p).2.t_near)) ∧
    ((TraceRay env start dir objs inter).1 = false →
      (TraceRay env start dir objs inter).2.obj = none) ∧
    ((∀ o ∈ objs, (hitOf env start dir o).1 = false) →
      (TraceRay env start dir objs inter).1 = false ∧
        (TraceRay env start dir objs inter).2.obj = none) := by
  have hfalse : (TraceRay env start dir objs inter).1 = false →
      (TraceRay env start dir objs inter).2.obj = none := by
    intro hf
    simp only [TraceRay] at hf ⊢
    cases hobj : (TraceRay.loop env start dir objs 0 { inter with obj := none }).obj with
    | none => rfl
    | some v => rw [hobj] at hf; simp at hf
  refine ⟨?_, ?_, hfalse, TraceRay_no_hit env start dir objs inter⟩
  · rcases TraceRay.loop_spec env start dir objs 0 { inter with obj := none } with
      ⟨heq, hnone⟩ | ⟨i, o, hio, heq, hhit, hlt, _, _⟩
    · constructor
      · intro ht
        simp only [TraceRay, heq] at ht
        simp at ht
      · rintro ⟨i, o, hio, hhit, hlt⟩
        exact absurd ⟨hhit, by simpa [h] using hlt⟩ (hnone i o hio)
    · constructor
      · intro _
        exact ⟨i, o, hio, hhit, by simpa [h] using hlt⟩
      · intro _
        simp only [TraceRay, heq]
        rfl
  · intro ht
    rcases TraceRay.loop_spec env start dir objs 0 { inter with obj := none } with
      ⟨heq, _⟩ | ⟨i, o, hio, heq, hhit, _, hmin, hfirst⟩
    · simp only [TraceRay, heq] at ht
      simp at ht
    · refine ⟨i, o, hio, ?_, hhit, hmin, hfirst⟩
      simp only [TraceRay, heq, Nat.zero_add]

/-- Witness for C3: two objects reporting the same distance. -/
theorem TraceRay_nearest_first_witness :
    (axisEnv.defaultInter.t_near = ⊤) ∧
    ((TraceRay axisEnv ⟨0, 0, 0⟩ ⟨0, 0, 1⟩
        [constObject 2 ⟨0, 0, 2⟩ ⟨0, 0, -1⟩ (plainMaterial 0),
         constObject 2 ⟨0, 0, 2⟩ ⟨0, 0, -1⟩ (plainMaterial 1)] axisEnv.defaultInter).1 = true ↔
      ∃ (i : Nat) (o : Object ℚ),
        [constObject 2 ⟨0, 0, 2⟩ ⟨0, 0, -1⟩ (plainMaterial 0),
         constObject 2 ⟨0, 0, 2⟩ ⟨0, 0, -1⟩ (plainMaterial 1)][i]? = some o ∧
        (hitOf axisEnv ⟨0, 0, 0⟩ ⟨0, 0, 1⟩ o).1 = true ∧
        (hitOf axisEnv ⟨0, 0, 0⟩ ⟨0, 0, 1⟩ o).2.t_near < ⊤) :=
  ⟨rfl, (TraceRay_nearest_first axisEnv ⟨0, 0, 0⟩ ⟨0, 0, 1⟩
    [constObject 2 ⟨0, 0, 2⟩ ⟨0, 0, -1⟩ (plainMaterial 0),
     constObject 2 ⟨0, 0, 2⟩ ⟨0, 0, -1⟩ (plainMaterial 1)] axisEnv.defaultInter rfl).1⟩

/-! ## `CastRay` -/

/-- One unfolding of `CastRay`. -/
theorem CastRay_unfold [FloorRing K] (env : Env K) (start dir : Vec3 K) (objs : List (Object K))
    (lights : List (Light K)) (depth : Nat) (caster : Option Nat) (rng : Nat) :
    CastRay env start dir objs lights depth caster rng =
      if depth ≥ max_depth then (background_color, rng)
      else
        if (TraceRay env start dir objs env.defaultInter).1 = true ∧
            (TraceRay env start dir objs env.defaultInter).2.obj ≠ caster then
          if (CastRay.afterLights env start dir objs lights rng).inter.mat.reflectivity ≠ 0 then
            (Combine (CastRay.afterLights env start dir objs lights rng).color
              (1 - (CastRay.afterLights env start dir objs lights rng).inter.mat.reflectivity)
              (Reflect env (CastRay.afterLights env start dir objs lights rng).inter.point
                (CastRay.afterLights env start dir objs lights rng).inter.normal
                dir objs lights depth
                (CastRay.afterLights env start dir objs lights rng).inter.obj
                (CastRay.afterLights env start dir objs lights rng).rng).1
              (CastRay.afterLights env start dir objs lights rng).inter.mat.reflectivity,
             (Reflect env (CastRay.afterLights env start dir objs lights rng).inter.point
                (CastRay.afterLights env start dir objs lights rng).inter.normal
                dir objs lights depth
                (CastRay.afterLights env start dir objs lights rng).inter.obj
                (CastRay.afterLights env start dir objs lights rng).rng).2)
          else
            ((CastRay.afterLights env start dir objs lights rng).color,
             (CastRay.afterLights env start dir objs lights rng).rng)
        else (background_color, rng) := by
  rw [CastRay]
  simp only [dite_eq_ite, CastRay.afterLights]

/-- One unfolding of `Reflect`. -/
theorem Reflect_unfold [FloorRing K] (env : Env K) (point normal dir : Vec3 K)
    (objs : List (Object K)) (lights : List (Light K)) (depth : Nat) (obj : Option Nat)
    (rng : Nat) :
    Reflect env point normal dir objs lights depth obj rng =
      CastRay env
        (point.add ((dir.sub ((normal.scale 2).scale (Dot normal dir))).scale bias))
        (dir.sub ((normal.scale 2).scale (Dot normal dir))) objs lights (depth + 1) obj rng := by
  rw [Reflect]

/-- C2: when no object reports a hit for the ray, and so when the object list
is empty, `CastRay` returns exactly `background_color` (and draws no random
number), for every light list, depth and caster. -/
theorem CastRay_no_hit_background [FloorRing K] (env : Env K) (start dir : Vec3 K)
    (objs : List (Object K)) (lights : List (Light K)) (depth : Nat) (caster : Option Nat)
    (rng : Nat) (h : ∀ o ∈ objs, (hitOf env start dir o).1 = false) :
    CastRay env start dir objs lights depth caster rng = (background_color, rng) := by
  rw [CastRay_unfold]
  have hno := (TraceRay_no_hit env start dir objs env.defaultInter h).1
  by_cases hd : depth ≥ max_depth
  · rw [if_pos hd]
  · rw [if_neg hd, if_neg]
    rw [hno]
    simp

/-- Witness for C2: a scene whose only object is missed by the ray. -/
theorem CastRay_no_hit_background_witness :
    (∀ o ∈ [missObject], (hitOf axisEnv ⟨0, 0, 0⟩ ⟨0, 0, 1⟩ o).1 = false) ∧
    CastRay axisEnv ⟨0, 0, 0⟩ ⟨0, 0, 1⟩ [missObject] [] 0 none 0 = (background_color, 0) :=
  ⟨by simp [hitOf, missObject],
   CastRay_no_hit_background axisEnv ⟨0, 0, 0⟩ ⟨0, 0, 1⟩ [missObject] [] 0 none 0
    (by simp [hitOf, missObject])⟩

/-- With a budget above `max_depth - depth`, the budgeted `CastRay` returns,
and returns what `CastRay` returns. -/
theorem CastRayFuel_enough [FloorRing K] (env : Env K) (objs : List (Object K))
    (lights : List (Light K)) :
    ∀ (fuel : Nat) (start dir : Vec3 K) (depth : Nat) (caster : Option Nat) (rng : Nat),
      max_depth - depth < fuel →
      CastRayFuel env objs lights fuel start dir depth caster rng =
        some (CastRay env start dir objs lights depth caster rng) := by
  intro fuel
  induction fuel with
  | zero => intro _ _ _ _ _ h; omega
  | succ n ih =>
    intro start dir depth caster rng h
    rw [CastRay_unfold]
    simp only [CastRayFuel]
    by_cases hd : depth ≥ max_depth
    · rw [if_pos hd, if_pos hd]
    · rw [if_neg hd, if_neg hd]
      by_cases hh : (TraceRay env start dir objs env.defaultInter).1 = true ∧
          (TraceRay env start dir objs env.defaultInter).2.obj ≠ caster
      · rw [if_pos hh, if_pos hh]
        by_cases hk : (CastRay.afterLights env start dir objs lights rng).inter.mat.reflectivity ≠ 0
        · have hk2 := hk
          simp only [CastRay.afterLights] at hk2
          rw [if_pos hk, if_pos hk2, Reflect_unfold]
          rw [ih _ _ (depth + 1) _ _ (by simp only [ge_iff_le, not_le] at hd; omega)]
          rfl
        · have hk2 := hk
          simp only [CastRay.afterLights] at hk2
          rw [if_neg hk, if_neg hk2]
          rfl
      · rw [if_neg hh, if_neg hh]

/-- C1: called with `depth >= max_depth`, `CastRay` returns exactly
`background_color`, whatever the objects, lights, ray and caster; the call
`Reflect` makes is the call of `CastRay` at `depth + 1`; and for every
starting depth a budget of `max_depth - depth + 1` nested calls is enough for
`CastRay` to return, whatever the scene. -/
theorem CastRay_terminates [FloorRing K] (env : Env K) (objs : List (Object K))
    (lights : List (Light K)) (start dir : Vec3 K) (depth : Nat) (caster : Option Nat)
    (rng : Nat) :
    (max_depth ≤ depth →
      CastRay env start dir objs lights depth caster rng = (background_color, rng)) ∧
    (∀ (point normal : Vec3 K) (obj : Option Nat),
      Reflect env point normal dir objs lights depth obj rng =
        CastRay env
          (point.add ((dir.sub ((normal.scale 2).scale (Dot normal dir))).scale bias))
          (dir.sub ((normal.scale 2).scale (Dot normal dir))) objs lights (depth + 1) obj rng) ∧
    CastRayFuel env objs lights (max_depth - depth + 1) start dir depth caster rng =
      some (CastRay env start dir objs lights depth caster rng) := by
  refine ⟨?_, ?_, ?_⟩
  · intro hd
    rw [CastRay_unfold, if_pos hd]
  · intro point normal obj
    exact Reflect_unfold env point normal dir objs lights depth obj rng
  · exact CastRayFuel_enough env objs lights _ start dir depth caster rng (by omega)

/-- Witness for C1: two facing mirrors, entered at the depth limit. -/
theorem CastRay_terminates_witness :
    max_depth ≤ 10 ∧
    CastRay axisEnv ⟨0, 0, 0⟩ ⟨0, 0, 1⟩
      [constObject 1 ⟨0, 0, 1⟩ ⟨0, 0, -1⟩ (plainMaterial 1),
       constObject 1 ⟨0, 0, -1⟩ ⟨0, 0, 1⟩ (plainMaterial 1)] [] 10 none 0 =
      (background_color, 0) :=
  ⟨by decide,
   (CastRay_terminates axisEnv
      [constObject 1 ⟨0, 0, 1⟩ ⟨0, 0, -1⟩ (plainMaterial 1),
       constObject 1 ⟨0, 0, -1⟩ ⟨0, 0, 1⟩ (plainMaterial 1)] [] ⟨0, 0, 0⟩ ⟨0, 0, 1⟩ 10 none 0).1
    (by decide)⟩

/-! ## The loop over the lights -/

/-- Flipping a vector twice gives it back. -/
theorem Vec3.scale_neg_one_twice (n : Vec3 K) : (n.scale (-1)).scale (-1) = n := by
  cases n
  simp [Vec3.scale]

/-- The reflected direction does not change when the normal is flipped. -/
theorem reflection_flip (n d : Vec3 K) :
    d.sub (((n.scale (-1)).scale 2).scale (Dot (n.scale (-1)) d)) =
      d.sub ((n.scale 2).scale (Dot n d)) := by
  simp only [Vec3.sub, Vec3.scale, Dot, Vec3.mk.injEq]
  refine ⟨?_, ?_, ?_⟩ <;> ring

/-- One pass of the light loop leaves `color` as it was (`operator+=` assigns
nothing), leaves the hit point, material and object of `inter` as they were,
and leaves the normal as it was or flipped. -/
theorem CastRay.light_keeps [FloorRing K] (env : Env K) (start dir : Vec3 K)
    (objs : List (Object K)) (st : ShadeState K) (it : Light K) :
    (CastRay.light env start dir objs st it).color = st.color ∧
    (CastRay.light env start dir objs st it).inter.point = st.inter.point ∧
    (CastRay.light env start dir objs st it).inter.mat = st.inter.mat ∧
    (CastRay.light env start dir objs st it).inter.obj = st.inter.obj ∧
    ((CastRay.light env start dir objs st it).inter.normal = st.inter.normal ∨
      (CastRay.light env start dir objs st it).inter.normal = st.inter.normal.scale (-1)) := by
  refine ⟨rfl, rfl, rfl, rfl, ?_⟩
  simp only [CastRay.light]
  split
  · right; rfl
  · left; rfl

/-- The whole light loop: same properties as one pass, from any state. -/
theorem CastRay.lights_keep [FloorRing K] (env : Env K) (start dir : Vec3 K)
    (objs : List (Object K)) (lights : List (Light K)) :
    ∀ st : ShadeState K,
      (lights.foldl (CastRay.light env start dir objs) st).color = st.color ∧
      (lights.foldl (CastRay.light env start dir objs) st).inter.point = st.inter.point ∧
      (lights.foldl (CastRay.light env start dir objs) st).inter.mat = st.inter.mat ∧
      (lights.foldl (CastRay.light env start dir objs) st).inter.obj = st.inter.obj ∧
      ((lights.foldl (CastRay.light env start dir objs) st).inter.normal = st.inter.normal ∨
        (lights.foldl (CastRay.light env start dir objs) st).inter.normal =
          st.inter.normal.scale (-1)) := by
  induction lights with
  | nil => intro st; exact ⟨rfl, rfl, rfl, rfl, Or.inl rfl⟩
  | cons it rest ih =>
    intro st
    obtain ⟨h1, h2, h3, h4, h5⟩ := ih (CastRay.light env start dir objs st it)
    obtain ⟨g1, g2, g3, g4, g5⟩ := CastRay.light_keeps env start dir objs st it
    simp only [List.foldl_cons]
    refine ⟨h1.trans g1, h2.trans g2, h3.trans g3, h4.trans g4, ?_⟩
    rcases h5 with h5 | h5 <;> rcases g5 with g5 | g5
    · left; rw [h5, g5]
    · right; rw [h5, g5]
    · right; rw [h5, g5]
    · left; rw [h5, g5, Vec3.scale_neg_one_twice]

/-- After the light loop `color` still holds the default-constructed value:
no light has contributed to it. -/
theorem CastRay.afterLights_color [FloorRing K] (env : Env K) (start dir : Vec3 K)
    (objs : List (Object K)) (lights : List (Light K)) (rng : Nat) :
    (CastRay.afterLights env start dir objs lights rng).color = env.defaultColor :=
  (CastRay.lights_keep env start dir objs lights _).1

/-- For a hit on a material of reflectivity `0`, `CastRay` returns the
default-constructed colour, whatever the lights are. -/
theorem CastRay_reflectivity_zero [FloorRing K] (env : Env K) (start dir : Vec3 K)
    (objs : List (Object K)) (lights : List (Light K)) (depth : Nat) (caster : Option Nat)
    (rng : Nat) (hd : depth < max_depth)
    (hhit : (TraceRay env start dir objs env.defaultInter).1 = true)
    (hc : (TraceRay env start dir objs env.defaultInter).2.obj ≠ caster)
    (hk : (TraceRay env start dir objs env.defaultInter).2.mat.reflectivity = 0) :
    (CastRay env start dir objs lights depth caster rng).1 = env.defaultColor := by
  rw [CastRay_unfold, if_neg (by omega), if_pos ⟨hhit, hc⟩]
  have hm : (CastRay.afterLights env start dir objs lights rng).inter.mat =
      (TraceRay env start dir objs env.defaultInter).2.mat :=
    (CastRay.lights_keep env start dir objs lights _).2.2.1
  rw [if_neg (by rw [hm, hk]; simp)]
  exact CastRay.afterLights_color env start dir objs lights rng

/-- C4 (the code at the failing input): one object of reflectivity `0` hit at
distance `2`, one distant light of intensity `(1, 1, 1)` shining along the
ray. Whatever value `c` a default-constructed colour holds, `CastRay` returns
`c`, while the contribution of the light that `color += ...` should have
accumulated is `(1/5, 1/5, 1/5)` for every diffuse and specular weight. -/
theorem CastRay_drops_light_sum :
    (∀ c : Color ℚ,
      (CastRay { axisEnv with defaultColor := c } ⟨0, 0, 0⟩ ⟨0, 0, 1⟩
        [constObject 2 ⟨0, 0, 2⟩ ⟨0, 0, -1⟩ (plainMaterial 0)]
        [DistantLight axisEnv ⟨0, 0, 1⟩ ⟨1, 1, 1⟩ 1] 0 none 0).1 = c) ∧
    (∀ diffuse specular : ℚ,
      CastRay.contribution (plainMaterial 0)
        ((DistantLight axisEnv ⟨0, 0, 1⟩ ⟨1, 1, 1⟩ 1).Illuminate ⟨0, 0, 2⟩).2.1
        (2 / 10) diffuse specular = ⟨1 / 5, 1 / 5, 1 / 5⟩) := by
  constructor
  · intro c
    exact CastRay_reflectivity_zero { axisEnv with defaultColor := c } ⟨0, 0, 0⟩ ⟨0, 0, 1⟩
      [constObject 2 ⟨0, 0, 2⟩ ⟨0, 0, -1⟩ (plainMaterial 0)]
      [DistantLight axisEnv ⟨0, 0, 1⟩ ⟨1, 1, 1⟩ 1] 0 none 0 (by decide)
      (show (TraceRay axisEnv ⟨0, 0, 0⟩ ⟨0, 0, 1⟩
        [constObject 2 ⟨0, 0, 2⟩ ⟨0, 0, -1⟩ (plainMaterial 0)] axisEnv.defaultInter).1 = true
        by decide)
      (show (TraceRay axisEnv ⟨0, 0, 0⟩ ⟨0, 0, 1⟩
        [constObject 2 ⟨0, 0, 2⟩ ⟨0, 0, -1⟩ (plainMaterial 0)] axisEnv.defaultInter).2.obj ≠ none
        by decide)
      (show (TraceRay axisEnv ⟨0, 0, 0⟩ ⟨0, 0, 1⟩
        [constObject 2 ⟨0, 0, 2⟩ ⟨0, 0, -1⟩ (plainMaterial 0)]
        axisEnv.defaultInter).2.mat.reflectivity = 0 by decide)
  · intro diffuse specular
    simp only [CastRay.contribution, plainMaterial, DistantLight, DistantLight.Illuminate,
      Color.Vector, Color.ofVector, Vec3.mul, Vec3.scale, Vec3.add, Color.mk.injEq]
    refine ⟨?_, ?_, ?_⟩ <;> norm_num

/-- The blend step of `CastRay`: for a hit at depth below `max_depth`, with `k`
the reflectivity of the hit material and `local` the value the variable
`color` holds after the light loop: if `k != 0` the
result is `local * (1 - k) + reflected * k` in each channel, where `reflected`
is `CastRay` from `point + r * bias` in direction
`r = dir - normal * 2 * Dot(normal, dir)` at `depth + 1` with the hit object as
caster; if `k = 0` the result is `local` and one activation of `CastRay` is
enough (no nested call); if `k = 1` the result is exactly `reflected`. -/
theorem CastRay_blend [FloorRing K] (env : Env K) (start dir : Vec3 K)
    (objs : List (Object K)) (lights : List (Light K)) (depth : Nat) (caster : Option Nat)
    (rng : Nat) (hd : depth < max_depth)
    (hhit : (TraceRay env start dir objs env.defaultInter).1 = true)
    (hc : (TraceRay env start dir objs env.defaultInter).2.obj ≠ caster) :
    ((TraceRay env start dir objs env.defaultInter).2.mat.reflectivity ≠ 0 →
      CastRay env start dir objs lights depth caster rng =
        (Combine (CastRay.afterLights env start dir objs lights rng).color
          (1 - (TraceRay env start dir objs env.defaultInter).2.mat.reflectivity)
          (CastRay env
            ((TraceRay env start dir objs env.defaultInter).2.point.add
              ((dir.sub (((TraceRay env start dir objs env.defaultInter).2.normal.scale 2).scale
                (Dot (TraceRay env start dir objs env.defaultInter).2.normal dir))).scale bias))
            (dir.sub (((TraceRay env start dir objs env.defaultInter).2.normal.scale 2).scale
              (Dot (TraceRay env start dir objs env.defaultInter).2.normal dir)))
            objs lights (depth + 1) (TraceRay env start dir objs env.defaultInter).2.obj
            (CastRay.afterLights env start dir objs lights rng).rng).1
          (TraceRay env start dir objs env.defaultInter).2.mat.reflectivity,
         (CastRay env
            ((TraceRay env start dir objs env.defaultInter).2.point.add
              ((dir.sub (((TraceRay env start dir objs env.defaultInter).2.normal.scale 2).scale
                (Dot (TraceRay env start dir objs env.defaultInter).2.normal dir))).scale bias))
            (dir.sub (((TraceRay env start dir objs env.defaultInter).2.normal.scale 2).scale
              (Dot (TraceRay env start dir objs env.defaultInter).2.normal dir)))
            objs lights (depth + 1) (TraceRay env start dir objs env.defaultInter).2.obj
            (CastRay.afterLights env start dir objs lights rng).rng).2)) ∧
    ((TraceRay env start dir objs env.defaultInter).2.mat.reflectivity = 0 →
      CastRay env start dir objs lights depth caster rng =
        ((CastRay.afterLights env start dir objs lights rng).color,
         (CastRay.afterLights env start dir objs lights rng).rng) ∧
      CastRayFuel env objs lights 1 start dir depth caster rng =
        some ((CastRay.afterLights env start dir objs lights rng).color,
          (CastRay.afterLights env start dir objs lights rng).rng)) ∧
    ((TraceRay env start dir objs env.defaultInter).2.mat.reflectivity = 1 →
      (CastRay env start dir objs lights depth caster rng).1 =
        (CastRay env
            ((TraceRay env start dir objs env.defaultInter).2.point.add
              ((dir.sub (((TraceRay env start dir objs env.defaultInter).2.normal.scale 2).scale
                (Dot (TraceRay env start dir objs env.defaultInter).2.normal dir))).scale bias))
            (dir.sub (((TraceRay env start dir objs env.defaultInter).2.normal.scale 2).scale
              (Dot (TraceRay env start dir objs env.defaultInter).2.normal dir)))
            objs lights (depth + 1) (TraceRay env start dir objs env.defaultInter).2.obj
            (CastRay.afterLights env start dir objs lights rng).rng).1) := by
  obtain ⟨_, hp, hm, ho, hn⟩ := CastRay.lights_keep env start dir objs lights
    { inter := (TraceRay env start dir objs env.defaultInter).2, color := env.defaultColor,
      rng := rng }
  change (CastRay.afterLights env start dir objs lights rng).inter.point = _ at hp
  change (CastRay.afterLights env start dir objs lights rng).inter.mat = _ at hm
  change (CastRay.afterLights env start dir objs lights rng).inter.obj = _ at ho
  change (CastRay.afterLights env start dir objs lights rng).inter.normal = _ ∨
    (CastRay.afterLights env start dir objs lights rng).inter.normal = _ at hn
  simp only at hp hm ho hn
  have hr : dir.sub (((CastRay.afterLights env start dir objs lights rng).inter.normal.scale
        2).scale (Dot (CastRay.afterLights env start dir objs lights rng).inter.normal dir)) =
      dir.sub (((TraceRay env start dir objs env.defaultInter).2.normal.scale 2).scale
        (Dot (TraceRay env start dir objs env.defaultInter).2.normal dir)) := by
    rcases hn with hn | hn
    · rw [hn]
    · rw [hn, reflection_flip]
  refine ⟨?_, ?_, ?_⟩
  · intro hk
    rw [CastRay_unfold, if_neg (by omega), if_pos ⟨hhit, hc⟩, if_pos (by rw [hm]; exact hk),
      Reflect_unfold, hr, hp, hm, ho]
  · intro hk
    have h1 : CastRay env start dir objs lights depth caster rng =
        ((CastRay.afterLights env start dir objs lights rng).color,
         (CastRay.afterLights env start dir objs lights rng).rng) := by
      rw [CastRay_unfold, if_neg (by omega), if_pos ⟨hhit, hc⟩,
        if_neg (by rw [hm, hk]; simp)]
    refine ⟨h1, ?_⟩
    have hm2 := hm
    simp only [CastRay.afterLights] at hm2
    simp only [CastRayFuel]
    rw [if_neg (by omega), if_pos ⟨hhit, hc⟩, if_neg (by rw [hm2, hk]; simp)]
    rfl
  · intro hk
    rw [CastRay_unfold, if_neg (by omega), if_pos ⟨hhit, hc⟩,
      if_pos (by rw [hm, hk]; exact one_ne_zero), Reflect_unfold, hr, hp, hm, ho, hk]
    simp [Combine]

/-- C5 (the code at the failing input): one object of reflectivity `1/2` hit
at distance `2`, one distant light of intensity `(1, 1, 1)` shining along the
ray; the reflected ray meets the caster, so the reflected colour is
`background_color`. The blend is `color * (1 - 1/2) + reflected * 1/2` in each
channel, but `color` is not the local illumination: whatever value `c` a
default-constructed colour holds, `color` is still `c` after the light loop,
while the contribution of the light that `color += ...` should have
accumulated is `(1/5, 1/5, 1/5)`. For `c = (0, 0, 0)` the result is
`(1/10, 1/10, 3/20)`, where the blend of the local illumination with the
reflected colour is `(1/5, 1/5, 1/4)`. The same scene with reflectivity `0`
returns `c`. -/
theorem CastRay_blend_default_color :
    (∀ c : Color ℚ,
      (CastRay { axisEnv with defaultColor := c } ⟨0, 0, 0⟩ ⟨0, 0, 1⟩
        [constObject 2 ⟨0, 0, 2⟩ ⟨0, 0, -1⟩ (plainMaterial (1 / 2))]
        [DistantLight axisEnv ⟨0, 0, 1⟩ ⟨1, 1, 1⟩ 1] 0 none 0).1 =
        ⟨c.r * (1 - 1 / 2) + 2 / 10 * (1 / 2), c.g * (1 - 1 / 2) + 2 / 10 * (1 / 2),
          c.b * (1 - 1 / 2) + 3 / 10 * (1 / 2)⟩) ∧
    (CastRay axisEnv ⟨0, 0, 0⟩ ⟨0, 0, 1⟩
        [constObject 2 ⟨0, 0, 2⟩ ⟨0, 0, -1⟩ (plainMaterial (1 / 2))]
        [DistantLight axisEnv ⟨0, 0, 1⟩ ⟨1, 1, 1⟩ 1] 0 none 0).1 = ⟨1 / 10, 1 / 10, 3 / 20⟩ ∧
    (∀ diffuse specular : ℚ,
      CastRay.contribution (plainMaterial (1 / 2))
        ((DistantLight axisEnv ⟨0, 0, 1⟩ ⟨1, 1, 1⟩ 1).Illuminate ⟨0, 0, 2⟩).2.1
        (2 / 10) diffuse specular = ⟨1 / 5, 1 / 5, 1 / 5⟩) ∧
    Combine (⟨1 / 5, 1 / 5, 1 / 5⟩ : Color ℚ) (1 - 1 / 2) background_color (1 / 2) =
      ⟨1 / 5, 1 / 5, 1 / 4⟩ ∧
    (∀ c : Color ℚ,
      (CastRay { axisEnv with defaultColor := c } ⟨0, 0, 0⟩ ⟨0, 0, 1⟩
        [constObject 2 ⟨0, 0, 2⟩ ⟨0, 0, -1⟩ (plainMaterial 0)]
        [DistantLight axisEnv ⟨0, 0, 1⟩ ⟨1, 1, 1⟩ 1] 0 none 0).1 = c) := by
  have hblend : ∀ c : Color ℚ,
      (CastRay { axisEnv with defaultColor := c } ⟨0, 0, 0⟩ ⟨0, 0, 1⟩
        [constObject 2 ⟨0, 0, 2⟩ ⟨0, 0, -1⟩ (plainMaterial (1 / 2))]
        [DistantLight axisEnv ⟨0, 0, 1⟩ ⟨1, 1, 1⟩ 1] 0 none 0).1 =
        ⟨c.r * (1 - 1 / 2) + 2 / 10 * (1 / 2), c.g * (1 - 1 / 2) + 2 / 10 * (1 / 2),
          c.b * (1 - 1 / 2) + 3 / 10 * (1 / 2)⟩ := by
    intro c
    have h2 : (2 : WithTop ℚ) < ⊤ := by
      exact_mod_cast WithTop.coe_lt_top (2 : ℚ)
    have hobj : ∀ p r : Vec3 ℚ,
        (TraceRay { axisEnv with defaultColor := c } p r
          [constObject 2 ⟨0, 0, 2⟩ ⟨0, 0, -1⟩ (plainMaterial (1 / 2))]
          ({ axisEnv with defaultColor := c } : Env ℚ).defaultInter).2.obj = some 0 :=
      fun p r => by
        simp only [TraceRay, TraceRay.loop, hitOf, constObject, axisEnv]
        simp [h2]
    have hk : (TraceRay { axisEnv with defaultColor := c } ⟨0, 0, 0⟩ ⟨0, 0, 1⟩
          [constObject 2 ⟨0, 0, 2⟩ ⟨0, 0, -1⟩ (plainMaterial (1 / 2))]
          ({ axisEnv with defaultColor := c } : Env ℚ).defaultInter).2.mat.reflectivity =
        1 / 2 := by
      simp only [TraceRay, TraceRay.loop, hitOf, constObject, axisEnv]
      simp [plainMaterial, h2]
    have hhit : (TraceRay { axisEnv with defaultColor := c } ⟨0, 0, 0⟩ ⟨0, 0, 1⟩
          [constObject 2 ⟨0, 0, 2⟩ ⟨0, 0, -1⟩ (plainMaterial (1 / 2))]
          ({ axisEnv with defaultColor := c } : Env ℚ).defaultInter).1 = true := by
      simp only [TraceRay, hobj]
      rfl
    have h1 := (CastRay_blend { axisEnv with defaultColor := c } ⟨0, 0, 0⟩ ⟨0, 0, 1⟩
      [constObject 2 ⟨0, 0, 2⟩ ⟨0, 0, -1⟩ (plainMaterial (1 / 2))]
      [DistantLight axisEnv ⟨0, 0, 1⟩ ⟨1, 1, 1⟩ 1] 0 none 0 (by decide) hhit
      (by rw [hobj]; simp)).1 (by rw [hk]; norm_num)
    rw [h1, CastRay.afterLights_color, hk, CastRay_unfold, if_neg (by decide),
      if_neg (fun hc => hc.2 (hobj _ _))]
    simp only [Combine, background_color]
  refine ⟨hblend, ?_, ?_, ?_, ?_⟩
  · have h0 := hblend axisEnv.defaultColor
    have e : ({ axisEnv with defaultColor := axisEnv.defaultColor } : Env ℚ) = axisEnv := rfl
    rw [e] at h0
    rw [h0]
    simp only [axisEnv, Color.mk.injEq]
    refine ⟨?_, ?_, ?_⟩ <;> norm_num
  · intro diffuse specular
    simp only [CastRay.contribution, plainMaterial, DistantLight, DistantLight.Illuminate,
      Color.Vector, Color.ofVector, Vec3.mul, Vec3.scale, Vec3.add, Color.mk.injEq]
    refine ⟨?_, ?_, ?_⟩ <;> norm_num
  · simp only [Combine, background_color, Color.mk.injEq]
    refine ⟨?_, ?_, ?_⟩ <;> norm_num
  · intro c
    exact CastRay_reflectivity_zero { axisEnv with defaultColor := c } ⟨0, 0, 0⟩ ⟨0, 0, 1⟩
      [constObject 2 ⟨0, 0, 2⟩ ⟨0, 0, -1⟩ (plainMaterial 0)]
      [DistantLight axisEnv ⟨0, 0, 1⟩ ⟨1, 1, 1⟩ 1] 0 none 0 (by decide)
      (show (TraceRay axisEnv ⟨0, 0, 0⟩ ⟨0, 0, 1⟩
        [constObject 2 ⟨0, 0, 2⟩ ⟨0, 0, -1⟩ (plainMaterial 0)] axisEnv.defaultInter).1 = true
        by decide)
      (show (TraceRay axisEnv ⟨0, 0, 0⟩ ⟨0, 0, 1⟩
        [constObject 2 ⟨0, 0, 2⟩ ⟨0, 0, -1⟩ (plainMaterial 0)] axisEnv.defaultInter).2.obj ≠ none
        by decide)
      (show (TraceRay axisEnv ⟨0, 0, 0⟩ ⟨0, 0, 1⟩
        [constObject 2 ⟨0, 0, 2⟩ ⟨0, 0, -1⟩ (plainMaterial 0)]
        axisEnv.defaultInter).2.mat.reflectivity = 0 by decide)

/-! ## `ShadowRay`: distant and point lights -/

/-- What `ShadowRay` returns for a distant or point light, as a case
distinction on the occlusion test. -/
theorem ShadowRay_vis_eq [FloorRing K] (env : Env K) (light : Light K)
    (inter : IntersectData K) (objs : List (Object K)) (rng : Nat)
    (ht : light.type_ = LightType.DISTANT ∨ light.type_ = LightType.POINT) :
    (ShadowRay env light inter objs rng).vis =
      if (ShadowRay.occlusion env inter objs (light.Illuminate inter.point).1
          { env.defaultInter with t_near := (light.Illuminate inter.point).2.2 }).2.obj =
            inter.obj then 1
      else if (ShadowRay.occlusion env inter objs (light.Illuminate inter.point).1
          { env.defaultInter with t_near := (light.Illuminate inter.point).2.2 }).1 = true then 0
      else 1 := by
  simp only [ShadowRay]
  rw [if_pos ht]

/-- The two cases of `ShadowRay` for a distant or point light, in terms of the
objects of the scene: either no object reports a hit of the occlusion ray
below the distance the light reported, and the value is `1`; or the first
object among those the ray meets nearest lies below that distance, and the
value is `1` if that object is the shaded one and `0` if it is not. -/
theorem ShadowRay_vis_cases [FloorRing K] (env : Env K) (light : Light K)
    (inter : IntersectData K) (objs : List (Object K)) (rng : Nat)
    (ht : light.type_ = LightType.DISTANT ∨ light.type_ = LightType.POINT) :
    ((∀ (j : Nat) (o : Object K), objs[j]? = some o →
        ¬ ((hitOf env (inter.point.add ((light.Illuminate inter.point).1.scale (-bias)))
              ((light.Illuminate inter.point).1.scale (-1)) o).1 = true ∧
          (hitOf env (inter.point.add ((light.Illuminate inter.point).1.scale (-bias)))
              ((light.Illuminate inter.point).1.scale (-1)) o).2.t_near <
            (light.Illuminate inter.point).2.2)) ∧
      (ShadowRay env light inter objs rng).vis = 1) ∨
    (∃ (i : Nat) (o : Object K), objs[i]? = some o ∧
      (hitOf env (inter.point.add ((light.Illuminate inter.point).1.scale (-bias)))
        ((light.Illuminate inter.point).1.scale (-1)) o).1 = true ∧
      (hitOf env (inter.point.add ((light.Illuminate inter.point).1.scale (-bias)))
        ((light.Illuminate inter.point).1.scale (-1)) o).2.t_near <
          (light.Illuminate inter.point).2.2 ∧
      (∀ (j : Nat) (p : Object K), objs[j]? = some p →
        (hitOf env (inter.point.add ((light.Illuminate inter.point).1.scale (-bias)))
          ((light.Illuminate inter.point).1.scale (-1)) p).1 = true →
        (hitOf env (inter.point.add ((light.Illuminate inter.point).1.scale (-bias)))
          ((light.Illuminate inter.point).1.scale (-1)) o).2.t_near ≤
        (hitOf env (inter.point.add ((light.Illuminate inter.point).1.scale (-bias)))
          ((light.Illuminate inter.point).1.scale (-1)) p).2.t_near) ∧
      (∀ (j : Nat) (p : Object K), j < i → objs[j]? = some p →
        (hitOf env (inter.point.add ((light.Illuminate inter.point).1.scale (-bias)))
          ((light.Illuminate inter.point).1.scale (-1)) p).1 = true →
        (hitOf env (inter.point.add ((light.Illuminate inter.point).1.scale (-bias)))
          ((light.Illuminate inter.point).1.scale (-1)) o).2.t_near <
        (hitOf env (inter.point.add ((light.Illuminate inter.point).1.scale (-bias)))
          ((light.Illuminate inter.point).1.scale (-1)) p).2.t_near) ∧
      (ShadowRay env light inter objs rng).vis = if inter.obj = some i then 1 else 0) := by
  rw [ShadowRay_vis_eq env light inter objs rng ht]
  simp only [ShadowRay.occlusion, TraceRay]
  rcases TraceRay.loop_spec env (inter.point.add ((light.Illuminate inter.point).1.scale (-bias)))
      ((light.Illuminate inter.point).1.scale (-1)) objs 0
      { t_near := (light.Illuminate inter.point).2.2, point := env.defaultInter.point,
        normal := env.defaultInter.normal, mat := env.defaultInter.mat, obj := none } with
    ⟨heq, hnone⟩ | ⟨i, o, hio, heq, hhit, hlt, hmin, hfirst⟩
  · left
    refine ⟨hnone, ?_⟩
    simp only [heq]
    simp
  · right
    refine ⟨i, o, hio, hhit, hlt, hmin, hfirst, ?_⟩
    simp only [heq, Nat.zero_add, Option.isSome_some, if_true]
    by_cases h : inter.obj = some i
    · rw [if_pos h.symm, if_pos h]
    · rw [if_neg (fun h2 => h h2.symm), if_neg h]

/-- C6: for a light whose `type_` is `DISTANT` or `POINT`, with the occlusion
ray cast from `inter.point + light_dir * -bias` in direction `-light_dir` and
bounded by the distance the light reported, `ShadowRay` returns `0` or `1`:
`1` when no object of the scene reports a hit of that ray below the bound;
and when objects do, with `i` the first object in the list among those the
ray meets nearest, `1` if `i` is the object the shading point lies on and `0`
if it is not. One of the two cases always holds. -/
theorem ShadowRay_distant_point [FloorRing K] (env : Env K) (light : Light K)
    (inter : IntersectData K) (objs : List (Object K)) (rng : Nat)
    (ht : light.type_ = LightType.DISTANT ∨ light.type_ = LightType.POINT) :
    ((ShadowRay env light inter objs rng).vis = 0 ∨
      (ShadowRay env light inter objs rng).vis = 1) ∧
    ((∀ o ∈ objs,
        ¬ ((hitOf env (inter.point.add ((light.Illuminate inter.point).1.scale (-bias)))
              ((light.Illuminate inter.point).1.scale (-1)) o).1 = true ∧
          (hitOf env (inter.point.add ((light.Illuminate inter.point).1.scale (-bias)))
              ((light.Illuminate inter.point).1.scale (-1)) o).2.t_near <
            (light.Illuminate inter.point).2.2)) →
      (ShadowRay env light inter objs rng).vis = 1) ∧
    (∀ (i : Nat) (o : Object K), objs[i]? = some o →
      (hitOf env (inter.point.add ((light.Illuminate inter.point).1.scale (-bias)))
        ((light.Illuminate inter.point).1.scale (-1)) o).1 = true →
      (hitOf env (inter.point.add ((light.Illuminate inter.point).1.scale (-bias)))
        ((light.Illuminate inter.point).1.scale (-1)) o).2.t_near <
          (light.Illuminate inter.point).2.2 →
      (∀ (j : Nat) (p : Object K), objs[j]? = some p →
        (hitOf env (inter.point.add ((light.Illuminate inter.point).1.scale (-bias)))
          ((light.Illuminate inter.point).1.scale (-1)) p).1 = true →
        (hitOf env (inter.point.add ((light.Illuminate inter.point).1.scale (-bias)))
          ((light.Illuminate inter.point).1.scale (-1)) o).2.t_near ≤
        (hitOf env (inter.point.add ((light.Illuminate inter.point).1.scale (-bias)))
          ((light.Illuminate inter.point).1.scale (-1)) p).2.t_near) →
      (∀ (j : Nat) (p : Object K), j < i → objs[j]? = some p →
        (hitOf env (inter.point.add ((light.Illuminate inter.point).1.scale (-bias)))
          ((light.Illuminate inter.point).1.scale (-1)) p).1 = true →
        (hitOf env (inter.point.add ((light.Illuminate inter.point).1.scale (-bias)))
          ((light.Illuminate inter.point).1.scale (-1)) o).2.t_near <
        (hitOf env (inter.point.add ((light.Illuminate inter.point).1.scale (-bias)))
          ((light.Illuminate inter.point).1.scale (-1)) p).2.t_near) →
      (inter.obj = some i → (ShadowRay env light inter objs rng).vis = 1) ∧
      (inter.obj ≠ some i → (ShadowRay env light inter objs rng).vis = 0)) ∧
    ((∀ o ∈ objs,
        ¬ ((hitOf env (inter.point.add ((light.Illuminate inter.point).1.scale (-bias)))
              ((light.Illuminate inter.point).1.scale (-1)) o).1 = true ∧
          (hitOf env (inter.point.add ((light.Illuminate inter.point).1.scale (-bias)))
              ((light.Illuminate inter.point).1.scale (-1)) o).2.t_near <
            (light.Illuminate inter.point).2.2)) ∨
      ∃ (i : Nat) (o : Object K), objs[i]? = some o ∧
        (hitOf env (inter.point.add ((light.Illuminate inter.point).1.scale (-bias)))
          ((light.Illuminate inter.point).1.scale (-1)) o).1 = true ∧
        (hitOf env (inter.point.add ((light.Illuminate inter.point).1.scale (-bias)))
          ((light.Illuminate inter.point).1.scale (-1)) o).2.t_near <
            (light.Illuminate inter.point).2.2 ∧
        (∀ (j : Nat) (p : Object K), objs[j]? = some p →
          (hitOf env (inter.point.add ((light.Illuminate inter.point).1.scale (-bias)))
            ((light.Illuminate inter.point).1.scale (-1)) p).1 = true →
          (hitOf env (inter.point.add ((light.Illuminate inter.point).1.scale (-bias)))
            ((light.Illuminate inter.point).1.scale (-1)) o).2.t_near ≤
          (hitOf env (inter.point.add ((light.Illuminate inter.point).1.scale (-bias)))
            ((light.Illuminate inter.point).1.scale (-1)) p).2.t_near) ∧
        (∀ (j : Nat) (p : Object K), j < i → objs[j]? = some p →
          (hitOf env (inter.point.add ((light.Illuminate inter.point).1.scale (-bias)))
            ((light.Illuminate inter.point).1.scale (-1)) p).1 = true →
          (hitOf env (inter.point.add ((light.Illuminate inter.point).1.scale (-bias)))
            ((light.Illuminate inter.point).1.scale (-1)) o).2.t_near <
          (hitOf env (inter.point.add ((light.Illuminate inter.point).1.scale (-bias)))
            ((light.Illuminate inter.point).1.scale (-1)) p).2.t_near)) := by
  rcases ShadowRay_vis_cases env light inter objs rng ht with
    ⟨hnone, hv⟩ | ⟨i1, o1, hio1, hhit1, hlt1, hmin1, hfirst1, hv⟩
  · refine ⟨Or.inr hv, fun _ => hv, ?_, Or.inl ?_⟩
    · intro i o hio hhit hlt _ _
      exact absurd ⟨hhit, hlt⟩ (hnone i o hio)
    · intro o ho
      obtain ⟨j, hj⟩ := List.getElem?_of_mem ho
      exact hnone j o hj
  · refine ⟨?_, ?_, ?_, Or.inr ⟨i1, o1, hio1, hhit1, hlt1, hmin1, hfirst1⟩⟩
    · rw [hv]
      split
      · right; rfl
      · left; rfl
    · intro hno
      exact absurd ⟨hhit1, hlt1⟩ (hno o1 (List.getElem?_mem hio1))
    · intro i o hio hhit hlt hmin hfirst
      have hii : i1 = i := by
        rcases Nat.lt_trichotomy i1 i with h | h | h
        · exact absurd (hfirst i1 o1 h hio1 hhit1) (not_lt.mpr (hmin1 i o hio hhit))
        · exact h
        · exact absurd (hfirst1 i o h hio hhit) (not_lt.mpr (hmin i1 o1 hio1 hhit1))
      subst hii
      rw [hv]
      exact ⟨fun h => if_pos h, fun h => if_neg h⟩

/-- Witness for C6: a distant light shining along `(0, 0, -1)`; the occlusion
ray misses the first object of the scene and meets the second, which is not
the shaded object, at distance `2`, so the value is `0`; with the shaded
object being that second object the value is `1`. -/
theorem ShadowRay_distant_point_witness :
    ((DistantLight axisEnv ⟨0, 0, -1⟩ ⟨1, 1, 1⟩ 1).type_ = LightType.DISTANT ∨
      (DistantLight axisEnv ⟨0, 0, -1⟩ ⟨1, 1, 1⟩ 1).type_ = LightType.POINT) ∧
    (ShadowRay axisEnv (DistantLight axisEnv ⟨0, 0, -1⟩ ⟨1, 1, 1⟩ 1)
      (shadingPoint ⟨0, 0, 0⟩ ⟨0, 0, 1⟩ (plainMaterial 0) (some 0))
      [missObject, constObject 2 ⟨0, 0, 2⟩ ⟨0, 0, -1⟩ (plainMaterial 0)] 0).vis = 0 ∧
    (ShadowRay axisEnv (DistantLight axisEnv ⟨0, 0, -1⟩ ⟨1, 1, 1⟩ 1)
      (shadingPoint ⟨0, 0, 0⟩ ⟨0, 0, 1⟩ (plainMaterial 0) (some 1))
      [missObject, constObject 2 ⟨0, 0, 2⟩ ⟨0, 0, -1⟩ (plainMaterial 0)] 0).vis = 1 := by
  have hmin : ∀ (q : Option Nat) (j : Nat) (p : Object ℚ),
      [missObject, constObject 2 ⟨0, 0, 2⟩ ⟨0, 0, -1⟩ (plainMaterial 0)][j]? = some p →
      (hitOf axisEnv
        ((shadingPoint ⟨0, 0, 0⟩ ⟨0, 0, 1⟩ (plainMaterial 0) q).point.add
          (((DistantLight axisEnv ⟨0, 0, -1⟩ ⟨1, 1, 1⟩ 1).Illuminate
            (shadingPoint ⟨0, 0, 0⟩ ⟨0, 0, 1⟩ (plainMaterial 0) q).point).1.scale (-bias)))
        (((DistantLight axisEnv ⟨0, 0, -1⟩ ⟨1, 1, 1⟩ 1).Illuminate
          (shadingPoint ⟨0, 0, 0⟩ ⟨0, 0, 1⟩ (plainMaterial 0) q).point).1.scale (-1)) p).1 = true →
      p = constObject 2 ⟨0, 0, 2⟩ ⟨0, 0, -1⟩ (plainMaterial 0) ∧ j = 1 := by
    intro q j p hj hp
    match j, hj with
    | 0, hj =>
      simp only [List.getElem?_cons_zero, Option.some.injEq] at hj
      subst hj
      exact absurd hp (by simp [hitOf, missObject])
    | 1, hj =>
      simp only [List.getElem?_cons_succ, List.getElem?_cons_zero, Option.some.injEq] at hj
      exact ⟨hj.symm, rfl⟩
    | j + 2, hj => simp at hj
  refine ⟨Or.inl rfl, ?_, ?_⟩
  · exact ((ShadowRay_distant_point axisEnv (DistantLight axisEnv ⟨0, 0, -1⟩ ⟨1, 1, 1⟩ 1)
      (shadingPoint ⟨0, 0, 0⟩ ⟨0, 0, 1⟩ (plainMaterial 0) (some 0))
      [missObject, constObject 2 ⟨0, 0, 2⟩ ⟨0, 0, -1⟩ (plainMaterial 0)] 0 (Or.inl rfl)).2.2.1
      1 (constObject 2 ⟨0, 0, 2⟩ ⟨0, 0, -1⟩ (plainMaterial 0)) rfl rfl
      (WithTop.coe_lt_top _)
      (fun j p hj hp => by rw [(hmin (some 0) j p hj hp).1])
      (fun j p hlt hj hp => absurd (hmin (some 0) j p hj hp).2 (by omega))).2 (by decide)
  · exact ((ShadowRay_distant_point axisEnv (DistantLight axisEnv ⟨0, 0, -1⟩ ⟨1, 1, 1⟩ 1)
      (shadingPoint ⟨0, 0, 0⟩ ⟨0, 0, 1⟩ (plainMaterial 0) (some 1))
      [missObject, constObject 2 ⟨0, 0, 2⟩ ⟨0, 0, -1⟩ (plainMaterial 0)] 0 (Or.inl rfl)).2.2.1
      1 (constObject 2 ⟨0, 0, 2⟩ ⟨0, 0, -1⟩ (plainMaterial 0)) rfl rfl
      (WithTop.coe_lt_top _)
      (fun j p hj hp => by rw [(hmin (some 1) j p hj hp).1])
      (fun j p hlt hj hp => absurd (hmin (some 1) j p hj hp).2 (by omega))).1 rfl

/-- C7 as stated fails: the shaded object (address `0`) is met by the
occlusion ray at distance `2`, another object (address `1`) at distance `4`,
both below the distance `6` of the point light, and `ShadowRay` returns `1`. -/
theorem ShadowRay_occluder_behind_shaded :
    (PointLight axisEnv ⟨0, 0, 5⟩ ⟨1, 1, 1⟩ 1).type_ = LightType.POINT ∧
    ((PointLight axisEnv ⟨0, 0, 5⟩ ⟨1, 1, 1⟩ 1).Illuminate ⟨0, 0, -1⟩).2.2 = ((6 : ℚ) : WithTop ℚ) ∧
    (shadingPoint ⟨0, 0, -1⟩ ⟨0, 0, -1⟩ (plainMaterial 0) (some 0)).obj ≠ some 1 ∧
    [constObject 2 ⟨0, 0, 1⟩ ⟨0, 0, 1⟩ (plainMaterial 0),
      constObject 4 ⟨0, 0, 3⟩ ⟨0, 0, -1⟩ (plainMaterial 0)][1]? =
        some (constObject 4 ⟨0, 0, 3⟩ ⟨0, 0, -1⟩ (plainMaterial 0)) ∧
    (hitOf axisEnv
      ((⟨0, 0, -1⟩ : Vec3 ℚ).add
        (((PointLight axisEnv ⟨0, 0, 5⟩ ⟨1, 1, 1⟩ 1).Illuminate ⟨0, 0, -1⟩).1.scale (-bias)))
      (((PointLight axisEnv ⟨0, 0, 5⟩ ⟨1, 1, 1⟩ 1).Illuminate ⟨0, 0, -1⟩).1.scale (-1))
      (constObject 4 ⟨0, 0, 3⟩ ⟨0, 0, -1⟩ (plainMaterial 0))).1 = true ∧
    (hitOf axisEnv
      ((⟨0, 0, -1⟩ : Vec3 ℚ).add
        (((PointLight axisEnv ⟨0, 0, 5⟩ ⟨1, 1, 1⟩ 1).Illuminate ⟨0, 0, -1⟩).1.scale (-bias)))
      (((PointLight axisEnv ⟨0, 0, 5⟩ ⟨1, 1, 1⟩ 1).Illuminate ⟨0, 0, -1⟩).1.scale (-1))
      (constObject 4 ⟨0, 0, 3⟩ ⟨0, 0, -1⟩ (plainMaterial 0))).2.t_near = ((4 : ℚ) : WithTop ℚ) ∧
    (ShadowRay axisEnv (PointLight axisEnv ⟨0, 0, 5⟩ ⟨1, 1, 1⟩ 1)
      (shadingPoint ⟨0, 0, -1⟩ ⟨0, 0, -1⟩ (plainMaterial 0) (some 0))
      [constObject 2 ⟨0, 0, 1⟩ ⟨0, 0, 1⟩ (plainMaterial 0),
       constObject 4 ⟨0, 0, 3⟩ ⟨0, 0, -1⟩ (plainMaterial 0)] 0).vis = 1 := by
  have hdist : ((PointLight axisEnv ⟨0, 0, 5⟩ ⟨1, 1, 1⟩ 1).Illuminate ⟨0, 0, -1⟩).2.2 =
      ((6 : ℚ) : WithTop ℚ) := by
    simp only [PointLight, PointLight.Illuminate, axisEnv, Vec3.sub]
    norm_num
  refine ⟨rfl, hdist, by decide, rfl, rfl, rfl, ?_⟩
  rw [ShadowRay_vis_eq _ _ _ _ _ (Or.inr rfl), if_pos]
  simp only [ShadowRay.occlusion, TraceRay, TraceRay.loop, hitOf, constObject, hdist,
    shadingPoint]
  have h26 : (2 : WithTop ℚ) < 6 := by
    exact_mod_cast (show (2 : ℚ) < 6 by norm_num)
  have h42 : ¬ (4 : WithTop ℚ) < 2 := by
    exact_mod_cast (show ¬ (4 : ℚ) < 2 by norm_num)
  simp [h26, h42]

/-- C7, amended: for a point light, if the object the occlusion ray meets
nearest below the light's distance (the earliest in the list among those at
the least distance) is an object other than the shaded one, `ShadowRay`
returns `0`; if no object reports a hit for the occlusion ray it returns
`1`. -/
theorem ShadowRay_point_nearest_occluder [FloorRing K] (env : Env K) (light : Light K)
    (inter : IntersectData K) (objs : List (Object K)) (rng : Nat)
    (ht : light.type_ = LightType.POINT) :
    ((∃ (i : Nat) (o : Object K), objs[i]? = some o ∧ inter.obj ≠ some i ∧
        (hitOf env (inter.point.add ((light.Illuminate inter.point).1.scale (-bias)))
          ((light.Illuminate inter.point).1.scale (-1)) o).1 = true ∧
        (hitOf env (inter.point.add ((light.Illuminate inter.point).1.scale (-bias)))
          ((light.Illuminate inter.point).1.scale (-1)) o).2.t_near <
            (light.Illuminate inter.point).2.2 ∧
        (∀ (j : Nat) (p : Object K), objs[j]? = some p →
          (hitOf env (inter.point.add ((light.Illuminate inter.point).1.scale (-bias)))
            ((light.Illuminate inter.point).1.scale (-1)) p).1 = true →
          (hitOf env (inter.point.add ((light.Illuminate inter.point).1.scale (-bias)))
            ((light.Illuminate inter.point).1.scale (-1)) o).2.t_near ≤
          (hitOf env (inter.point.add ((light.Illuminate inter.point).1.scale (-bias)))
            ((light.Illuminate inter.point).1.scale (-1)) p).2.t_near) ∧
        (∀ (j : Nat) (p : Object K), j < i → objs[j]? = some p →
          (hitOf env (inter.point.add ((light.Illuminate inter.point).1.scale (-bias)))
            ((light.Illuminate inter.point).1.scale (-1)) p).1 = true →
          (hitOf env (inter.point.add ((light.Illuminate inter.point).1.scale (-bias)))
            ((light.Illuminate inter.point).1.scale (-1)) o).2.t_near <
          (hitOf env (inter.point.add ((light.Illuminate inter.point).1.scale (-bias)))
            ((light.Illuminate inter.point).1.scale (-1)) p).2.t_near)) →
      (ShadowRay env light inter objs rng).vis = 0) ∧
    ((∀ o ∈ objs,
        (hitOf env (inter.point.add ((light.Illuminate inter.point).1.scale (-bias)))
          ((light.Illuminate inter.point).1.scale (-1)) o).1 = false) →
      (ShadowRay env light inter objs rng).vis = 1) := by
  rw [ShadowRay_vis_eq env light inter objs rng (Or.inr ht)]
  constructor
  · rintro ⟨i, o, hio, hobj, hhit, hlt, hmin, hfirst⟩
    simp only [ShadowRay.occlusion, TraceRay]
    rcases TraceRay.loop_spec env (inter.point.add ((light.Illuminate inter.point).1.scale (-bias)))
        ((light.Illuminate inter.point).1.scale (-1)) objs 0
        { t_near := (light.Illuminate inter.point).2.2, point := env.defaultInter.point,
          normal := env.defaultInter.normal, mat := env.defaultInter.mat, obj := none } with
      ⟨_, hnone⟩ | ⟨i', o', hio', heq, hhit', _, hmin', hfirst'⟩
    · exact absurd ⟨hhit, hlt⟩ (hnone i o hio)
    · have hii : i' = i := by
        rcases Nat.lt_trichotomy i' i with h | h | h
        · exact absurd (hfirst i' o' h hio' hhit') (not_lt.mpr (hmin' i o hio hhit))
        · exact h
        · exact absurd (hfirst' i o h hio hhit) (not_lt.mpr (hmin i' o' hio' hhit'))
      subst hii
      simp only [heq, Nat.zero_add]
      rw [if_neg (fun h => hobj h.symm)]
      simp
  · intro hno
    have := (TraceRay_no_hit env (inter.point.add ((light.Illuminate inter.point).1.scale (-bias)))
      ((light.Illuminate inter.point).1.scale (-1)) objs
      { env.defaultInter with t_near := (light.Illuminate inter.point).2.2 } hno).1
    simp only [ShadowRay.occlusion]
    split
    · rfl
    · rw [if_neg]
      simp only [Bool.not_eq_true]
      exact this

/-- Witness for C7, amended: the shaded object is missed by the occlusion
ray and another object is met at distance `2`, below the distance `5` of the
light. -/
theorem ShadowRay_point_nearest_occluder_witness :
    (PointLight axisEnv ⟨0, 0, 5⟩ ⟨1, 1, 1⟩ 1).type_ = LightType.POINT ∧
    (ShadowRay axisEnv (PointLight axisEnv ⟨0, 0, 5⟩ ⟨1, 1, 1⟩ 1)
      (shadingPoint ⟨0, 0, 0⟩ ⟨0, 0, 1⟩ (plainMaterial 0) (some 0))
      [missObject, constObject 2 ⟨0, 0, 2⟩ ⟨0, 0, -1⟩ (plainMaterial 0)] 0).vis = 0 := by
  have hdist : ((PointLight axisEnv ⟨0, 0, 5⟩ ⟨1, 1, 1⟩ 1).Illuminate
      (shadingPoint ⟨0, 0, 0⟩ ⟨0, 0, 1⟩ (plainMaterial 0) (some 0)).point).2.2 =
      ((5 : ℚ) : WithTop ℚ) := by
    simp only [PointLight, PointLight.Illuminate, axisEnv, Vec3.sub, shadingPoint]
    norm_num
  refine ⟨rfl, (ShadowRay_point_nearest_occluder axisEnv (PointLight axisEnv ⟨0, 0, 5⟩ ⟨1, 1, 1⟩ 1)
      (shadingPoint ⟨0, 0, 0⟩ ⟨0, 0, 1⟩ (plainMaterial 0) (some 0))
      [missObject, constObject 2 ⟨0, 0, 2⟩ ⟨0, 0, -1⟩ (plainMaterial 0)] 0 rfl).1
    ⟨1, constObject 2 ⟨0, 0, 2⟩ ⟨0, 0, -1⟩ (plainMaterial 0), rfl, by decide, rfl, ?_, ?_, ?_⟩⟩
  · rw [hdist]
    exact WithTop.coe_lt_coe.mpr (by norm_num)
  · intro j p hj hp
    match j, hj with
    | 0, hj =>
      simp only [List.getElem?_cons_zero, Option.some.injEq] at hj
      subst hj
      exact absurd hp (by simp [hitOf, missObject])
    | 1, hj =>
      simp only [List.getElem?_cons_succ, List.getElem?_cons_zero, Option.some.injEq] at hj
      subst hj
      exact le_refl _
    | j + 2, hj => simp at hj
  · intro j p hj1 hj hp
    have hj0 : j = 0 := by omega
    subst hj0
    simp only [List.getElem?_cons_zero, Option.some.injEq] at hj
    subst hj
    exact absurd hp (by simp [hitOf, missObject])

/-! ## `ShadowRay`: area lights -/

/-- The loop does nothing when its test fails at once. -/
theorem forDouble_done [FloorRing K] {σ : Type} (hi step : K) (body : K → σ → σ) (u : K)
    (s : σ) (h : ¬ u < hi) : forDouble hi step body u s = s := by
  rw [forDouble, if_neg (fun hc => h hc.1), if_neg h]

/-- One round of the loop with a positive step. -/
theorem forDouble_step [FloorRing K] {σ : Type} (hi step : K) (body : K → σ → σ) (u : K)
    (s : σ) (h : u < hi) (hs : 0 < step) :
    forDouble hi step body u s = forDouble hi step body (u + step) (body u s) := by
  rw [forDouble, if_pos ⟨h, hs⟩]

/-- A loop whose range is `m` positive steps long runs its body `m` times: a
property indexed by the number of rounds, kept by the body, holds with index
`k + m` at the end if it held with index `k` at the start. -/
theorem forDouble_rounds [FloorRing K] {σ : Type} (hi step : K) (body : K → σ → σ)
    (P : Nat → σ → Prop) (hs : 0 < step)
    (hbody : ∀ (k : Nat) (u : K) (s : σ), P k s → P (k + 1) (body u s)) :
    ∀ (m : Nat) (u : K) (s : σ) (k : Nat), hi - u = (m : K) * step → P k s →
      P (k + m) (forDouble hi step body u s) := by
  intro m
  induction m with
  | zero =>
    intro u s k hm hP
    have : ¬ u < hi := by
      simp only [Nat.cast_zero, zero_mul] at hm
      have : hi = u := by linarith
      rw [this]
      exact lt_irrefl u
    rw [forDouble_done hi step body u s this]
    exact hP
  | succ m ih =>
    intro u s k hm hP
    have hlt : u < hi := by
      have : (0 : K) < ((m + 1 : Nat) : K) * step :=
        mul_pos (by exact_mod_cast Nat.succ_pos m) hs
      linarith
    rw [forDouble_step hi step body u s hlt hs]
    have hm' : hi - (u + step) = (m : K) * step := by
      push_cast at hm
      linarith
    have := ih (u + step) (body u s) (k + 1) hm' (hbody k u s hP)
    rw [show k + (m + 1) = k + 1 + m by omega]
    exact this

/-- One sample of an area light adds `0` or `1 / sample_count` to the
visibility and makes two `Rand` calls. -/
theorem ShadowRay.sample_adds (env : Env K) (light : Light K) (inter : IntersectData K)
    (objs : List (Object K)) (u_vec v_vec : Vec3 K) (step_size_u step_size_v : K)
    (sample_count : Nat) (u v : K) (st : ShadowState K) :
    ((ShadowRay.sample env light inter objs u_vec v_vec step_size_u step_size_v sample_count
        u v st).vis = st.vis ∨
      (ShadowRay.sample env light inter objs u_vec v_vec step_size_u step_size_v sample_count
        u v st).vis = st.vis + 1 / (sample_count : K)) ∧
    (ShadowRay.sample env light inter objs u_vec v_vec step_size_u step_size_v sample_count
        u v st).rng = st.rng + 2 := by
  refine ⟨?_, rfl⟩
  have hb : ∀ b : Bool, (st.vis + (if b = true then (1 : K) else 0) / (sample_count : K) = st.vis ∨
      st.vis + (if b = true then (1 : K) else 0) / (sample_count : K) =
        st.vis + 1 / (sample_count : K)) := by
    intro b
    cases b
    · left; simp
    · right; rfl
  exact hb _

/-- What `ShadowRay` computes for an area light: the state after the two
sampling loops. -/
theorem ShadowRay_area_eq [FloorRing K] (env : Env K) (light : Light K)
    (inter : IntersectData K) (objs : List (Object K)) (rng : Nat)
    (ht : light.type_ = LightType.AREA) :
    ShadowRay env light inter objs rng =
      { vis := (forDouble (light.width_ / 2) (light.width_ / (light.samples_ : K))
          (fun u st => forDouble (light.height_ / 2) (light.height_ / (light.samples_ : K))
            (fun v st => ShadowRay.sample env light inter objs
              (Normalize env ⟨light.direction_.y, -light.direction_.x, 0⟩)
              (Cross light.direction_ (Normalize env ⟨light.direction_.y, -light.direction_.x, 0⟩))
              (light.width_ / (light.samples_ : K)) (light.height_ / (light.samples_ : K))
              ((light.samples_ * light.samples_) % 2 ^ 32) u v st)
            (-light.height_ / 2) st)
          (-light.width_ / 2)
          { vis := 0, light_dir := (light.Illuminate inter.point).1,
            isec := { env.defaultInter with t_near := (light.Illuminate inter.point).2.2 },
            rng := rng }).vis
        light_dir := (forDouble (light.width_ / 2) (light.width_ / (light.samples_ : K))
          (fun u st => forDouble (light.height_ / 2) (light.height_ / (light.samples_ : K))
            (fun v st => ShadowRay.sample env light inter objs
              (Normalize env ⟨light.direction_.y, -light.direction_.x, 0⟩)
              (Cross light.direction_ (Normalize env ⟨light.direction_.y, -light.direction_.x, 0⟩))
              (light.width_ / (light.samples_ : K)) (light.height_ / (light.samples_ : K))
              ((light.samples_ * light.samples_) % 2 ^ 32) u v st)
            (-light.height_ / 2) st)
          (-light.width_ / 2)
          { vis := 0, light_dir := (light.Illuminate inter.point).1,
            isec := { env.defaultInter with t_near := (light.Illuminate inter.point).2.2 },
            rng := rng }).light_dir
        light_intensity := (light.Illuminate inter.point).2.1
        rng := (forDouble (light.width_ / 2) (light.width_ / (light.samples_ : K))
          (fun u st => forDouble (light.height_ / 2) (light.height_ / (light.samples_ : K))
            (fun v st => ShadowRay.sample env light inter objs
              (Normalize env ⟨light.direction_.y, -light.direction_.x, 0⟩)
              (Cross light.direction_ (Normalize env ⟨light.direction_.y, -light.direction_.x, 0⟩))
              (light.width_ / (light.samples_ : K)) (light.height_ / (light.samples_ : K))
              ((light.samples_ * light.samples_) % 2 ^ 32) u v st)
            (-light.height_ / 2) st)
          (-light.width_ / 2)
          { vis := 0, light_dir := (light.Illuminate inter.point).1,
            isec := { env.defaultInter with t_near := (light.Illuminate inter.point).2.2 },
            rng := rng }).rng } := by
  simp only [ShadowRay]
  rw [if_neg (by rw [ht]; simp), if_pos ht]

/-- The sampling loops of an area light, from any state `st0`: with a sample
count `n >= 1` and a divisor `sc > 0`, the visibility grows by at least `0`
and at most `n * (n / sc)`, and when width and height are positive exactly
`n * n` samples are taken. -/
theorem ShadowRay.grid_bounds [FloorRing K] {σ : Type} (vis : σ → K) (cnt : σ → Nat)
    (sample : K → K → σ → σ) (w h : K) (n sc : Nat) (hn : 1 ≤ n)
    (hsample : ∀ u v st, ((vis (sample u v st) = vis st ∨
        vis (sample u v st) = vis st + 1 / (sc : K)) ∧ cnt (sample u v st) = cnt st + 2))
    (st0 : σ) :
    vis st0 ≤ vis (forDouble (w / 2) (w / (n : K))
        (fun u st => forDouble (h / 2) (h / (n : K)) (fun v st => sample u v st) (-h / 2) st)
        (-w / 2) st0) ∧
    vis (forDouble (w / 2) (w / (n : K))
        (fun u st => forDouble (h / 2) (h / (n : K)) (fun v st => sample u v st) (-h / 2) st)
        (-w / 2) st0) ≤ vis st0 + (n : K) * ((n : K) * (1 / (sc : K))) ∧
    (0 < w → 0 < h →
      cnt (forDouble (w / 2) (w / (n : K))
        (fun u st => forDouble (h / 2) (h / (n : K)) (fun v st => sample u v st) (-h / 2) st)
        (-w / 2) st0) = cnt st0 + 2 * (n * n)) := by
  have hnK : (0 : K) < (n : K) := by exact_mod_cast hn
  have hsc : (0 : K) ≤ 1 / (sc : K) := by positivity
  -- the inner loop, from any state
  have inner : ∀ (u : K) (b : σ),
      vis b ≤ vis (forDouble (h / 2) (h / (n : K)) (fun v st => sample u v st) (-h / 2) b) ∧
      vis (forDouble (h / 2) (h / (n : K)) (fun v st => sample u v st) (-h / 2) b) ≤
        vis b + (n : K) * (1 / (sc : K)) ∧
      (0 < h → cnt (forDouble (h / 2) (h / (n : K)) (fun v st => sample u v st) (-h / 2) b) =
        cnt b + 2 * n) := by
    intro u b
    by_cases hh : 0 < h
    · have key := forDouble_rounds (h / 2) (h / (n : K)) (fun v st => sample u v st)
        (fun k s => vis b ≤ vis s ∧ vis s ≤ vis b + (k : K) * (1 / (sc : K)) ∧
          cnt s = cnt b + 2 * k)
        (div_pos hh hnK)
        (by
          intro k v s ⟨h1, h2, h3⟩
          obtain ⟨hv, hc⟩ := hsample u v s
          refine ⟨?_, ?_, ?_⟩
          · rcases hv with hv | hv <;> rw [hv] <;> linarith
          · push_cast
            rcases hv with hv | hv <;> rw [hv] <;> linarith
          · rw [hc, h3]; ring)
        n (-h / 2) b 0
        (by field_simp)
        ⟨le_refl _, by simp, by simp⟩
      simp only [Nat.zero_add] at key
      exact ⟨key.1, key.2.1, fun _ => key.2.2⟩
    · have hdone : ¬ (-h / 2 < h / 2) := by
        intro hc
        apply hh
        linarith
      rw [forDouble_done _ _ _ _ _ hdone]
      refine ⟨le_refl _, ?_, fun h0 => absurd h0 hh⟩
      have : (0 : K) ≤ (n : K) * (1 / (sc : K)) := mul_nonneg hnK.le hsc
      linarith
  by_cases hw : 0 < w
  · have key := forDouble_rounds (w / 2) (w / (n : K))
      (fun u st => forDouble (h / 2) (h / (n : K)) (fun v st => sample u v st) (-h / 2) st)
      (fun k s => vis st0 ≤ vis s ∧
        vis s ≤ vis st0 + (k : K) * ((n : K) * (1 / (sc : K))) ∧
        (0 < h → cnt s = cnt st0 + 2 * (k * n)))
      (div_pos hw hnK)
      (by
        intro k u s ⟨h1, h2, h3⟩
        obtain ⟨i1, i2, i3⟩ := inner u s
        refine ⟨le_trans h1 i1, ?_, ?_⟩
        · push_cast
          linarith
        · intro h0
          rw [i3 h0, h3 h0]
          ring)
      n (-w / 2) st0 0
      (by field_simp)
      ⟨le_refl _, by simp, by simp⟩
    simp only [Nat.zero_add] at key
    exact ⟨key.1, key.2.1, fun _ h0 => key.2.2 h0⟩
  · have hdone : ¬ (-w / 2 < w / 2) := by
      intro hc
      apply hw
      linarith
    rw [forDouble_done _ _ _ _ _ hdone]
    refine ⟨le_refl _, ?_, fun h0 => absurd h0 hw⟩
    have : (0 : K) ≤ (n : K) * ((n : K) * (1 / (sc : K))) :=
      mul_nonneg hnK.le (mul_nonneg hnK.le hsc)
    linarith

/-- The sampling loops when every sample is visible: with positive width and
height and `n >= 1` samples per axis the visibility grows by exactly
`n * (n / sc)`. -/
theorem ShadowRay.grid_all_visible [FloorRing K] {σ : Type} (vis : σ → K)
    (sample : K → K → σ → σ) (w h : K) (n sc : Nat) (hn : 1 ≤ n) (hw : 0 < w) (hh : 0 < h)
    (hsample : ∀ u v st, vis (sample u v st) = vis st + 1 / (sc : K)) (st0 : σ) :
    vis (forDouble (w / 2) (w / (n : K))
        (fun u st => forDouble (h / 2) (h / (n : K)) (fun v st => sample u v st) (-h / 2) st)
        (-w / 2) st0) = vis st0 + (n : K) * ((n : K) * (1 / (sc : K))) := by
  have hnK : (0 : K) < (n : K) := by exact_mod_cast hn
  have inner : ∀ (u : K) (b : σ),
      vis (forDouble (h / 2) (h / (n : K)) (fun v st => sample u v st) (-h / 2) b) =
        vis b + (n : K) * (1 / (sc : K)) := by
    intro u b
    have key := forDouble_rounds (h / 2) (h / (n : K)) (fun v st => sample u v st)
      (fun k s => vis s = vis b + (k : K) * (1 / (sc : K)))
      (div_pos hh hnK)
      (by
        intro k v s h1
        rw [hsample u v s, h1]
        push_cast
        ring)
      n (-h / 2) b 0
      (by field_simp)
      (by simp)
    simp only [Nat.zero_add] at key
    exact key
  have key := forDouble_rounds (w / 2) (w / (n : K))
    (fun u st => forDouble (h / 2) (h / (n : K)) (fun v st => sample u v st) (-h / 2) st)
    (fun k s => vis s = vis st0 + (k : K) * ((n : K) * (1 / (sc : K))))
    (div_pos hw hnK)
    (by
      intro k u s h1
      rw [inner u s, h1]
      push_cast
      ring)
    n (-w / 2) st0 0
    (by field_simp)
    (by simp)
  simp only [Nat.zero_add] at key
  exact key

/-- An area light with `65537` samples per axis over an empty object list, in
exact arithmetic. The divisor `sample_count` is `65537 * 65537` reduced modulo
`2 ^ 32`, that is `131073`, while `65537 * 65537` samples are taken, each
adding `1 / 131073`: the visibility returned is above `1`. -/
theorem ShadowRay_area_overflow :
    (unitAreaLight 65537).type_ = LightType.AREA ∧
    (ShadowRay axisEnv (unitAreaLight 65537)
      (shadingPoint ⟨0, 0, 0⟩ ⟨1, 0, 0⟩ (plainMaterial 0) (some 0)) [] 0).vis =
        4295098369 / 131073 ∧
    ¬ ((ShadowRay axisEnv (unitAreaLight 65537)
      (shadingPoint ⟨0, 0, 0⟩ ⟨1, 0, 0⟩ (plainMaterial 0) (some 0)) [] 0).vis ≤ 1) := by
  have hv : (ShadowRay axisEnv (unitAreaLight 65537)
      (shadingPoint ⟨0, 0, 0⟩ ⟨1, 0, 0⟩ (plainMaterial 0) (some 0)) [] 0).vis =
        4295098369 / 131073 := by
    rw [ShadowRay_area_eq _ _ _ _ _ rfl]
    have key := ShadowRay.grid_all_visible (fun st : ShadowState ℚ => st.vis)
      (fun u v st => ShadowRay.sample axisEnv (unitAreaLight 65537)
        (shadingPoint ⟨0, 0, 0⟩ ⟨1, 0, 0⟩ (plainMaterial 0) (some 0)) []
        (Normalize axisEnv ⟨(unitAreaLight 65537).direction_.y,
          -(unitAreaLight 65537).direction_.x, 0⟩)
        (Cross (unitAreaLight 65537).direction_
          (Normalize axisEnv ⟨(unitAreaLight 65537).direction_.y,
            -(unitAreaLight 65537).direction_.x, 0⟩))
        ((unitAreaLight 65537).width_ / ((unitAreaLight 65537).samples_ : ℚ))
        ((unitAreaLight 65537).height_ / ((unitAreaLight 65537).samples_ : ℚ))
        (((unitAreaLight 65537).samples_ * (unitAreaLight 65537).samples_) % 2 ^ 32) u v st)
      (unitAreaLight 65537).width_ (unitAreaLight 65537).height_
      (unitAreaLight 65537).samples_
      (((unitAreaLight 65537).samples_ * (unitAreaLight 65537).samples_) % 2 ^ 32)
      (by decide) (by decide) (by decide)
      (by
        intro u v st
        simp [ShadowRay.sample, ShadowRay.occlusion, TraceRay, TraceRay.loop])
      { vis := 0, light_dir := ((unitAreaLight 65537).Illuminate
          (shadingPoint ⟨0, 0, 0⟩ ⟨1, 0, 0⟩ (plainMaterial 0) (some 0)).point).1,
        isec := { axisEnv.defaultInter with
          t_near := ((unitAreaLight 65537).Illuminate
            (shadingPoint ⟨0, 0, 0⟩ ⟨1, 0, 0⟩ (plainMaterial 0) (some 0)).point).2.2 },
        rng := 0 }
    simp only at key
    rw [key]
    simp only [unitAreaLight]
    norm_num
  refine ⟨rfl, hv, ?_⟩
  rw [hv]
  norm_num

/-- The sampling loops in exact arithmetic: for an area light whose sample
count `n` satisfies `1 <= n` and `n * n < 2 ^ 32`, whatever the width, the
height, the objects and the values `Rand` returns, the visibility lies in
`[0, 1]`; when width and height are positive the grid loops take exactly
`n * n` samples (two `Rand` calls each), each adding `0` or `1 / (n * n)`.
The rounding of the loop counter, which this statement leaves out, is the
subject of `doubleLoopRounds`. -/
theorem ShadowRay_area_bounds [FloorRing K] (env : Env K) (light : Light K)
    (inter : IntersectData K) (objs : List (Object K)) (rng : Nat)
    (ht : light.type_ = LightType.AREA) (h1 : 1 ≤ light.samples_)
    (h2 : light.samples_ * light.samples_ < 2 ^ 32) :
    0 ≤ (ShadowRay env light inter objs rng).vis ∧
    (ShadowRay env light inter objs rng).vis ≤ 1 ∧
    (0 < light.width_ → 0 < light.height_ →
      (ShadowRay env light inter objs rng).rng =
        rng + 2 * (light.samples_ * light.samples_)) := by
  rw [ShadowRay_area_eq env light inter objs rng ht]
  have key := ShadowRay.grid_bounds (fun st : ShadowState K => st.vis)
    (fun st : ShadowState K => st.rng)
    (fun u v st => ShadowRay.sample env light inter objs
      (Normalize env ⟨light.direction_.y, -light.direction_.x, 0⟩)
      (Cross light.direction_ (Normalize env ⟨light.direction_.y, -light.direction_.x, 0⟩))
      (light.width_ / (light.samples_ : K)) (light.height_ / (light.samples_ : K))
      ((light.samples_ * light.samples_) % 2 ^ 32) u v st)
    light.width_ light.height_ light.samples_ ((light.samples_ * light.samples_) % 2 ^ 32) h1
    (fun u v st => ShadowRay.sample_adds env light inter objs _ _ _ _ _ u v st)
    { vis := 0, light_dir := (light.Illuminate inter.point).1,
      isec := { env.defaultInter with t_near := (light.Illuminate inter.point).2.2 },
      rng := rng }
  simp only at key
  obtain ⟨k1, k2, k3⟩ := key
  refine ⟨k1, ?_, k3⟩
  refine le_trans k2 (le_of_eq ?_)
  rw [Nat.mod_eq_of_lt h2]
  have hnK : (light.samples_ : K) ≠ 0 := by
    have : 0 < light.samples_ := h1
    exact_mod_cast this.ne'
  push_cast
  field_simp

/-- The bounds at a concrete light: four samples per axis and an occluding
object. -/
theorem ShadowRay_area_bounds_witness :
    (unitAreaLight 4).type_ = LightType.AREA ∧ 1 ≤ (unitAreaLight 4).samples_ ∧
    (unitAreaLight 4).samples_ * (unitAreaLight 4).samples_ < 2 ^ 32 ∧
    0 ≤ (ShadowRay axisEnv (unitAreaLight 4)
      (shadingPoint ⟨0, 0, 0⟩ ⟨1, 0, 0⟩ (plainMaterial 0) (some 0))
      [missObject, constObject 2 ⟨2, 0, 0⟩ ⟨-1, 0, 0⟩ (plainMaterial 0)] 0).vis ∧
    (ShadowRay axisEnv (unitAreaLight 4)
      (shadingPoint ⟨0, 0, 0⟩ ⟨1, 0, 0⟩ (plainMaterial 0) (some 0))
      [missObject, constObject 2 ⟨2, 0, 0⟩ ⟨-1, 0, 0⟩ (plainMaterial 0)] 0).vis ≤ 1 :=
  ⟨rfl, by decide, by decide,
   (ShadowRay_area_bounds axisEnv (unitAreaLight 4)
      (shadingPoint ⟨0, 0, 0⟩ ⟨1, 0, 0⟩ (plainMaterial 0) (some 0))
      [missObject, constObject 2 ⟨2, 0, 0⟩ ⟨-1, 0, 0⟩ (plainMaterial 0)] 0 rfl (by decide)
      (by decide)).1,
   (ShadowRay_area_bounds axisEnv (unitAreaLight 4)
      (shadingPoint ⟨0, 0, 0⟩ ⟨1, 0, 0⟩ (plainMaterial 0) (some 0))
      [missObject, constObject 2 ⟨2, 0, 0⟩ ⟨-1, 0, 0⟩ (plainMaterial 0)] 0 rfl (by decide)
      (by decide)).2.1⟩

end Theorems

/-! ## The render passes -/

section Passes

variable {K : Type}

/-- A loop over an empty range does nothing. -/
theorem forRange_done {σ : Type} (lo hi : Nat) (body : Nat → σ → σ) (s : σ) (h : hi ≤ lo) :
    forRange lo hi body s = s := by
  simp [forRange, Nat.sub_eq_zero_of_le h]

/-- First round of a loop over a non-empty range. -/
theorem forRange_step {σ : Type} (lo hi : Nat) (body : Nat → σ → σ) (s : σ) (h : lo < hi) :
    forRange lo hi body s = forRange (lo + 1) hi body (body lo s) := by
  have : hi - lo = (hi - (lo + 1)) + 1 := by omega
  simp only [forRange]
  rw [this, List.range'_succ, List.foldl_cons]

/-- Induction principle for a loop: an invariant indexed by the loop variable. -/
theorem forRange_induction {σ : Type} (lo hi : Nat) (body : Nat → σ → σ) (P : Nat → σ → Prop)
    (hle : lo ≤ hi) (hbody : ∀ i s, lo ≤ i → i < hi → P i s → P (i + 1) (body i s)) :
    ∀ s, P lo s → P hi (forRange lo hi body s) := by
  obtain ⟨n, rfl⟩ := Nat.exists_eq_add_of_le hle
  induction n generalizing lo with
  | zero =>
    intro s hs
    simp only [Nat.add_zero]
    rw [forRange_done _ _ _ _ (le_refl _)]
    exact hs
  | succ n ih =>
    intro s hs
    rw [forRange_step _ _ _ _ (by omega)]
    have h1 := ih (lo + 1) (by omega)
      (fun i s hi1 hi2 => hbody i s (by omega) (by omega)) (body lo s)
      (hbody lo s (le_refl _) (by omega) hs)
    rw [show lo + 1 + n = lo + (n + 1) by omega] at h1
    exact h1

/-- Nothing plotted. -/
theorem Plots_none (pixel : Nat → Nat → Color K) (s : Sink K) :
    Plots pixel s s (fun _ _ => False) :=
  ⟨[], by simp, List.nodup_nil, by simp⟩

/-- The three statements for one pixel plot exactly that pixel. -/
theorem Plots_plot (pixel : Nat → Nat → Color K) (s : Sink K) (i j : Nat) :
    Plots pixel s (plot (pixel i j) i j s) (fun a b => a = i ∧ b = j) :=
  ⟨[(i, j)], rfl, List.nodup_singleton _, by simp⟩

/-- A call of `entis_update` plots nothing. -/
theorem Plots_update (pixel : Nat → Nat → Color K) (s s1 : Sink K) (D : Nat → Nat → Prop)
    (h : Plots pixel s s1 D) : Plots pixel s (entis_update s1) D := h

/-- The set of plotted pixels may be replaced by an equivalent description. -/
theorem Plots_congr (pixel : Nat → Nat → Color K) (s s1 : Sink K) (D E : Nat → Nat → Prop)
    (h : Plots pixel s s1 D) (hDE : ∀ i j, D i j ↔ E i j) : Plots pixel s s1 E := by
  obtain ⟨cs, h1, h2, h3⟩ := h
  exact ⟨cs, h1, h2, fun i j => (h3 i j).trans (hDE i j)⟩

/-- Two plotting steps one after the other, on disjoint sets of pixels. -/
theorem Plots_trans (pixel : Nat → Nat → Color K) (s s1 s2 : Sink K) (D E : Nat → Nat → Prop)
    (h1 : Plots pixel s s1 D) (h2 : Plots pixel s1 s2 E) (hd : ∀ i j, D i j → E i j → False) :
    Plots pixel s s2 (fun i j => D i j ∨ E i j) := by
  obtain ⟨cs, c1, c2, c3⟩ := h1
  obtain ⟨ds, d1, d2, d3⟩ := h2
  refine ⟨cs ++ ds, ?_, ?_, ?_⟩
  · rw [d1, c1, List.map_append, List.append_assoc]
  · rw [List.nodup_append]
    refine ⟨c2, d2, ?_⟩
    intro p hp hq
    exact hd p.1 p.2 ((c3 p.1 p.2).mp hp) ((d3 p.1 p.2).mp hq)
  · intro i j
    rw [List.mem_append, c3, d3]

/-- A loop whose rounds plot pairwise disjoint sets of pixels plots their
union. -/
theorem Plots_forRange (pixel : Nat → Nat → Color K) (lo hi : Nat)
    (body : Nat → Sink K → Sink K) (D : Nat → Nat → Nat → Prop)
    (hbody : ∀ i s, lo ≤ i → i < hi → Plots pixel s (body i s) (D i))
    (hd : ∀ i k a b, D i a b → D k a b → i = k) (s : Sink K) :
    Plots pixel s (forRange lo hi body s) (fun a b => ∃ i, lo ≤ i ∧ i < hi ∧ D i a b) := by
  rcases Nat.lt_or_ge hi lo with hlt | hle
  · rw [forRange_done _ _ _ _ hlt.le]
    exact Plots_congr pixel s s _ _ (Plots_none pixel s)
      (fun a b => ⟨False.elim, fun ⟨i, h1, h2, _⟩ => by omega⟩)
  · have key := forRange_induction lo hi body
      (fun n t => Plots pixel s t (fun a b => ∃ i, lo ≤ i ∧ i < n ∧ D i a b)) hle
      (by
        intro i t h1 h2 hP
        have hstep := Plots_trans pixel s t (body i t) _ _ hP (hbody i t h1 h2)
          (by
            rintro a b ⟨k, _, hk2, hk3⟩ hD
            have := hd k i a b hk3 hD
            omega)
        refine Plots_congr pixel s _ _ _ hstep ?_
        intro a b
        constructor
        · rintro (⟨k, hk1, hk2, hk3⟩ | hD)
          · exact ⟨k, hk1, by omega, hk3⟩
          · exact ⟨i, h1, by omega, hD⟩
        · rintro ⟨k, hk1, hk2, hk3⟩
          rcases Nat.lt_or_ge k i with hlt | hge
          · exact Or.inl ⟨k, hk1, hlt, hk3⟩
          · have : k = i := by omega
            subst this
            exact Or.inr hk3)
      s
      (Plots_congr pixel s s _ _ (Plots_none pixel s)
        (fun a b => ⟨False.elim, fun ⟨i, h1, h2, _⟩ => by omega⟩))
    exact key

/-- In a list of pairwise distinct coordinates, a coordinate occurs once or
not at all. -/
theorem countP_coordinate (cs : List (Nat × Nat)) (hn : cs.Nodup) (i j : Nat) :
    cs.countP (fun p => decide ((p.2, p.1) = (j, i))) = if (i, j) ∈ cs then 1 else 0 := by
  induction cs with
  | nil => simp
  | cons a t ih =>
    obtain ⟨hat, ht⟩ := List.nodup_cons.mp hn
    rw [List.countP_cons, ih ht]
    by_cases ha : a = (i, j)
    · subst ha
      simp [hat]
    · have hne : ¬ ((a.2, a.1) = (j, i)) := by
        intro h
        apply ha
        obtain ⟨a1, a2⟩ := a
        simp only [Prod.mk.injEq] at h
        rw [h.1, h.2]
      have hmem : ((i, j) ∈ a :: t) ↔ (i, j) ∈ t := by
        rw [List.mem_cons]
        constructor
        · rintro (h | h)
          · exact absurd h.symm ha
          · exact h
        · exact Or.inr
      simp only [hne, decide_False, hmem]
      simp

/-- Plot counts after a plotting step: one more for each plotted pixel, the
same as before for every other coordinate. -/
theorem Plots_writes_eq (pixel : Nat → Nat → Color K) (s s1 : Sink K) (D : Nat → Nat → Prop)
    (h : Plots pixel s s1 D) (i j : Nat) :
    (D i j → s1.writes j i = s.writes j i + 1) ∧ (¬ D i j → s1.writes j i = s.writes j i) := by
  obtain ⟨cs, h1, h2, h3⟩ := h
  have hc : s1.writes j i = s.writes j i + if (i, j) ∈ cs then 1 else 0 := by
    rw [← countP_coordinate cs h2 i j]
    simp only [Sink.writes, h1, List.countP_append, List.countP_map]
    rfl
  constructor
  · intro hD
    rw [hc, if_pos ((h3 i j).mpr hD)]
  · intro hD
    rw [hc, if_neg (fun hm => hD ((h3 i j).mp hm))]
    rfl

/-- Colour shown after a plotting step at a plotted pixel. -/
theorem Plots_pixel_eq (pixel : Nat → Nat → Color K) (s s1 : Sink K) (D : Nat → Nat → Prop)
    (h : Plots pixel s s1 D) (i j : Nat) (hD : D i j) : s1.pixel j i = some (pixel i j) := by
  obtain ⟨cs, h1, _, h3⟩ := h
  have hmem : (i, j) ∈ cs := (h3 i j).mpr hD
  simp only [Sink.pixel, h1, List.reverse_append, List.find?_append]
  have hsome : ((cs.map (fun p => ((p.2, p.1), pixel p.1 p.2))).reverse.find?
      (fun p => decide (p.1 = (j, i)))).isSome = true := by
    rw [List.find?_isSome]
    refine ⟨((j, i), pixel i j), ?_, by simp⟩
    rw [List.mem_reverse, List.mem_map]
    exact ⟨(i, j), hmem, rfl⟩
  obtain ⟨x, hx⟩ := Option.isSome_iff_exists.mp hsome
  rw [hx]
  have hp := List.find?_some hx
  have hxm := List.mem_of_find?_eq_some hx
  rw [List.mem_reverse, List.mem_map] at hxm
  obtain ⟨q, _, rfl⟩ := hxm
  simp only [decide_eq_true_eq, Prod.mk.injEq] at hp
  obtain ⟨rfl, rfl⟩ := hp
  rfl

/-- Position `q * w + j` of a row-major vector lies in row `q`. -/
theorem rowMajor_div (q w j : Nat) (hj : j < w) : (q * w + j) / w = q := by
  rw [Nat.add_comm, Nat.add_mul_div_right _ _ (by omega), Nat.div_eq_of_lt hj, Nat.zero_add]

/-- Position `q * w + j` of a row-major vector lies in column `j`. -/
theorem rowMajor_mod (q w j : Nat) (hj : j < w) : (q * w + j) % w = j := by
  rw [Nat.add_comm, Nat.add_mul_mod_self_right, Nat.mod_eq_of_lt hj]

/-- The vector `RenderThread` returns for rows `start` to `end - 1`: its `k`-th
colour is that of row `start + k / width`, column `k % width`. -/
theorem RenderThread_eq (pixel : Nat → Nat → Color K) (width start end_ : Nat)
    (h : start ≤ end_) :
    RenderThread pixel width start end_ =
      (List.range ((end_ - start) * width)).map
        (fun k => pixel (start + k / width) (k % width)) := by
  have key := forRange_induction start end_
    (fun i colors => forRange 0 width (fun j colors => colors ++ [pixel i j]) colors)
    (fun i colors => colors = (List.range ((i - start) * width)).map
      (fun k => pixel (start + k / width) (k % width))) h
    (by
      intro i colors h1 h2 hP
      have inner := forRange_induction 0 width (fun j colors => colors ++ [pixel i j])
        (fun j colors => colors = (List.range ((i - start) * width + j)).map
          (fun k => pixel (start + k / width) (k % width))) (Nat.zero_le _)
        (by
          intro j colors _ hj hQ
          beta_reduce at hQ ⊢
          rw [hQ, show (i - start) * width + (j + 1) = ((i - start) * width + j) + 1 by omega,
            List.range_succ, List.map_append, List.map_singleton,
            rowMajor_div _ _ _ hj, rowMajor_mod _ _ _ hj,
            show start + (i - start) = i by omega])
        colors (by beta_reduce; rw [hP, Nat.add_zero])
      beta_reduce at inner ⊢
      rw [inner, show (i + 1 - start) * width = (i - start) * width + width by
        rw [show i + 1 - start = (i - start) + 1 by omega, Nat.add_mul, Nat.one_mul]])
    [] (by simp)
  exact key

/-- What the plotting loops of `RenderMultiThreadPass` do for one row range:
for `k` from `0` up, `colors[k % 2 ^ 32]` is plotted at row `start + k / width`,
column `k % width`. -/
theorem plotRows_points (width : Nat) (colors : List (Color K))
    (start end_ : Nat) (s : Sink K) (h : start ≤ end_) :
    (RenderMultiThreadPass.plotRows width colors start end_ s).1.points =
      s.points ++ (List.range ((end_ - start) * width)).filterMap
        (fun k => (colors[k % 2 ^ 32]?).map (fun c => ((k % width, start + k / width), c))) := by
  have key := forRange_induction start end_
    (fun i st => forRange 0 width
      (fun j (st : Sink K × Nat) =>
        match colors[st.2]? with
        | some color => (plot color i j st.1, (st.2 + 1) % 2 ^ 32)
        | none => (st.1, (st.2 + 1) % 2 ^ 32)) st)
    (fun i (st : Sink K × Nat) => st.2 = ((i - start) * width) % 2 ^ 32 ∧
      st.1.points = s.points ++ (List.range ((i - start) * width)).filterMap
        (fun k => (colors[k % 2 ^ 32]?).map (fun c => ((k % width, start + k / width), c)))) h
    (by
      intro i st h1 h2 hP
      have inner := forRange_induction 0 width
        (fun j (st : Sink K × Nat) =>
          match colors[st.2]? with
          | some color => (plot color i j st.1, (st.2 + 1) % 2 ^ 32)
          | none => (st.1, (st.2 + 1) % 2 ^ 32))
        (fun j (st : Sink K × Nat) => st.2 = ((i - start) * width + j) % 2 ^ 32 ∧
          st.1.points = s.points ++ (List.range ((i - start) * width + j)).filterMap
            (fun k => (colors[k % 2 ^ 32]?).map
              (fun c => ((k % width, start + k / width), c))))
        (Nat.zero_le _)
        (by
          intro j st _ hj ⟨hQ1, hQ2⟩
          beta_reduce
          have hnext : (st.2 + 1) % 2 ^ 32 = ((i - start) * width + (j + 1)) % 2 ^ 32 := by
            rw [hQ1]
            omega
          rw [show (i - start) * width + (j + 1) = ((i - start) * width + j) + 1 by omega,
            List.range_succ, List.filterMap_append, List.filterMap_cons, ← hQ1]
          rw [show (i - start) * width + (j + 1) = ((i - start) * width + j) + 1 by omega]
            at hnext
          cases hc : colors[st.2]? with
          | none =>
            refine ⟨hnext, ?_⟩
            simp only
            rw [hQ2]
            simp
          | some c =>
            refine ⟨hnext, ?_⟩
            simp only [Option.map_some', List.filterMap_nil]
            rw [rowMajor_div _ _ _ hj, rowMajor_mod _ _ _ hj,
              show start + (i - start) = i by omega, ← List.append_assoc, ← hQ2]
            rfl)
        st (by simpa using hP)
      beta_reduce at inner ⊢
      obtain ⟨i1, i2⟩ := inner
      rw [show (i + 1 - start) * width = (i - start) * width + width by
        rw [show i + 1 - start = (i - start) + 1 by omega, Nat.add_mul, Nat.one_mul]]
      exact ⟨i1, i2⟩)
    (s, 0) (by simp)
  exact key.2

/-- The plotting loops for one row range, fed with the vector `RenderThread`
returned for that range: the `k`-th point is plotted at row
`start + k / width`, column `k % width`, in the colour at position
`k % 2 ^ 32` of the vector. -/
theorem plotRows_thread_points (pixel : Nat → Nat → Color K) (width start end_ : Nat)
    (s : Sink K) (h : start ≤ end_) :
    (RenderMultiThreadPass.plotRows width (RenderThread pixel width start end_)
        start end_ s).1.points =
      s.points ++ (List.range ((end_ - start) * width)).map
        (fun k => ((k % width, start + k / width),
          pixel (start + (k % 2 ^ 32) / width) ((k % 2 ^ 32) % width))) := by
  rw [plotRows_points width _ start end_ s h, RenderThread_eq pixel _ _ _ h]
  congr 1
  have hmap := List.filterMap_eq_map
    (fun k => ((k % width, start + k / width),
      pixel (start + (k % 2 ^ 32) / width) ((k % 2 ^ 32) % width)))
  have hfm := congrFun hmap (List.range ((end_ - start) * width))
  refine Eq.trans ?_ hfm
  apply List.filterMap_congr
  intro k hk
  rw [List.mem_range] at hk
  have hlt : k % 2 ^ 32 < (end_ - start) * width :=
    lt_of_le_of_lt (Nat.mod_le _ _) hk
  rw [List.getElem?_map, List.getElem?_range hlt]
  rfl

/-- The colour a plotting step plots may be replaced by one that agrees with
it on the plotted pixels. -/
theorem Plots_congr_pixel (pixel pixel2 : Nat → Nat → Color K) (s s1 : Sink K)
    (D : Nat → Nat → Prop) (h : Plots pixel s s1 D)
    (he : ∀ i j, D i j → pixel i j = pixel2 i j) : Plots pixel2 s s1 D := by
  obtain ⟨cs, h1, h2, h3⟩ := h
  refine ⟨cs, ?_, h2, h3⟩
  rw [h1]
  congr 1
  apply List.map_congr_left
  intro p hp
  rw [he p.1 p.2 ((h3 p.1 p.2).mp hp)]

/-- Two row ranges of length `ppt` that share a row are the same range. -/
theorem rowRange_unique (ppt id k a : Nat) (h1 : ppt * id ≤ a) (h2 : a < ppt * (id + 1))
    (h3 : ppt * k ≤ a) (h4 : a < ppt * (k + 1)) : id = k := by
  rcases Nat.lt_trichotomy id k with h | h | h
  · have := Nat.mul_le_mul_left ppt (show id + 1 ≤ k from h)
    omega
  · exact h
  · have := Nat.mul_le_mul_left ppt (show k + 1 ≤ id from h)
    omega

/-- A row below `ppt * n` lies in one of the first `n` ranges of length `ppt`. -/
theorem rowRange_cover (ppt n row : Nat) (h : row < ppt * n) :
    ∃ id, id < n ∧ ppt * id ≤ row ∧ row < ppt * (id + 1) := by
  have hppt : 0 < ppt := by
    rcases Nat.eq_zero_or_pos ppt with h0 | h0
    · rw [h0, Nat.zero_mul] at h
      omega
    · exact h0
  refine ⟨row / ppt, ?_, Nat.mul_div_le row ppt, Nat.lt_mul_div_succ row hppt⟩
  exact Nat.div_lt_of_lt_mul h

/-- The last row range starts inside the image. -/
theorem rowRange_last_le (height passes : Nat) : height / passes * (passes - 1) ≤ height := by
  calc height / passes * (passes - 1) ≤ height / passes * passes :=
        Nat.mul_le_mul_left _ (Nat.sub_le _ _)
    _ ≤ height := Nat.div_mul_le_self height passes

/-- The plotting loops for one row range, fed with the vector `RenderThread`
returned for that range, plot exactly the pixels of those rows, each once, in
the colour `plottedColor` describes. -/
theorem plotRows_Plots_wrapped (pixel : Nat → Nat → Color K)
    (width start end_ : Nat) (s : Sink K) (h : start ≤ end_) :
    Plots (RenderMultiThreadPass.plottedColor pixel width start) s
      (RenderMultiThreadPass.plotRows width (RenderThread pixel width start end_) start end_ s).1
      (fun a b => start ≤ a ∧ a < end_ ∧ b < width) := by
  refine ⟨(List.range ((end_ - start) * width)).map (fun k => (start + k / width, k % width)),
    ?_, ?_, ?_⟩
  · rw [plotRows_thread_points pixel width start end_ s h, List.map_map]
    congr 1
    apply List.map_congr_left
    intro k _
    simp only [Function.comp, RenderMultiThreadPass.plottedColor]
    rw [Nat.add_sub_cancel_left, Nat.mul_comm (k / width) width, Nat.div_add_mod]
  · apply List.Nodup.map_on _ (List.nodup_range _)
    intro k1 _ k2 _ heq
    simp only [Prod.mk.injEq] at heq
    have e1 := Nat.div_add_mod k1 width
    have e2 := Nat.div_add_mod k2 width
    have : k1 / width = k2 / width := by omega
    rw [this, heq.2] at e1
    omega
  · intro a b
    rw [List.mem_map]
    constructor
    · rintro ⟨k, hk, heq⟩
      rw [List.mem_range] at hk
      simp only [Prod.mk.injEq] at heq
      have hw : 0 < width := by
        rcases Nat.eq_zero_or_pos width with h0 | h0
        · rw [h0, Nat.mul_zero] at hk
          omega
        · exact h0
      have hq : k / width < end_ - start := by
        apply Nat.div_lt_of_lt_mul
        rw [Nat.mul_comm]
        exact hk
      have hm := Nat.mod_lt k hw
      obtain ⟨heq1, heq2⟩ := heq
      generalize k / width = q at hq heq1
      generalize k % width = r at hm heq2
      omega
    · rintro ⟨h1, h2, h3⟩
      refine ⟨(a - start) * width + b, ?_, ?_⟩
      · rw [List.mem_range]
        calc (a - start) * width + b < (a - start) * width + width := by omega
          _ = (a - start + 1) * width := by rw [Nat.add_mul, Nat.one_mul]
          _ ≤ (end_ - start) * width := Nat.mul_le_mul_right _ (by omega)
      · rw [rowMajor_div _ _ _ h3, rowMajor_mod _ _ _ h3]
        simp only [Prod.mk.injEq, and_true]
        omega

/-- Colour shown after a plotting step at a coordinate that was not plotted. -/
theorem Plots_pixel_other (pixel : Nat → Nat → Color K) (s s1 : Sink K) (D : Nat → Nat → Prop)
    (h : Plots pixel s s1 D) (i j : Nat) (hD : ¬ D i j) : s1.pixel j i = s.pixel j i := by
  obtain ⟨cs, h1, _, h3⟩ := h
  simp only [Sink.pixel, h1, List.reverse_append, List.find?_append]
  have hnone : (cs.map (fun p => ((p.2, p.1), pixel p.1 p.2))).reverse.find?
      (fun p => decide (p.1 = (j, i))) = none := by
    rw [List.find?_eq_none]
    intro x hx
    rw [List.mem_reverse, List.mem_map] at hx
    obtain ⟨q, hq, rfl⟩ := hx
    simp only [decide_eq_true_eq, Prod.mk.injEq, not_and]
    intro h1 h2
    apply hD
    rw [← h1, ← h2]
    exact (h3 q.1 q.2).mp hq
  rw [hnone]
  rfl

/-- A pass that plots exactly the pixels of the image leaves the sink in the
final state `ImageWritten` describes. -/
theorem Plots_imageWritten (pixel : Nat → Nat → Color K) (width height : Nat) (s r : Sink K)
    (h : Plots pixel s r (fun a b => a < height ∧ b < width)) :
    ImageWritten pixel width height s r := by
  constructor
  · intro i j hi hj
    exact ⟨Plots_pixel_eq pixel s r _ h i j ⟨hi, hj⟩,
      (Plots_writes_eq pixel s r _ h i j).1 ⟨hi, hj⟩⟩
  · intro x y hxy
    exact ⟨(Plots_writes_eq pixel s r _ h y x).2 hxy, Plots_pixel_other pixel s r _ h y x hxy⟩

/-- The loop over the columns of row `i` plots that row. -/
theorem Plots_row (pixel : Nat → Nat → Color K) (width i : Nat) (s : Sink K) :
    Plots pixel s (forRange 0 width (fun j s => plot (pixel i j) i j s) s)
      (fun a b => a = i ∧ b < width) := by
  have key := Plots_forRange pixel 0 width (fun j s => plot (pixel i j) i j s)
    (fun j a b => a = i ∧ b = j) (fun j s _ _ => Plots_plot pixel s i j)
    (fun j k a b h1 h2 => by omega) s
  refine Plots_congr pixel s _ _ _ key ?_
  intro a b
  constructor
  · rintro ⟨j, _, h2, h3, h4⟩
    exact ⟨h3, by omega⟩
  · rintro ⟨h1, h2⟩
    exact ⟨b, Nat.zero_le _, h2, h1, rfl⟩

/-- The loop over the rows of column `j` plots that column. -/
theorem Plots_column (pixel : Nat → Nat → Color K) (height j : Nat) (s : Sink K) :
    Plots pixel s (forRange 0 height (fun i s => plot (pixel i j) i j s) s)
      (fun a b => a < height ∧ b = j) := by
  have key := Plots_forRange pixel 0 height (fun i s => plot (pixel i j) i j s)
    (fun i a b => a = i ∧ b = j) (fun i s _ _ => Plots_plot pixel s i j)
    (fun i k a b h1 h2 => by omega) s
  refine Plots_congr pixel s _ _ _ key ?_
  intro a b
  constructor
  · rintro ⟨i, _, h2, h3, h4⟩
    exact ⟨by omega, h4⟩
  · rintro ⟨h1, h2⟩
    exact ⟨a, Nat.zero_le _, h1, rfl, h2⟩

/-- `RenderSinglePass` plots exactly the pixels of the image. -/
theorem RenderSinglePass_Plots (pixel : Nat → Nat → Color K) (width height : Nat)
    (s : Sink K) :
    Plots pixel s (RenderSinglePass pixel width height s) (fun a b => a < height ∧ b < width) := by
  have key := Plots_forRange pixel 0 height
    (fun i s => forRange 0 width (fun j s => plot (pixel i j) i j s) s)
    (fun i a b => a = i ∧ b < width) (fun i s _ _ => Plots_row pixel width i s)
    (fun i k a b h1 h2 => by omega) s
  refine Plots_congr pixel s _ _ _ key ?_
  intro a b
  constructor
  · rintro ⟨i, _, h2, h3, h4⟩
    exact ⟨by omega, h4⟩
  · rintro ⟨h1, h2⟩
    exact ⟨a, Nat.zero_le _, h1, rfl, h2⟩

/-- `RenderHorizontalPass` plots exactly the pixels of the image. -/
theorem RenderHorizontalPass_Plots (pixel : Nat → Nat → Color K) (width height : Nat)
    (s : Sink K) :
    Plots pixel s (RenderHorizontalPass pixel width height s)
      (fun a b => a < height ∧ b < width) := by
  have key := Plots_forRange pixel 0 height
    (fun i s => entis_update (forRange 0 width (fun j s => plot (pixel i j) i j s) s))
    (fun i a b => a = i ∧ b < width)
    (fun i s _ _ => Plots_update pixel s _ _ (Plots_row pixel width i s))
    (fun i k a b h1 h2 => by omega) s
  refine Plots_congr pixel s _ _ _ key ?_
  intro a b
  constructor
  · rintro ⟨i, _, h2, h3, h4⟩
    exact ⟨by omega, h4⟩
  · rintro ⟨h1, h2⟩
    exact ⟨a, Nat.zero_le _, h1, rfl, h2⟩

/-- `RenderVerticalPass` plots exactly the pixels of the image. -/
theorem RenderVerticalPass_Plots (pixel : Nat → Nat → Color K) (width height : Nat)
    (s : Sink K) :
    Plots pixel s (RenderVerticalPass pixel width height s)
      (fun a b => a < height ∧ b < width) := by
  have key := Plots_forRange pixel 0 width
    (fun j s => entis_update (forRange 0 height (fun i s => plot (pixel i j) i j s) s))
    (fun j a b => a < height ∧ b = j)
    (fun j s _ _ => Plots_update pixel s _ _ (Plots_column pixel height j s))
    (fun j k a b h1 h2 => by omega) s
  refine Plots_congr pixel s _ _ _ key ?_
  intro a b
  constructor
  · rintro ⟨j, _, h2, h3, h4⟩
    exact ⟨h3, by omega⟩
  · rintro ⟨h1, h2⟩
    exact ⟨b, Nat.zero_le _, h2, h1, rfl⟩

/-- Within a row range of at most `2 ^ 32` pixels `pos` does not wrap: the
colour plotted at row `a`, column `b` is `pixel a b`. -/
theorem plottedColor_eq (pixel : Nat → Nat → Color K) (width start n a b : Nat)
    (hb : n * width ≤ 2 ^ 32) (h1 : start ≤ a) (h2 : a - start < n) (h3 : b < width) :
    RenderMultiThreadPass.plottedColor pixel width start a b = pixel a b := by
  have hlt : (a - start) * width + b < 2 ^ 32 := by
    have := Nat.mul_le_mul_right width (show a - start + 1 ≤ n from h2)
    rw [Nat.add_mul, Nat.one_mul] at this
    omega
  simp only [RenderMultiThreadPass.plottedColor]
  rw [Nat.mod_eq_of_lt hlt, rowMajor_div _ _ _ h3, rowMajor_mod _ _ _ h3,
    show start + (a - start) = a by omega]

/-- The plotting loops for one row range of at most `2 ^ 32` pixels, fed with
the vector `RenderThread` returned for that range, plot exactly the pixels of
those rows, each in its own colour. -/
theorem plotRows_Plots (pixel : Nat → Nat → Color K)
    (width start end_ : Nat) (s : Sink K) (h : start ≤ end_)
    (hb : (end_ - start) * width ≤ 2 ^ 32) :
    Plots pixel s
      (RenderMultiThreadPass.plotRows width (RenderThread pixel width start end_) start end_ s).1
      (fun a b => start ≤ a ∧ a < end_ ∧ b < width) :=
  Plots_congr_pixel _ pixel s _ _ (plotRows_Plots_wrapped pixel width start end_ s h)
    (fun a b hD => plottedColor_eq pixel width start (end_ - start) a b hb hD.1
      (by omega) hD.2.2)

/-- `RenderMultiThreadPass` with at least one pass plots exactly the pixels of
the image, each once: in the colour `plottedColor` describes for the row range
the pixel lies in, which is the pixel's own colour when the image has at most
`2 ^ 32` pixels. -/
theorem RenderMultiThreadPass_Plots_wrapped (pixel : Nat → Nat → Color K)
    (width height passes : Nat) (s : Sink K) (_hp : 1 ≤ passes) :
    ∃ pixel2 : Nat → Nat → Color K,
      Plots pixel2 s (RenderMultiThreadPass pixel width height passes s)
        (fun a b => a < height ∧ b < width) ∧
      (height * width ≤ 2 ^ 32 → ∀ a b, a < height → b < width → pixel2 a b = pixel a b) := by
  have hlast := rowRange_last_le height passes
  refine ⟨fun a b => RenderMultiThreadPass.plottedColor pixel width
    (if a < height / passes * (passes - 1) then height / passes * (a / (height / passes))
      else height / passes * (passes - 1)) a b, ?_, ?_⟩
  · have h1 := Plots_congr_pixel _
      (fun a b => RenderMultiThreadPass.plottedColor pixel width
        (if a < height / passes * (passes - 1) then height / passes * (a / (height / passes))
          else height / passes * (passes - 1)) a b) s _ _
      (plotRows_Plots_wrapped pixel width (height / passes * (passes - 1)) height s hlast)
      (by
        intro a b hD
        beta_reduce
        rw [if_neg (by omega)])
    have h2 := Plots_forRange
      (fun a b => RenderMultiThreadPass.plottedColor pixel width
        (if a < height / passes * (passes - 1) then height / passes * (a / (height / passes))
          else height / passes * (passes - 1)) a b) 0 (passes - 1)
      (fun id s =>
        (RenderMultiThreadPass.plotRows width
          (((List.range (passes - 1)).map
            (fun id => RenderThread pixel width (height / passes * id)
              (height / passes * (id + 1)))).getD id [])
          (height / passes * id) (height / passes * (id + 1)) s).1)
      (fun id a b => height / passes * id ≤ a ∧ a < height / passes * (id + 1) ∧ b < width)
      (by
        intro id t _ hid
        have hget : ((List.range (passes - 1)).map
            (fun id => RenderThread pixel width (height / passes * id)
              (height / passes * (id + 1)))).getD id [] =
            RenderThread pixel width (height / passes * id) (height / passes * (id + 1)) := by
          rw [List.getD_eq_getElem?_getD, List.getElem?_map, List.getElem?_range hid]
          rfl
        beta_reduce
        rw [hget]
        refine Plots_congr_pixel _ _ t _ _
          (plotRows_Plots_wrapped pixel width _ _ t (Nat.mul_le_mul_left _ (Nat.le_succ id))) ?_
        intro a b hD
        have hle := Nat.mul_le_mul_left (height / passes) (show id + 1 ≤ passes - 1 from hid)
        have hdiv : a / (height / passes) = id :=
          Nat.div_eq_of_lt_le (by rw [Nat.mul_comm]; exact hD.1)
            (by rw [Nat.mul_comm]; exact hD.2.1)
        rw [if_pos (by omega), hdiv])
      (fun id k a b ha hb => rowRange_unique (height / passes) id k a ha.1 ha.2.1 hb.1 hb.2.1)
      (RenderMultiThreadPass.plotRows width
        (RenderThread pixel width (height / passes * (passes - 1)) height)
        (height / passes * (passes - 1)) height s).1
    have h3 := Plots_trans _ s _ _ _ _ h1 h2
      (by
        rintro a b ⟨ha1, _, _⟩ ⟨id, _, hid, _, ha2, _⟩
        have := Nat.mul_le_mul_left (height / passes) (show id + 1 ≤ passes - 1 from hid)
        omega)
    refine Plots_congr _ s _ _ _ (Plots_update _ s _ _ h3) ?_
    intro a b
    constructor
    · rintro (⟨_, ha, hb⟩ | ⟨id, _, hid, _, ha, hb⟩)
      · exact ⟨ha, hb⟩
      · have := Nat.mul_le_mul_left (height / passes) (show id + 1 ≤ passes - 1 from hid)
        exact ⟨by omega, hb⟩
    · rintro ⟨ha, hb⟩
      rcases Nat.lt_or_ge a (height / passes * (passes - 1)) with hlt | hge
      · obtain ⟨id, hid, h4, h5⟩ := rowRange_cover _ _ _ hlt
        exact Or.inr ⟨id, Nat.zero_le _, hid, h4, h5, hb⟩
      · exact Or.inl ⟨hge, ha, hb⟩
  · intro hb a b ha hw
    beta_reduce
    have hst : (if a < height / passes * (passes - 1) then
        height / passes * (a / (height / passes)) else height / passes * (passes - 1)) ≤ a := by
      split
      · exact Nat.mul_div_le a (height / passes)
      · omega
    exact plottedColor_eq pixel width _ height a b hb hst (by omega) hw

/-- `RenderMultiThreadPass` with at least one pass, on an image of at most
`2 ^ 32` pixels, plots exactly the pixels of the image, each once and in its
own colour. -/
theorem RenderMultiThreadPass_Plots (pixel : Nat → Nat → Color K) (width height passes : Nat)
    (s : Sink K) (hp : 1 ≤ passes) (hb : height * width ≤ 2 ^ 32) :
    Plots pixel s (RenderMultiThreadPass pixel width height passes s)
      (fun a b => a < height ∧ b < width) := by
  obtain ⟨pixel2, h1, h2⟩ := RenderMultiThreadPass_Plots_wrapped pixel width height passes s hp
  exact Plots_congr_pixel pixel2 pixel s _ _ h1 (fun a b hD => h2 hb a b hD.1 hD.2)

/-- The row of position `k` of a row-major image, as the source computes it. -/
theorem rowMajor_row (k w : Nat) : (k - k % w) / w = k / w := by
  rcases Nat.eq_zero_or_pos w with h0 | hw
  · subst h0
    simp
  · have h1 := Nat.div_add_mod k w
    have h2 : k - k % w = w * (k / w) := by omega
    rw [h2, Nat.mul_div_cancel_left _ hw]

/-- Two positions in the same residue class modulo `p` differ by at least
`p`. -/
theorem residue_gap (p m k : Nat) (hmod : m % p = k % p) (hlt : k < m) : k + p ≤ m := by
  have h1 := Nat.div_add_mod m p
  have h2 := Nat.div_add_mod k p
  have hq : k / p < m / p := by
    by_contra hc
    have := Nat.mul_le_mul_left p (Nat.le_of_not_lt hc)
    omega
  have := Nat.mul_le_mul_left p (show k / p + 1 ≤ m / p from hq)
  rw [Nat.mul_add, Nat.mul_one] at this
  omega

/-- Positions of a row-major image of positive width with the same row and
column are equal. -/
theorem rowMajor_inj (w m k : Nat) (h1 : m / w = k / w) (h2 : m % w = k % w) : m = k := by
  have e1 := Nat.div_add_mod m w
  have e2 := Nat.div_add_mod k w
  rw [h1, h2] at e1
  omega

/-- The inner loop of `RenderScatterPass` when `k += passes` cannot wrap
around: with enough fuel it ends, having plotted the positions from `k` on in
the residue class of `k` modulo `passes`. -/
theorem RenderScatterPass.inner_Plots (pixel : Nat → Nat → Color K)
    (width pixels passes : Nat) (hp : 1 ≤ passes) (hno : pixels + passes ≤ 2 ^ 32) :
    ∀ (fuel k : Nat) (s : Sink K), pixels - k < fuel →
      ∃ r, RenderScatterPass.inner pixel width pixels passes fuel k s = some r ∧
        Plots pixel s r (fun a b => ∃ m, k ≤ m ∧ m < pixels ∧ m % passes = k % passes ∧
          a = m / width ∧ b = m % width) := by
  intro fuel
  induction fuel with
  | zero => intro k s h; omega
  | succ n ih =>
    intro k s hfuel
    by_cases hk : k < pixels
    · have hwrap : (k + passes) % 2 ^ 32 = k + passes := Nat.mod_eq_of_lt (by omega)
      obtain ⟨r, hr, hP⟩ := ih (k + passes)
        (plot (pixel ((k - k % width) / width) (k % width)) ((k - k % width) / width)
          (k % width) s) (by omega)
      refine ⟨r, ?_, ?_⟩
      · simp only [RenderScatterPass.inner]
        rw [if_pos hk, hwrap]
        exact hr
      · have h1 := Plots_plot pixel s ((k - k % width) / width) (k % width)
        have h2 := Plots_trans pixel s _ r _ _ h1 hP
          (by
            rintro a b ⟨ha, hb⟩ ⟨m, hm1, _, _, hm4, hm5⟩
            rw [rowMajor_row] at ha
            have := rowMajor_inj width m k (by rw [← hm4, ha]) (by rw [← hm5, hb])
            omega)
        refine Plots_congr pixel s r _ _ h2 ?_
        intro a b
        constructor
        · rintro (⟨ha, hb⟩ | ⟨m, hm1, hm2, hm3, hm4, hm5⟩)
          · exact ⟨k, le_refl _, hk, rfl, by rw [ha, rowMajor_row], hb⟩
          · exact ⟨m, by omega, hm2, by rw [hm3, Nat.add_mod_right], hm4, hm5⟩
        · rintro ⟨m, hm1, hm2, hm3, hm4, hm5⟩
          rcases Nat.eq_or_lt_of_le hm1 with heq | hlt
          · subst heq
            exact Or.inl ⟨by rw [hm4, rowMajor_row], hm5⟩
          · exact Or.inr ⟨m, residue_gap passes m k hm3 hlt, hm2,
              by rw [hm3, Nat.add_mod_right], hm4, hm5⟩
    · refine ⟨s, ?_, ?_⟩
      · simp only [RenderScatterPass.inner]
        rw [if_neg hk]
      · exact Plots_congr pixel s s _ _ (Plots_none pixel s)
          (fun a b => ⟨False.elim, fun ⟨m, h1, h2, _⟩ => by omega⟩)

/-- `RenderScatterPass`, when `k += passes` cannot wrap around and the fuel
exceeds the number of pixels: it ends and has plotted exactly the pixels of
the image. -/
theorem RenderScatterPass_Plots (pixel : Nat → Nat → Color K) (width height passes : Nat)
    (s : Sink K) (hp : 1 ≤ passes) (hno : height * width + passes ≤ 2 ^ 32) (fuel : Nat)
    (hfuel : height * width < fuel) :
    ∃ r, RenderScatterPass fuel pixel width height passes s = some r ∧
      Plots pixel s r (fun a b => a < height ∧ b < width) := by
  have hpix : (height * width) % 2 ^ 32 = height * width := Nat.mod_eq_of_lt (by omega)
  have key := forRange_induction 0 passes
    (fun offset (acc : Option (Sink K)) => acc.bind (fun s =>
      (RenderScatterPass.inner pixel width ((height * width) % 2 ^ 32) passes fuel offset s).map
        entis_update))
    (fun n acc => ∃ r, acc = some r ∧
      Plots pixel s r (fun a b => ∃ m, m < height * width ∧ m % passes < n ∧
        a = m / width ∧ b = m % width))
    (Nat.zero_le _)
    (by
      rintro offset acc _ hoff ⟨t, rfl, hP⟩
      rw [hpix]
      obtain ⟨r, hr, hQ⟩ := RenderScatterPass.inner_Plots pixel width (height * width) passes hp
        hno fuel offset t (by omega)
      refine ⟨entis_update r, ?_, ?_⟩
      · show (RenderScatterPass.inner pixel width (height * width) passes fuel offset t).map
          entis_update = _
        rw [hr]
        rfl
      · have h2 := Plots_trans pixel s t r _ _ hP hQ
          (by
            rintro a b ⟨m, _, hm2, hm3, hm4⟩ ⟨k, _, _, hk3, hk4, hk5⟩
            have hmk := rowMajor_inj width m k (by rw [← hm3, hk4]) (by rw [← hm4, hk5])
            rw [Nat.mod_eq_of_lt hoff] at hk3
            subst hmk
            omega)
        refine Plots_congr pixel s _ _ _ (Plots_update pixel s _ _ h2) ?_
        intro a b
        rw [Nat.mod_eq_of_lt hoff]
        constructor
        · rintro (⟨m, hm1, hm2, hm3, hm4⟩ | ⟨m, _, hm2, hm3, hm4, hm5⟩)
          · exact ⟨m, hm1, by omega, hm3, hm4⟩
          · exact ⟨m, hm2, by omega, hm4, hm5⟩
        · rintro ⟨m, hm1, hm2, hm3, hm4⟩
          rcases Nat.lt_or_ge (m % passes) offset with hlt | hge
          · exact Or.inl ⟨m, hm1, hlt, hm3, hm4⟩
          · have heq : m % passes = offset := by omega
            have hle : m % passes ≤ m := Nat.mod_le m passes
            exact Or.inr ⟨m, by omega, hm1, heq, hm3, hm4⟩)
    (some s)
    ⟨s, rfl, Plots_congr pixel s s _ _ (Plots_none pixel s)
      (fun a b => ⟨False.elim, fun ⟨m, _, h2, _⟩ => by omega⟩)⟩
  obtain ⟨r, hr, hP⟩ := key
  refine ⟨r, hr, Plots_congr pixel s r _ _ hP ?_⟩
  intro a b
  constructor
  · rintro ⟨m, hm1, _, hm3, hm4⟩
    have hw : 0 < width := by
      rcases Nat.eq_zero_or_pos width with h0 | h0
      · rw [h0, Nat.mul_zero] at hm1
        omega
      · exact h0
    refine ⟨?_, by rw [hm4]; exact Nat.mod_lt m hw⟩
    rw [hm3]
    apply Nat.div_lt_of_lt_mul
    rw [Nat.mul_comm]
    exact hm1
  · rintro ⟨ha, hb⟩
    refine ⟨a * width + b, ?_, Nat.mod_lt _ (by omega), (rowMajor_div a width b hb).symm,
      (rowMajor_mod a width b hb).symm⟩
    calc a * width + b < a * width + width := by omega
      _ = (a + 1) * width := by rw [Nat.add_mul, Nat.one_mul]
      _ ≤ height * width := Nat.mul_le_mul_right _ (by omega)

/-- Two sinks in the final state `ImageWritten` describes show the same
colour and the same plot count at every coordinate. -/
theorem ImageWritten_agree (pixel : Nat → Nat → Color K) (width height : Nat)
    (s r1 r2 : Sink K) (h1 : ImageWritten pixel width height s r1)
    (h2 : ImageWritten pixel width height s r2) (x y : Nat) :
    r1.pixel x y = r2.pixel x y ∧ r1.writes x y = r2.writes x y := by
  by_cases hxy : y < height ∧ x < width
  · obtain ⟨a1, a2⟩ := h1.1 y x hxy.1 hxy.2
    obtain ⟨b1, b2⟩ := h2.1 y x hxy.1 hxy.2
    exact ⟨by rw [a1, b1], by rw [a2, b2]⟩
  · obtain ⟨a1, a2⟩ := h1.2 x y hxy
    obtain ⟨b1, b2⟩ := h2.2 x y hxy
    exact ⟨by rw [a2, b2], by rw [a1, b1]⟩

/-- On a `65535 x 65537` image with two passes the first inner loop of
`RenderScatterPass` never ends: from an even `k` below `2 ^ 32` the test
`k < pixels` holds and `k + 2` wraps to an even number below `2 ^ 32`. -/
theorem RenderScatterPass.inner_wraps (pixel : Nat → Nat → Color K) :
    ∀ (fuel k : Nat) (s : Sink K), k % 2 = 0 → k < 2 ^ 32 →
      RenderScatterPass.inner pixel 65535 4294967295 2 fuel k s = none := by
  intro fuel
  induction fuel with
  | zero => intro k s _ _; rfl
  | succ n ih =>
    intro k s h1 h2
    simp only [RenderScatterPass.inner]
    rw [if_pos (by omega)]
    exact ih _ _ (by omega) (Nat.mod_lt _ (by norm_num))

/-- C9 as stated fails: `width = 65535`, `height = 65537` (their product
`2 ^ 32 - 1` is representable as `unsigned`) and `passes = 2`. Whatever the
fuel, `RenderScatterPass` does not end, while `RenderSinglePass` does. -/
theorem RenderScatterPass_never_ends :
    65537 * 65535 < 2 ^ 32 ∧ 1 ≤ 2 ∧
    ∀ fuel : Nat, RenderScatterPass fuel tagPixel 65535 65537 2 emptySink = none := by
  refine ⟨by norm_num, by norm_num, ?_⟩
  intro fuel
  have hpix : (65537 * 65535) % 2 ^ 32 = 4294967295 := by norm_num
  have h0 := RenderScatterPass.inner_wraps tagPixel fuel 0 emptySink (by norm_num) (by norm_num)
  simp only [RenderScatterPass, hpix]
  rw [forRange_step _ _ _ _ (by norm_num), forRange_step _ _ _ _ (by norm_num),
    forRange_done _ _ _ _ (by norm_num)]
  simp only [Option.some_bind, h0]
  rfl

/-- C9, amended: for `passes >= 1` and `width * height + passes <= 2 ^ 32`,
`RenderScatterPass` ends, and each of the five passes, started in the same
sink state, leaves every pixel (column `j`, row `i`) of the image showing
`pixel i j`, plotted exactly once, and plots nothing outside the image; so
all five leave the same colour and the same plot count at every coordinate. -/
theorem render_passes_same_image (pixel : Nat → Nat → Color K) (width height passes : Nat)
    (s : Sink K) (hp : 1 ≤ passes) (hno : height * width + passes ≤ 2 ^ 32) (fuel : Nat)
    (hfuel : height * width < fuel) :
    ∃ scatter, RenderScatterPass fuel pixel width height passes s = some scatter ∧
      ∀ r ∈ [RenderSinglePass pixel width height s, RenderHorizontalPass pixel width height s,
          RenderVerticalPass pixel width height s, scatter,
          RenderMultiThreadPass pixel width height passes s],
        ImageWritten pixel width height s r ∧
        ∀ x y, r.pixel x y = (RenderSinglePass pixel width height s).pixel x y ∧
          r.writes x y = (RenderSinglePass pixel width height s).writes x y := by
  obtain ⟨scatter, hsc, hP⟩ :=
    RenderScatterPass_Plots pixel width height passes s hp hno fuel hfuel
  have i1 := Plots_imageWritten pixel width height s _ (RenderSinglePass_Plots pixel width height s)
  have i2 := Plots_imageWritten pixel width height s _
    (RenderHorizontalPass_Plots pixel width height s)
  have i3 := Plots_imageWritten pixel width height s _
    (RenderVerticalPass_Plots pixel width height s)
  have i4 := Plots_imageWritten pixel width height s _ hP
  have i5 := Plots_imageWritten pixel width height s _
    (RenderMultiThreadPass_Plots pixel width height passes s hp (by omega))
  refine ⟨scatter, hsc, ?_⟩
  intro r hr
  simp only [List.mem_cons, List.mem_singleton, List.not_mem_nil, or_false] at hr
  rcases hr with rfl | rfl | rfl | rfl | rfl
  · exact ⟨i1, fun x y => ⟨rfl, rfl⟩⟩
  · exact ⟨i2, ImageWritten_agree pixel width height s _ _ i2 i1⟩
  · exact ⟨i3, ImageWritten_agree pixel width height s _ _ i3 i1⟩
  · exact ⟨i4, ImageWritten_agree pixel width height s _ _ i4 i1⟩
  · exact ⟨i5, ImageWritten_agree pixel width height s _ _ i5 i1⟩

/-- Witness for C9, amended: a `3 x 4` image rendered with `4` passes. -/
theorem render_passes_same_image_witness :
    1 ≤ 4 ∧ 4 * 3 + 4 ≤ 2 ^ 32 ∧ 4 * 3 < 13 ∧
    ∃ scatter, RenderScatterPass 13 tagPixel 3 4 4 emptySink = some scatter ∧
      ∀ r ∈ [RenderSinglePass tagPixel 3 4 emptySink, RenderHorizontalPass tagPixel 3 4 emptySink,
          RenderVerticalPass tagPixel 3 4 emptySink, scatter,
          RenderMultiThreadPass tagPixel 3 4 4 emptySink],
        ImageWritten tagPixel 3 4 emptySink r ∧
        ∀ x y, r.pixel x y = (RenderSinglePass tagPixel 3 4 emptySink).pixel x y ∧
          r.writes x y = (RenderSinglePass tagPixel 3 4 emptySink).writes x y :=
  ⟨by norm_num, by norm_num, by norm_num,
   render_passes_same_image tagPixel 3 4 4 emptySink (by norm_num) (by norm_num) 13
    (by norm_num)⟩

/-- Two loop bodies that agree on the range give the same loop. -/
theorem forRange_congr {σ : Type} (lo hi : Nat) (f g : Nat → σ → σ)
    (h : ∀ i s, lo ≤ i → i < hi → f i s = g i s) (s : σ) :
    forRange lo hi f s = forRange lo hi g s := by
  simp only [forRange]
  apply List.foldl_ext
  intro a b hb
  rw [List.mem_range'_1] at hb
  exact h b a hb.1 (by omega)

/-- The row range of an asynchronous worker. -/
theorem rowRange_worker (height passes id : Nat) (h : id < passes - 1) :
    RenderMultiThreadPass.rowRange height passes id =
      (height / passes * id, height / passes * (id + 1)) := by
  simp only [RenderMultiThreadPass.rowRange]
  rw [if_pos h]

/-- The row range the caller renders itself. -/
theorem rowRange_caller (height passes : Nat) :
    RenderMultiThreadPass.rowRange height passes (passes - 1) =
      (height / passes * (passes - 1), height) := by
  simp only [RenderMultiThreadPass.rowRange]
  rw [if_neg (Nat.lt_irrefl _)]

/-- A call of `entis_update` leaves the plotted points as they are. -/
theorem entis_update_points (s : Sink K) : (entis_update s).points = s.points := rfl

/-- On a sink with no points yet, the `k`-th point the plotting loops for one
row range plot. -/
theorem plotRows_thread_points_at (pixel : Nat → Nat → Color K) (width start end_ : Nat)
    (s : Sink K) (h : start ≤ end_) (hs : s.points = []) (k : Nat)
    (hk : k < (end_ - start) * width) :
    (RenderMultiThreadPass.plotRows width (RenderThread pixel width start end_)
        start end_ s).1.points[k]? =
      some ((k % width, start + k / width),
        pixel (start + (k % 2 ^ 32) / width) ((k % 2 ^ 32) % width)) := by
  rw [plotRows_thread_points pixel width start end_ s h, hs, List.nil_append,
    List.getElem?_map, List.getElem?_range hk]
  rfl

/-- With one pass `RenderMultiThreadPass` starts no worker: the caller renders
and plots the whole image as one row range. -/
theorem RenderMultiThreadPass_one (pixel : Nat → Nat → Color K) (width height : Nat)
    (s : Sink K) :
    RenderMultiThreadPass pixel width height 1 s =
      entis_update
        (RenderMultiThreadPass.plotRows width (RenderThread pixel width 0 height) 0 height s).1 := by
  simp only [RenderMultiThreadPass, Nat.sub_self, Nat.mul_zero]
  rw [forRange_done _ _ _ _ (le_refl _)]

/-- C10 as stated fails: `width = 65536`, `height = 65537`, `passes = 1`. The
single row range has `2 ^ 32 + 65536` pixels. Position `2 ^ 32` of the vector
`RenderThread` returns holds the colour of row `65536`, column `0`; the
plotting loops reach that pixel with `pos` wrapped to `0` and plot it in the
colour at position `0`, that of row `0`, column `0`. -/
theorem RenderMultiThreadPass_pos_wraps :
    (1 : Nat) ≤ 1 ∧
    (RenderThread tagPixel 65536 0 65537)[4294967296]? = some (tagPixel 65536 0) ∧
    (RenderMultiThreadPass tagPixel 65536 65537 1 emptySink).points[4294967296]? =
      some ((0, 65536), tagPixel 0 0) ∧
    tagPixel 0 0 ≠ tagPixel 65536 0 := by
  have hlt : 4294967296 < (65537 - 0) * 65536 := by norm_num
  refine ⟨le_refl _, ?_, ?_, ?_⟩
  · rw [RenderThread_eq tagPixel 65536 0 65537 (Nat.zero_le _), List.getElem?_map,
      List.getElem?_range hlt]
    simp only [Option.map_some']
  · rw [RenderMultiThreadPass_one, entis_update_points,
      plotRows_thread_points_at tagPixel 65536 0 65537 emptySink (Nat.zero_le _) rfl
        4294967296 hlt]
    have a1 : 4294967296 % 65536 = 0 := by norm_num
    have a2 : 0 + 4294967296 / 65536 = 65536 := by norm_num
    have a3 : 4294967296 % 2 ^ 32 = 0 := by norm_num
    rw [a1, a2, a3]
  · simp [tagPixel]

/-- C10, amended: in `RenderMultiThreadPass` with `passes >= 1` the loops run
over the row ranges `rowRange`; every range lies inside the image; every row
below `height` lies in exactly one range, so the ranges are pairwise disjoint
and cover the rows; the `k`-th colour of the vector `RenderThread` returns for
a range is that of row `start + k / width`, column `k % width`; and for a
range of at most `2 ^ 32` pixels the plotting loops plot the `k`-th colour at
that row and column. -/
theorem RenderMultiThreadPass_ranges (pixel : Nat → Nat → Color K) (width height passes : Nat)
    (hp : 1 ≤ passes) :
    (∀ s : Sink K, RenderMultiThreadPass pixel width height passes s =
      entis_update (forRange 0 (passes - 1)
        (fun id s => (RenderMultiThreadPass.plotRows width
          (RenderThread pixel width (RenderMultiThreadPass.rowRange height passes id).1
            (RenderMultiThreadPass.rowRange height passes id).2)
          (RenderMultiThreadPass.rowRange height passes id).1
          (RenderMultiThreadPass.rowRange height passes id).2 s).1)
        (RenderMultiThreadPass.plotRows width
          (RenderThread pixel width (RenderMultiThreadPass.rowRange height passes (passes - 1)).1
            (RenderMultiThreadPass.rowRange height passes (passes - 1)).2)
          (RenderMultiThreadPass.rowRange height passes (passes - 1)).1
          (RenderMultiThreadPass.rowRange height passes (passes - 1)).2 s).1)) ∧
    (∀ id, id < passes →
      (RenderMultiThreadPass.rowRange height passes id).1 ≤
        (RenderMultiThreadPass.rowRange height passes id).2 ∧
      (RenderMultiThreadPass.rowRange height passes id).2 ≤ height) ∧
    (∀ row, row < height →
      ∃ id, id < passes ∧
        (RenderMultiThreadPass.rowRange height passes id).1 ≤ row ∧
        row < (RenderMultiThreadPass.rowRange height passes id).2 ∧
        ∀ k, k < passes → (RenderMultiThreadPass.rowRange height passes k).1 ≤ row →
          row < (RenderMultiThreadPass.rowRange height passes k).2 → k = id) ∧
    (∀ id, id < passes →
      RenderThread pixel width (RenderMultiThreadPass.rowRange height passes id).1
          (RenderMultiThreadPass.rowRange height passes id).2 =
        (List.range (((RenderMultiThreadPass.rowRange height passes id).2 -
            (RenderMultiThreadPass.rowRange height passes id).1) * width)).map
          (fun k => pixel ((RenderMultiThreadPass.rowRange height passes id).1 + k / width)
            (k % width))) ∧
    (∀ id, id < passes →
      ((RenderMultiThreadPass.rowRange height passes id).2 -
        (RenderMultiThreadPass.rowRange height passes id).1) * width ≤ 2 ^ 32 →
      ∀ s : Sink K,
      (RenderMultiThreadPass.plotRows width
          (RenderThread pixel width (RenderMultiThreadPass.rowRange height passes id).1
            (RenderMultiThreadPass.rowRange height passes id).2)
          (RenderMultiThreadPass.rowRange height passes id).1
          (RenderMultiThreadPass.rowRange height passes id).2 s).1.points =
        s.points ++ (List.range (((RenderMultiThreadPass.rowRange height passes id).2 -
            (RenderMultiThreadPass.rowRange height passes id).1) * width)).map
          (fun k => ((k % width, (RenderMultiThreadPass.rowRange height passes id).1 + k / width),
            pixel ((RenderMultiThreadPass.rowRange height passes id).1 + k / width)
              (k % width)))) := by
  have hlast := rowRange_last_le height passes
  have hbounds : ∀ id, id < passes →
      (RenderMultiThreadPass.rowRange height passes id).1 ≤
        (RenderMultiThreadPass.rowRange height passes id).2 ∧
      (RenderMultiThreadPass.rowRange height passes id).2 ≤ height := by
    intro id hid
    rcases Nat.lt_or_ge id (passes - 1) with h | h
    · rw [rowRange_worker _ _ _ h]
      have h1 := Nat.mul_le_mul_left (height / passes) (Nat.le_succ id)
      have h2 := Nat.mul_le_mul_left (height / passes) (show id + 1 ≤ passes - 1 from h)
      exact ⟨h1, by simp only; omega⟩
    · have : id = passes - 1 := by omega
      rw [this, rowRange_caller]
      exact ⟨hlast, le_refl _⟩
  refine ⟨?_, hbounds, ?_, ?_, ?_⟩
  · intro s
    simp only [RenderMultiThreadPass, rowRange_caller]
    congr 1
    apply forRange_congr
    intro id t _ hid
    rw [rowRange_worker _ _ _ hid, List.getD_eq_getElem?_getD, List.getElem?_map,
      List.getElem?_range hid]
    rfl
  · intro row hrow
    have huniq : ∀ id k, id < passes → k < passes →
        (RenderMultiThreadPass.rowRange height passes id).1 ≤ row →
        row < (RenderMultiThreadPass.rowRange height passes id).2 →
        (RenderMultiThreadPass.rowRange height passes k).1 ≤ row →
        row < (RenderMultiThreadPass.rowRange height passes k).2 → k = id := by
      intro id k hid hk a1 a2 b1 b2
      rcases Nat.lt_or_ge id (passes - 1) with h | h <;>
        rcases Nat.lt_or_ge k (passes - 1) with h' | h'
      · rw [rowRange_worker _ _ _ h] at a1 a2
        rw [rowRange_worker _ _ _ h'] at b1 b2
        exact rowRange_unique _ k id row b1 b2 a1 a2
      · have hk' : k = passes - 1 := by omega
        rw [rowRange_worker _ _ _ h] at a2
        rw [hk', rowRange_caller] at b1
        have := Nat.mul_le_mul_left (height / passes) (show id + 1 ≤ passes - 1 from h)
        simp only at a2 b1
        omega
      · have hid' : id = passes - 1 := by omega
        rw [rowRange_worker _ _ _ h'] at b2
        rw [hid', rowRange_caller] at a1
        have := Nat.mul_le_mul_left (height / passes) (show k + 1 ≤ passes - 1 from h')
        simp only at a1 b2
        omega
      · omega
    rcases Nat.lt_or_ge row (height / passes * (passes - 1)) with hlt | hge
    · obtain ⟨id, hid, h4, h5⟩ := rowRange_cover _ _ _ hlt
      have e := rowRange_worker height passes id hid
      refine ⟨id, by omega, by rw [e]; exact h4, by rw [e]; exact h5, ?_⟩
      intro k hk b1 b2
      exact huniq id k (by omega) hk (by rw [e]; exact h4) (by rw [e]; exact h5) b1 b2
    · have e := rowRange_caller height passes
      refine ⟨passes - 1, by omega, by rw [e]; exact hge, by rw [e]; exact hrow, ?_⟩
      intro k hk b1 b2
      exact huniq (passes - 1) k (by omega) hk (by rw [e]; exact hge) (by rw [e]; exact hrow)
        b1 b2
  · intro id hid
    exact RenderThread_eq pixel width _ _ (hbounds id hid).1
  · intro id hid hb s
    rw [plotRows_thread_points pixel width _ _ s (hbounds id hid).1]
    congr 1
    apply List.map_congr_left
    intro k hk
    rw [List.mem_range] at hk
    rw [Nat.mod_eq_of_lt (lt_of_lt_of_le hk hb)]

/-- Witness for C10, amended: four passes on an image of four rows and three
columns, every pixel tagged with its row and column. Each row is a range of
its own; the caller plots row `3` first, then rows `0`, `1` and `2` as the
workers are waited for, each colour on the row and column it was computed
for. -/
theorem RenderMultiThreadPass_ranges_witness :
    1 ≤ 4 ∧
    (∀ row, row < 4 →
      ∃ id, id < 4 ∧
        (RenderMultiThreadPass.rowRange 4 4 id).1 ≤ row ∧
        row < (RenderMultiThreadPass.rowRange 4 4 id).2 ∧
        ∀ k, k < 4 → (RenderMultiThreadPass.rowRange 4 4 k).1 ≤ row →
          row < (RenderMultiThreadPass.rowRange 4 4 k).2 → k = id) ∧
    (RenderMultiThreadPass tagPixel 3 4 4 emptySink).points =
      [((0, 3), tagPixel 3 0), ((1, 3), tagPixel 3 1), ((2, 3), tagPixel 3 2),
       ((0, 0), tagPixel 0 0), ((1, 0), tagPixel 0 1), ((2, 0), tagPixel 0 2),
       ((0, 1), tagPixel 1 0), ((1, 1), tagPixel 1 1), ((2, 1), tagPixel 1 2),
       ((0, 2), tagPixel 2 0), ((1, 2), tagPixel 2 1), ((2, 2), tagPixel 2 2)] :=
  ⟨by norm_num, (RenderMultiThreadPass_ranges tagPixel 3 4 4 (by norm_num)).2.2.1, rfl⟩

/-! ## The sampling loops in IEEE arithmetic -/

/-- A number within half a unit of the integer `m` rounds to `m`. -/
theorem roundHalfEven_eq (q : ℚ) (m : ℤ) (h1 : (m : ℚ) - 1 / 2 < q) (h2 : q < m + 1 / 2) :
    roundHalfEven q = m := by
  rcases le_or_lt (m : ℚ) q with hle | hlt
  · have hf : ⌊q⌋ = m := by
      rw [Int.floor_eq_iff]
      exact ⟨hle, by linarith⟩
    simp only [roundHalfEven, hf]
    rw [if_pos (by linarith)]
  · have hf : ⌊q⌋ = m - 1 := by
      rw [Int.floor_eq_iff]
      push_cast
      exact ⟨by linarith, by linarith⟩
    simp only [roundHalfEven, hf]
    push_cast
    rw [if_neg (by linarith), if_pos (by linarith)]
    ring

/-- The `double` nearest to `x`, from the binade `2 ^ e <= |x| < 2 ^ (e + 1)`
and an integer `m` within half a unit of `x / 2 ^ (e - 52)`. -/
theorem binary64_eq (x : ℚ) (e m : ℤ) (h1 : (2 : ℚ) ^ e ≤ |x|) (h2 : |x| < (2 : ℚ) ^ (e + 1))
    (h3 : (m : ℚ) - 1 / 2 < x / 2 ^ (e - 52)) (h4 : x / 2 ^ (e - 52) < m + 1 / 2) :
    binary64 x = m * 2 ^ (e - 52) := by
  have hpos : 0 < |x| := lt_of_lt_of_le (zpow_pos (by norm_num) e) h1
  have hx : x ≠ 0 := abs_pos.mp hpos
  have hlog : Int.log 2 |x| = e := by
    apply le_antisymm
    · have := (Int.lt_zpow_iff_log_lt (b := 2) (by norm_num) hpos).mp
        (by simpa using h2)
      omega
    · exact (Int.zpow_le_iff_le_log (b := 2) (by norm_num) hpos).mp (by simpa using h1)
  simp only [binary64, hlog]
  rw [if_neg hx, roundHalfEven_eq _ m h3 h4]

/-- The step `1.0 / 3` of the sampling loops for `width_ = 1`, `samples_ = 3`. -/
theorem binary64_third : binary64 (1 / 3) = 6004799503160661 / 18014398509481984 := by
  rw [binary64_eq (1 / 3) (-2) 6004799503160661 (by norm_num [abs_of_pos])
    (by norm_num [abs_of_pos]) (by norm_num) (by norm_num)]
  norm_num

/-- With `width_ = 1.0` and `samples_ = 3` the header
`for (double u = -0.5; u < 0.5; u += 1.0 / 3)` runs its body four times: the
counter takes the values `-0.5`, `-0.16666666666666669`,
`0.16666666666666663` and `0.49999999999999994`, all below `0.5`. -/
theorem doubleLoopRounds_third :
    doubleLoopRounds (1 / 2) (binary64 (1 / 3)) 5 (-1 / 2) = some 4 := by
  have s1 : binary64 (-1 / 2 + 6004799503160661 / 18014398509481984) =
      -3002399751580331 / 18014398509481984 := by
    rw [binary64_eq _ (-3) (-6004799503160662) (by norm_num [abs_of_neg]) (by norm_num [abs_of_neg])
      (by norm_num) (by norm_num)]
    norm_num
  have s2 : binary64 (-3002399751580331 / 18014398509481984 +
      6004799503160661 / 18014398509481984) = 3002399751580330 / 18014398509481984 := by
    rw [binary64_eq _ (-3) 6004799503160660 (by norm_num [abs_of_pos]) (by norm_num [abs_of_pos])
      (by norm_num) (by norm_num)]
    norm_num
  have s3 : binary64 (3002399751580330 / 18014398509481984 +
      6004799503160661 / 18014398509481984) = 9007199254740991 / 18014398509481984 := by
    rw [binary64_eq _ (-2) 9007199254740991 (by norm_num [abs_of_pos]) (by norm_num [abs_of_pos])
      (by norm_num) (by norm_num)]
    norm_num
  have s4 : binary64 (9007199254740991 / 18014398509481984 +
      6004799503160661 / 18014398509481984) = 7505999378950826 / 9007199254740992 := by
    rw [binary64_eq _ (-1) 7505999378950826 (by norm_num [abs_of_pos]) (by norm_num [abs_of_pos])
      (by norm_num) (by norm_num)]
    norm_num
  rw [binary64_third]
  simp only [doubleLoopRounds]
  rw [if_pos (by norm_num), s1, if_pos (by norm_num), s2, if_pos (by norm_num), s3,
    if_pos (by norm_num), s4, if_neg (by norm_num)]
  rfl

/-- C8 (the code at two failing inputs). With `width_ = 1.0` and
`samples_ = 3` the loop header of the sampling loops runs four rounds in
`double` arithmetic, not three, so `4 * 4` samples are divided by
`sample_count = 9`. With `samples_ = 65537` and no object the value
`ShadowRay` returns is `4295098369 / 131073`, above `1`, already in exact
arithmetic, because `sample_count` is reduced modulo `2 ^ 32`. -/
theorem ShadowRay_area_oversamples :
    doubleLoopRounds (1 / 2) (binary64 (1 / 3)) 5 (-1 / 2) = some 4 ∧
    (ShadowRay axisEnv (unitAreaLight 65537)
      (shadingPoint ⟨0, 0, 0⟩ ⟨1, 0, 0⟩ (plainMaterial 0) (some 0)) [] 0).vis =
        4295098369 / 131073 ∧
    ¬ ((ShadowRay axisEnv (unitAreaLight 65537)
      (shadingPoint ⟨0, 0, 0⟩ ⟨1, 0, 0⟩ (plainMaterial 0) (some 0)) [] 0).vis ≤ 1) :=
  ⟨doubleLoopRounds_third, ShadowRay_area_overflow.2.1, ShadowRay_area_overflow.2.2⟩

end Passes

/-! ## Shading: the excluded object and perfect mirrors -/

section Shading

variable {K : Type} [LinearOrderedField K]

/-- C13: when the record `TraceRay` leaves refers to the caster passed to
`CastRay` (so when the nearest object found is the excluded one), `CastRay`
returns exactly `background_color` and draws no random number, whatever the
other objects, the lights and the depth are. -/
theorem CastRay_caster_background [FloorRing K] (env : Env K) (start dir : Vec3 K)
    (objs : List (Object K)) (lights : List (Light K)) (depth : Nat) (caster : Option Nat)
    (rng : Nat) (h : (TraceRay env start dir objs env.defaultInter).2.obj = caster) :
    CastRay env start dir objs lights depth caster rng = (background_color, rng) := by
  rw [CastRay_unfold]
  by_cases hd : depth ≥ max_depth
  · rw [if_pos hd]
  · rw [if_neg hd, if_neg (fun hc => hc.2 h)]

/-- Witness for C13: the caster is met at distance `1`, a second object at
distance `2`, and a light is present. -/
theorem CastRay_caster_background_witness :
    (TraceRay axisEnv ⟨0, 0, 0⟩ ⟨0, 0, 1⟩
      [constObject 1 ⟨0, 0, 1⟩ ⟨0, 0, -1⟩ (plainMaterial 0),
       constObject 2 ⟨0, 0, 2⟩ ⟨0, 0, -1⟩ (plainMaterial 1)] axisEnv.defaultInter).2.obj =
        some 0 ∧
    CastRay axisEnv ⟨0, 0, 0⟩ ⟨0, 0, 1⟩
      [constObject 1 ⟨0, 0, 1⟩ ⟨0, 0, -1⟩ (plainMaterial 0),
       constObject 2 ⟨0, 0, 2⟩ ⟨0, 0, -1⟩ (plainMaterial 1)]
      [DistantLight axisEnv ⟨0, 0, 1⟩ ⟨1, 1, 1⟩ 1] 3 (some 0) 0 = (background_color, 0) :=
  ⟨by decide,
   CastRay_caster_background axisEnv ⟨0, 0, 0⟩ ⟨0, 0, 1⟩
      [constObject 1 ⟨0, 0, 1⟩ ⟨0, 0, -1⟩ (plainMaterial 0),
       constObject 2 ⟨0, 0, 2⟩ ⟨0, 0, -1⟩ (plainMaterial 1)]
      [DistantLight axisEnv ⟨0, 0, 1⟩ ⟨1, 1, 1⟩ 1] 3 (some 0) 0 (by decide)⟩

/-- The record `TraceRay` leaves after a hit is the one filled by the
`Intersect` of an object that reported a hit. -/
theorem TraceRay_hit_record (env : Env K) (start dir : Vec3 K) (objs : List (Object K))
    (inter : IntersectData K) (h : (TraceRay env start dir objs inter).1 = true) :
    ∃ o ∈ objs, (hitOf env start dir o).1 = true ∧
      (TraceRay env start dir objs inter).2.mat = (hitOf env start dir o).2.mat := by
  rcases TraceRay.loop_spec env start dir objs 0 { inter with obj := none } with
    ⟨heq, _⟩ | ⟨i, o, hio, heq, hhit, _⟩
  · simp only [TraceRay, heq] at h
    simp at h
  · refine ⟨o, List.getElem?_mem hio, hhit, ?_⟩
    simp only [TraceRay, heq]

/-- A hit on a perfect mirror below the depth limit returns the colour some
`CastRay` call at `depth + 1` returns. -/
theorem CastRay_mirror_step [FloorRing K] (env : Env K) (start dir : Vec3 K)
    (objs : List (Object K)) (lights : List (Light K)) (depth : Nat) (caster : Option Nat)
    (rng : Nat) (hd : depth < max_depth)
    (hhit : (TraceRay env start dir objs env.defaultInter).1 = true)
    (hc : (TraceRay env start dir objs env.defaultInter).2.obj ≠ caster)
    (hk : (TraceRay env start dir objs env.defaultInter).2.mat.reflectivity = 1) :
    ∃ (p r : Vec3 K) (obj : Option Nat) (rng1 : Nat),
      (CastRay env start dir objs lights depth caster rng).1 =
        (CastRay env p r objs lights (depth + 1) obj rng1).1 := by
  have hm : (CastRay.afterLights env start dir objs lights rng).inter.mat =
      (TraceRay env start dir objs env.defaultInter).2.mat :=
    (CastRay.lights_keep env start dir objs lights _).2.2.1
  refine ⟨(CastRay.afterLights env start dir objs lights rng).inter.point.add
      ((dir.sub (((CastRay.afterLights env start dir objs lights rng).inter.normal.scale 2).scale
        (Dot (CastRay.afterLights env start dir objs lights rng).inter.normal dir))).scale bias),
    dir.sub (((CastRay.afterLights env start dir objs lights rng).inter.normal.scale 2).scale
      (Dot (CastRay.afterLights env start dir objs lights rng).inter.normal dir)),
    (CastRay.afterLights env start dir objs lights rng).inter.obj,
    (CastRay.afterLights env start dir objs lights rng).rng, ?_⟩
  rw [CastRay_unfold, if_neg (by omega), if_pos ⟨hhit, hc⟩,
    if_pos (by rw [hm, hk]; exact one_ne_zero), Reflect_unfold, hm, hk]
  simp only [Combine, sub_self, mul_zero, mul_one, zero_add]

/-- In a scene of perfect mirrors `CastRay` returns `background_color` from
every depth: by induction on the distance to the depth limit. -/
theorem CastRay_mirrors_aux [FloorRing K] (env : Env K) (objs : List (Object K))
    (lights : List (Light K))
    (hm : ∀ o ∈ objs, ∀ start dir : Vec3 K, (hitOf env start dir o).1 = true →
      (hitOf env start dir o).2.mat.reflectivity = 1) :
    ∀ (n depth : Nat) (start dir : Vec3 K) (caster : Option Nat) (rng : Nat),
      max_depth - depth ≤ n →
      (CastRay env start dir objs lights depth caster rng).1 = background_color := by
  intro n
  induction n with
  | zero =>
    intro depth start dir caster rng h
    rw [CastRay_unfold, if_pos (by omega)]
  | succ n ih =>
    intro depth start dir caster rng h
    by_cases hd : depth ≥ max_depth
    · rw [CastRay_unfold, if_pos hd]
    · by_cases hh : (TraceRay env start dir objs env.defaultInter).1 = true ∧
          (TraceRay env start dir objs env.defaultInter).2.obj ≠ caster
      · obtain ⟨o, ho, hhit, hmat⟩ :=
          TraceRay_hit_record env start dir objs env.defaultInter hh.1
        have hk : (TraceRay env start dir objs env.defaultInter).2.mat.reflectivity = 1 := by
          rw [hmat]
          exact hm o ho start dir hhit
        obtain ⟨p, r, obj, rng1, hstep⟩ := CastRay_mirror_step env start dir objs lights depth
          caster rng (by omega) hh.1 hh.2 hk
        rw [hstep]
        exact ih (depth + 1) p r obj rng1 (by omega)
      · rw [CastRay_unfold, if_neg hd, if_neg hh]

/-- C15: in a scene where every object reports a material of reflectivity `1`
whenever it reports a hit, for every light list (with or without area
lights), ray, depth and caster, `CastRay` returns exactly `background_color`,
and a budget of `max_depth - depth + 1` nested calls is enough for it to
return. -/
theorem CastRay_mirrors_background [FloorRing K] (env : Env K) (objs : List (Object K))
    (lights : List (Light K))
    (hm : ∀ o ∈ objs, ∀ start dir : Vec3 K, (hitOf env start dir o).1 = true →
      (hitOf env start dir o).2.mat.reflectivity = 1)
    (start dir : Vec3 K) (depth : Nat) (caster : Option Nat) (rng : Nat) :
    (CastRay env start dir objs lights depth caster rng).1 = background_color ∧
    ∃ rng1, CastRayFuel env objs lights (max_depth - depth + 1) start dir depth caster rng =
      some (background_color, rng1) := by
  have h1 := CastRay_mirrors_aux env objs lights hm (max_depth - depth) depth start dir caster
    rng (le_refl _)
  refine ⟨h1, (CastRay env start dir objs lights depth caster rng).2, ?_⟩
  rw [CastRayFuel_enough env objs lights _ start dir depth caster rng (by omega), ← h1]

/-- Witness for C15: two parallel perfect mirrors facing each other, in the
planes `z = 1` and `z = -1`, and a distant light; the ray leaves the origin
along `(0, 0, 1)` at depth `0` and meets the first mirror. A ray along
`(1, 0, 0)` misses that mirror, which then leaves the record alone. -/
theorem CastRay_mirrors_background_witness :
    (∀ o ∈ [mirrorPlane 1 ⟨0, 0, -1⟩, mirrorPlane (-1) ⟨0, 0, 1⟩],
      ∀ start dir : Vec3 ℚ, (hitOf axisEnv start dir o).1 = true →
        (hitOf axisEnv start dir o).2.mat.reflectivity = 1) ∧
    (hitOf axisEnv ⟨0, 0, 0⟩ ⟨1, 0, 0⟩ (mirrorPlane 1 ⟨0, 0, -1⟩)).1 = false ∧
    (hitOf axisEnv ⟨0, 0, 0⟩ ⟨1, 0, 0⟩ (mirrorPlane 1 ⟨0, 0, -1⟩)).2.mat.reflectivity = 0 ∧
    (hitOf axisEnv ⟨0, 0, 0⟩ ⟨0, 0, 1⟩ (mirrorPlane 1 ⟨0, 0, -1⟩)).1 = true ∧
    (CastRay axisEnv ⟨0, 0, 0⟩ ⟨0, 0, 1⟩
      [mirrorPlane 1 ⟨0, 0, -1⟩, mirrorPlane (-1) ⟨0, 0, 1⟩]
      [DistantLight axisEnv ⟨0, 0, 1⟩ ⟨1, 1, 1⟩ 1] 0 none 0).1 = background_color ∧
    ∃ rng1, CastRayFuel axisEnv [mirrorPlane 1 ⟨0, 0, -1⟩, mirrorPlane (-1) ⟨0, 0, 1⟩]
      [DistantLight axisEnv ⟨0, 0, 1⟩ ⟨1, 1, 1⟩ 1] (max_depth - 0 + 1) ⟨0, 0, 0⟩ ⟨0, 0, 1⟩
      0 none 0 = some (background_color, rng1) := by
  have hm : ∀ o ∈ [mirrorPlane 1 ⟨0, 0, -1⟩, mirrorPlane (-1) ⟨0, 0, 1⟩],
      ∀ start dir : Vec3 ℚ, (hitOf axisEnv start dir o).1 = true →
        (hitOf axisEnv start dir o).2.mat.reflectivity = 1 := by
    intro o ho start dir hhit
    simp only [List.mem_cons, List.mem_singleton, List.not_mem_nil, or_false] at ho
    rcases ho with rfl | rfl
    · simp only [hitOf, mirrorPlane] at hhit ⊢
      by_cases h : dir.z ≠ 0 ∧ 0 < (1 - start.z) / dir.z
      · rw [if_pos h]
        rfl
      · rw [if_neg h] at hhit
        exact absurd hhit (by simp)
    · simp only [hitOf, mirrorPlane] at hhit ⊢
      by_cases h : dir.z ≠ 0 ∧ 0 < (-1 - start.z) / dir.z
      · rw [if_pos h]
        rfl
      · rw [if_neg h] at hhit
        exact absurd hhit (by simp)
  refine ⟨hm, ?_, ?_, ?_,
    CastRay_mirrors_background axisEnv
      [mirrorPlane 1 ⟨0, 0, -1⟩, mirrorPlane (-1) ⟨0, 0, 1⟩]
      [DistantLight axisEnv ⟨0, 0, 1⟩ ⟨1, 1, 1⟩ 1] hm ⟨0, 0, 0⟩ ⟨0, 0, 1⟩ 0 none 0⟩
  · simp [hitOf, mirrorPlane]
  · simp [hitOf, mirrorPlane, axisEnv]
  · simp [hitOf, mirrorPlane]

end Shading

/-! ## The colour operators -/

section ColorOps

variable {K : Type} [LinearOrderedField K]

/-- C14 (what the code computes): `a + b`, `a * b`, `a / b` and
`Combine(a, p, b, q)` are the componentwise sum, product, quotient and
weighted combination, and `a - a` is the zero colour; but `a - b` is half the
componentwise difference, so it is the componentwise difference only when
`a` and `b` are equal, and `(1, 1, 1) - (0, 0, 0)` is `(1/2, 1/2, 1/2)`. -/
theorem Color_binary_operators (a b : Color K) (p q : K) :
    Color.add a b = ⟨a.r + b.r, a.g + b.g, a.b + b.b⟩ ∧
    Color.mul a b = ⟨a.r * b.r, a.g * b.g, a.b * b.b⟩ ∧
    Color.div a b = ⟨a.r / b.r, a.g / b.g, a.b / b.b⟩ ∧
    Combine a p b q = ⟨a.r * p + b.r * q, a.g * p + b.g * q, a.b * p + b.b * q⟩ ∧
    Color.sub a a = ⟨0, 0, 0⟩ ∧
    Color.sub a b = ⟨(a.r - b.r) / 2, (a.g - b.g) / 2, (a.b - b.b) / 2⟩ ∧
    (Color.sub a b = ⟨a.r - b.r, a.g - b.g, a.b - b.b⟩ ↔ a = b) ∧
    Color.sub (⟨1, 1, 1⟩ : Color K) ⟨0, 0, 0⟩ = ⟨1 / 2, 1 / 2, 1 / 2⟩ ∧
    Color.sub (⟨1, 1, 1⟩ : Color K) ⟨0, 0, 0⟩ ≠ ⟨1 - 0, 1 - 0, 1 - 0⟩ := by
  have hsub : ∀ x y : Color K,
      Color.sub x y = ⟨(x.r - y.r) / 2, (x.g - y.g) / 2, (x.b - y.b) / 2⟩ := by
    intro x y
    simp only [Color.sub, Combine, Color.mk.injEq]
    refine ⟨?_, ?_, ?_⟩ <;> ring
  refine ⟨?_, rfl, rfl, rfl, ?_, hsub a b, ?_, ?_, ?_⟩
  · simp only [Color.add, Combine, mul_one]
  · rw [hsub]
    simp
  · rw [hsub]
    obtain ⟨ar, ag, ab⟩ := a
    obtain ⟨br, bg, bb⟩ := b
    simp only [Color.mk.injEq]
    constructor
    · rintro ⟨h1, h2, h3⟩
      exact ⟨by linarith, by linarith, by linarith⟩
    · rintro ⟨rfl, rfl, rfl⟩
      simp
  · rw [hsub]
    simp
  · rw [hsub]
    simp only [Color.mk.injEq, sub_zero, ne_eq, not_and]
    intro h
    exfalso
    have : (1 : K) / 2 < 1 := by norm_num
    exact absurd h (ne_of_lt this)

/-- C16 (what the code computes): `s + c` and `s * c` have the scalar as an
operand of each channel, in the order `c.r + s` and `c.r * s`; `s - c` is
computed as `c - s` per channel and `s / c` as `c / s`, so `s - c` equals
`c - s` instead of its negation: `1 - (0, 0, 0)` is `(-1, -1, -1)` and
`1 / (2, 2, 2)` is `(2, 2, 2)`. -/
theorem Color_scalar_left_operators (s : K) (c : Color K) :
    Color.scalarAdd s c = ⟨s + c.r, s + c.g, s + c.b⟩ ∧
    Color.scalarMul s c = ⟨s * c.r, s * c.g, s * c.b⟩ ∧
    Color.scalarSub s c = ⟨c.r - s, c.g - s, c.b - s⟩ ∧
    Color.scalarDiv s c = ⟨c.r / s, c.g / s, c.b / s⟩ ∧
    Color.scalarSub s c = Color.subScalar c s ∧
    Color.scalarDiv s c = Color.divScalar c s ∧
    Color.scalarSub (1 : K) ⟨0, 0, 0⟩ = ⟨-1, -1, -1⟩ ∧
    Color.scalarSub (1 : K) ⟨0, 0, 0⟩ ≠ ⟨1 - 0, 1 - 0, 1 - 0⟩ ∧
    Color.scalarDiv (1 : K) ⟨2, 2, 2⟩ = ⟨2, 2, 2⟩ ∧
    Color.scalarDiv (1 : K) ⟨2, 2, 2⟩ ≠ ⟨1 / 2, 1 / 2, 1 / 2⟩ := by
  refine ⟨?_, ?_, rfl, rfl, rfl, rfl, ?_, ?_, ?_, ?_⟩
  · simp only [Color.scalarAdd, Color.mk.injEq]
    exact ⟨add_comm _ _, add_comm _ _, add_comm _ _⟩
  · simp only [Color.scalarMul, Color.mk.injEq]
    exact ⟨mul_comm _ _, mul_comm _ _, mul_comm _ _⟩
  · simp [Color.scalarSub]
  · simp only [Color.scalarSub, Color.mk.injEq, ne_eq, not_and]
    intro h
    exfalso
    have : (0 : K) - 1 < 1 - 0 := by norm_num
    exact absurd h (ne_of_lt this)
  · simp [Color.scalarDiv]
  · simp only [Color.scalarDiv, Color.mk.injEq, ne_eq, not_and]
    intro h
    exfalso
    have : (1 : K) / 2 < 2 / 1 := by norm_num
    exact absurd h.symm (ne_of_lt this)

end ColorOps

/-! ## Directions -/

section Directions

variable {K : Type} [LinearOrderedField K]

/-- The reflected direction of a unit vector about a unit normal is a unit
vector. -/
theorem reflection_unit (n d : Vec3 K) (hn : Dot n n = 1) (hd : Dot d d = 1) :
    Dot (d.sub ((n.scale 2).scale (Dot n d))) (d.sub ((n.scale 2).scale (Dot n d))) = 1 := by
  obtain ⟨nx, ny, nz⟩ := n
  obtain ⟨dx, dy, dz⟩ := d
  simp only [Dot, Vec3.sub, Vec3.scale] at hn hd ⊢
  linear_combination hd + 4 * (nx * dx + ny * dy + nz * dz) ^ 2 * hn

/-- C18: for a unit normal `n` and a unit direction `d`, `Reflect` calls
`CastRay` with the direction `r = d - n * 2 * Dot(n, d)`, not renormalised;
`r` has squared length `1`, so its length is `1`; and `r`, with it the whole
`Reflect` call, is the same for `-n` as for `n`. -/
theorem Reflect_direction_unit [FloorRing K] (env : Env K) (point n d : Vec3 K)
    (objs : List (Object K)) (lights : List (Light K)) (depth : Nat) (obj : Option Nat)
    (rng : Nat) (hn : Dot n n = 1) (hd : Dot d d = 1) :
    Reflect env point n d objs lights depth obj rng =
      CastRay env (point.add ((d.sub ((n.scale 2).scale (Dot n d))).scale bias))
        (d.sub ((n.scale 2).scale (Dot n d))) objs lights (depth + 1) obj rng ∧
    Dot (d.sub ((n.scale 2).scale (Dot n d))) (d.sub ((n.scale 2).scale (Dot n d))) = 1 ∧
    (∀ l : K, 0 ≤ l →
      l * l = Dot (d.sub ((n.scale 2).scale (Dot n d))) (d.sub ((n.scale 2).scale (Dot n d))) →
      l = 1) ∧
    d.sub (((n.scale (-1)).scale 2).scale (Dot (n.scale (-1)) d)) =
      d.sub ((n.scale 2).scale (Dot n d)) ∧
    Reflect env point (n.scale (-1)) d objs lights depth obj rng =
      Reflect env point n d objs lights depth obj rng := by
  have hr := reflection_unit n d hn hd
  refine ⟨Reflect_unfold env point n d objs lights depth obj rng, hr, ?_, reflection_flip n d, ?_⟩
  · intro l hl hll
    rw [hr] at hll
    nlinarith [sq_nonneg (l - 1), sq_nonneg (l + 1)]
  · rw [Reflect_unfold, Reflect_unfold, reflection_flip]

/-- Witness for C18: grazing-free reflection off a surface facing the ray. -/
theorem Reflect_direction_unit_witness :
    Dot (⟨0, 0, -1⟩ : Vec3 ℚ) ⟨0, 0, -1⟩ = 1 ∧ Dot (⟨0, 0, 1⟩ : Vec3 ℚ) ⟨0, 0, 1⟩ = 1 ∧
    Dot ((⟨0, 0, 1⟩ : Vec3 ℚ).sub (((⟨0, 0, -1⟩ : Vec3 ℚ).scale 2).scale
        (Dot (⟨0, 0, -1⟩ : Vec3 ℚ) ⟨0, 0, 1⟩)))
      ((⟨0, 0, 1⟩ : Vec3 ℚ).sub (((⟨0, 0, -1⟩ : Vec3 ℚ).scale 2).scale
        (Dot (⟨0, 0, -1⟩ : Vec3 ℚ) ⟨0, 0, 1⟩))) = 1 :=
  ⟨by norm_num [Dot], by norm_num [Dot],
   (Reflect_direction_unit axisEnv ⟨0, 0, 2⟩ ⟨0, 0, -1⟩ ⟨0, 0, 1⟩ [] [] 0 none 0
    (by norm_num [Dot]) (by norm_num [Dot])).2.1⟩

/-- The vectors `u_vec` and `v_vec` are those `ShadowRay` hands to its
sampling loops. -/
theorem ShadowRay_area_basis [FloorRing K] (env : Env K) (light : Light K)
    (inter : IntersectData K) (objs : List (Object K)) (rng : Nat)
    (ht : light.type_ = LightType.AREA) :
    (ShadowRay env light inter objs rng).vis =
      (forDouble (light.width_ / 2) (light.width_ / (light.samples_ : K))
        (fun u st => forDouble (light.height_ / 2) (light.height_ / (light.samples_ : K))
          (fun v st => ShadowRay.sample env light inter objs
            (ShadowRay.u_vec env light.direction_) (ShadowRay.v_vec env light.direction_)
            (light.width_ / (light.samples_ : K)) (light.height_ / (light.samples_ : K))
            ((light.samples_ * light.samples_) % 2 ^ 32) u v st)
          (-light.height_ / 2) st)
        (-light.width_ / 2)
        { vis := 0, light_dir := (light.Illuminate inter.point).1,
          isec := { env.defaultInter with t_near := (light.Illuminate inter.point).2.2 },
          rng := rng }).vis := by
  rw [ShadowRay_area_eq env light inter objs rng ht]
  rfl

/-- C17 as stated fails: the facing direction `(0, 0, 1)` is a unit vector,
the vector `(direction.y, -direction.x, 0)` handed to `Normalize` is the zero
vector, every length of it is `0`, and `Normalize` divides by it; the `u_vec`
the model then computes is not a unit vector. -/
theorem ShadowRay_basis_vertical :
    Dot (⟨0, 0, 1⟩ : Vec3 ℚ) ⟨0, 0, 1⟩ = 1 ∧
    (∀ env : Env ℚ,
      env.Length ⟨(⟨0, 0, 1⟩ : Vec3 ℚ).y, -(⟨0, 0, 1⟩ : Vec3 ℚ).x, 0⟩ *
          env.Length ⟨(⟨0, 0, 1⟩ : Vec3 ℚ).y, -(⟨0, 0, 1⟩ : Vec3 ℚ).x, 0⟩ =
        Dot (⟨(⟨0, 0, 1⟩ : Vec3 ℚ).y, -(⟨0, 0, 1⟩ : Vec3 ℚ).x, 0⟩ : Vec3 ℚ)
          ⟨(⟨0, 0, 1⟩ : Vec3 ℚ).y, -(⟨0, 0, 1⟩ : Vec3 ℚ).x, 0⟩ →
      env.Length ⟨(⟨0, 0, 1⟩ : Vec3 ℚ).y, -(⟨0, 0, 1⟩ : Vec3 ℚ).x, 0⟩ = 0 ∧
      Dot (ShadowRay.u_vec env ⟨0, 0, 1⟩) (ShadowRay.u_vec env ⟨0, 0, 1⟩) ≠ 1) := by
  refine ⟨by norm_num [Dot], ?_⟩
  intro env h
  have h0 : env.Length ⟨(⟨0, 0, 1⟩ : Vec3 ℚ).y, -(⟨0, 0, 1⟩ : Vec3 ℚ).x, 0⟩ = 0 := by
    simp only [Dot, neg_zero, mul_zero, add_zero] at h
    exact mul_self_eq_zero.mp h
  refine ⟨h0, ?_⟩
  simp only [ShadowRay.u_vec, Normalize, h0, Vec3.divs, Dot]
  norm_num

/-- C17, amended: for a unit facing direction that is not along the third
axis (`direction.x` or `direction.y` is not `0`), with `Length` the length of
the vector `(direction.y, -direction.x, 0)`: that length is not `0`, `u_vec`
has squared length `1` and is perpendicular to the facing direction, and
`v_vec` has squared length `1` and is perpendicular to the facing direction
and to `u_vec`. -/
theorem ShadowRay_basis_orthonormal (env : Env K) (d : Vec3 K) (hd : Dot d d = 1)
    (hxy : d.x ≠ 0 ∨ d.y ≠ 0)
    (hL : 0 ≤ env.Length ⟨d.y, -d.x, 0⟩ ∧
      env.Length ⟨d.y, -d.x, 0⟩ * env.Length ⟨d.y, -d.x, 0⟩ =
        Dot (⟨d.y, -d.x, 0⟩ : Vec3 K) ⟨d.y, -d.x, 0⟩) :
    env.Length ⟨d.y, -d.x, 0⟩ ≠ 0 ∧
    Dot (ShadowRay.u_vec env d) (ShadowRay.u_vec env d) = 1 ∧
    Dot (ShadowRay.u_vec env d) d = 0 ∧
    Dot (ShadowRay.v_vec env d) (ShadowRay.v_vec env d) = 1 ∧
    Dot (ShadowRay.v_vec env d) d = 0 ∧
    Dot (ShadowRay.v_vec env d) (ShadowRay.u_vec env d) = 0 := by
  obtain ⟨dx, dy, dz⟩ := d
  obtain ⟨_, hL2⟩ := hL
  simp only [ShadowRay.v_vec, ShadowRay.u_vec, Normalize, Cross, Vec3.divs, Dot, mul_zero,
    add_zero] at hL2 hd hxy ⊢
  generalize env.Length ⟨dy, -dx, 0⟩ = L at hL2 ⊢
  have hpos : 0 < dy * dy + -dx * -dx := by
    rcases hxy with h | h
    · have := mul_self_pos.mpr h
      nlinarith [mul_self_nonneg dy]
    · have := mul_self_pos.mpr h
      nlinarith [mul_self_nonneg dx]
  have hLne : L ≠ 0 := by
    intro h0
    rw [h0, mul_zero] at hL2
    linarith
  have hLL : L⁻¹ * L⁻¹ * (dy * dy + dx * dx) = 1 := by
    field_simp
    linear_combination -hL2
  refine ⟨hLne, ?_, ?_, ?_, ?_, ?_⟩
  · field_simp
    linear_combination -hL2
  · field_simp
    ring
  · simp only [div_eq_mul_inv]
    generalize L⁻¹ = i at hLL
    linear_combination (dz * dz + dx * dx + dy * dy) * hLL + hd
  · simp only [div_eq_mul_inv]
    ring
  · simp only [div_eq_mul_inv]
    ring

/-- Witness for C17, amended: an area light facing along the first axis. -/
theorem ShadowRay_basis_orthonormal_witness :
    Dot (⟨1, 0, 0⟩ : Vec3 ℚ) ⟨1, 0, 0⟩ = 1 ∧
    ((⟨1, 0, 0⟩ : Vec3 ℚ).x ≠ 0 ∨ (⟨1, 0, 0⟩ : Vec3 ℚ).y ≠ 0) ∧
    Dot (ShadowRay.v_vec axisEnv ⟨1, 0, 0⟩) (ShadowRay.v_vec axisEnv ⟨1, 0, 0⟩) = 1 :=
  ⟨by norm_num [Dot], Or.inl (by norm_num),
   (ShadowRay_basis_orthonormal axisEnv ⟨1, 0, 0⟩ (by norm_num [Dot]) (Or.inl (by norm_num))
    ⟨by norm_num [axisEnv], by norm_num [axisEnv, Dot]⟩).2.2.2.1⟩

/-- C19: for `width > 0`, `height > 0`, `row < height`, `col < width` and every
`scale` and `aspect`, with `Length` the length of the vector `(x, y, 1)` that
`RenderPixel` builds: the length is not `0`; the direction `RenderPixel` hands
to `CastRay` is that vector divided by its length, has squared length `1` and
a positive third component; the first component changes sign under
`col -> width - 1 - col`, the second under `row -> height - 1 - row`; and the
vector is `x = (2 * (col + 1/2) / width - 1) * aspect * scale`,
`y = (1 - 2 * (row + 1/2) / height) * scale`, `z = 1`. -/
theorem RenderPixel_direction [FloorRing K] (env : Env K) (Clamp : Color K → Color K)
    (scale aspect : K) (width height : Nat) (objs : List (Object K)) (lights : List (Light K))
    (row col rng : Nat) (hw : 0 < width) (hh : 0 < height) (hrow : row < height)
    (hcol : col < width)
    (hL : 0 ≤ env.Length (RenderPixel.vector scale aspect width height row col) ∧
      env.Length (RenderPixel.vector scale aspect width height row col) *
          env.Length (RenderPixel.vector scale aspect width height row col) =
        Dot (RenderPixel.vector scale aspect width height row col)
          (RenderPixel.vector scale aspect width height row col)) :
    env.Length (RenderPixel.vector scale aspect width height row col) ≠ 0 ∧
    RenderPixel env Clamp scale aspect width height objs lights row col rng =
      (Clamp (CastRay env ⟨0, 0, 0⟩
          (Normalize env (RenderPixel.vector scale aspect width height row col))
          objs lights 0 none rng).1,
        (CastRay env ⟨0, 0, 0⟩
          (Normalize env (RenderPixel.vector scale aspect width height row col))
          objs lights 0 none rng).2) ∧
    Dot (Normalize env (RenderPixel.vector scale aspect width height row col))
      (Normalize env (RenderPixel.vector scale aspect width height row col)) = 1 ∧
    0 < (Normalize env (RenderPixel.vector scale aspect width height row col)).z ∧
    (RenderPixel.vector scale aspect width height row (width - 1 - col)).x =
      -(RenderPixel.vector scale aspect width height row col).x ∧
    (RenderPixel.vector scale aspect width height (height - 1 - row) col).y =
      -(RenderPixel.vector scale aspect width height row col).y ∧
    RenderPixel.vector scale aspect width height row col =
      ⟨(2 * ((col : K) + 1 / 2) / (width : K) - 1) * aspect * scale,
        (1 - 2 * ((row : K) + 1 / 2) / (height : K)) * scale, 1⟩ := by
  obtain ⟨hL0, hL2⟩ := hL
  have hz : (RenderPixel.vector scale aspect width height row col).z = 1 := rfl
  have hpos : 0 < Dot (RenderPixel.vector scale aspect width height row col)
      (RenderPixel.vector scale aspect width height row col) := by
    simp only [Dot, hz]
    nlinarith [mul_self_nonneg (RenderPixel.vector scale aspect width height row col).x,
      mul_self_nonneg (RenderPixel.vector scale aspect width height row col).y]
  have hLne : env.Length (RenderPixel.vector scale aspect width height row col) ≠ 0 := by
    intro h0
    rw [h0, mul_zero] at hL2
    linarith
  have hLpos : 0 < env.Length (RenderPixel.vector scale aspect width height row col) :=
    lt_of_le_of_ne hL0 (Ne.symm hLne)
  have hwK : (width : K) ≠ 0 := by exact_mod_cast hw.ne'
  have hhK : (height : K) ≠ 0 := by exact_mod_cast hh.ne'
  refine ⟨hLne, rfl, ?_, ?_, ?_, ?_, rfl⟩
  · simp only [Normalize, Vec3.divs, Dot] at hL2 ⊢
    field_simp
    linear_combination -hL2
  · simp only [Normalize, Vec3.divs, hz]
    exact div_pos one_pos hLpos
  · simp only [RenderPixel.vector]
    rw [Nat.cast_sub (by omega), Nat.cast_sub (by omega)]
    push_cast
    field_simp
    ring
  · simp only [RenderPixel.vector]
    rw [Nat.cast_sub (by omega), Nat.cast_sub (by omega)]
    push_cast
    field_simp
    ring

/-- Witness for C19: the top left pixel of a `2 x 2` image with `scale = 4` and
`aspect = 1`. The vector is `(-2, 2, 1)`, of length `3`; the direction is
`(-2/3, 2/3, 1/3)`; the pixel to its right has `x = 2` and the pixel below it
has `y = -2`. -/
theorem RenderPixel_direction_witness :
    0 < 2 ∧ 0 < 2 ∧ 0 < 2 ∧ 0 < 2 ∧
    (0 ≤ latticeEnv.Length (RenderPixel.vector (4 : ℚ) 1 2 2 0 0) ∧
      latticeEnv.Length (RenderPixel.vector (4 : ℚ) 1 2 2 0 0) *
          latticeEnv.Length (RenderPixel.vector (4 : ℚ) 1 2 2 0 0) =
        Dot (RenderPixel.vector (4 : ℚ) 1 2 2 0 0) (RenderPixel.vector (4 : ℚ) 1 2 2 0 0)) ∧
    RenderPixel.vector (4 : ℚ) 1 2 2 0 0 = ⟨-2, 2, 1⟩ ∧
    Normalize latticeEnv (RenderPixel.vector (4 : ℚ) 1 2 2 0 0) = ⟨-2 / 3, 2 / 3, 1 / 3⟩ ∧
    (RenderPixel.vector (4 : ℚ) 1 2 2 0 1).x = 2 ∧
    (RenderPixel.vector (4 : ℚ) 1 2 2 1 0).y = -2 ∧
    Dot (Normalize latticeEnv (RenderPixel.vector (4 : ℚ) 1 2 2 0 0))
      (Normalize latticeEnv (RenderPixel.vector (4 : ℚ) 1 2 2 0 0)) = 1 ∧
    0 < (Normalize latticeEnv (RenderPixel.vector (4 : ℚ) 1 2 2 0 0)).z ∧
    (RenderPixel.vector (4 : ℚ) 1 2 2 0 (2 - 1 - 0)).x =
      -(RenderPixel.vector (4 : ℚ) 1 2 2 0 0).x ∧
    (RenderPixel.vector (4 : ℚ) 1 2 2 (2 - 1 - 0) 0).y =
      -(RenderPixel.vector (4 : ℚ) 1 2 2 0 0).y := by
  have hv : RenderPixel.vector (4 : ℚ) 1 2 2 0 0 = ⟨-2, 2, 1⟩ := by
    simp only [RenderPixel.vector, Vec3.mk.injEq]
    norm_num
  have hlen : latticeEnv.Length (RenderPixel.vector (4 : ℚ) 1 2 2 0 0) = 3 := by
    rw [hv]
    simp only [latticeEnv, Dot]
    norm_num
  have hL : 0 ≤ latticeEnv.Length (RenderPixel.vector (4 : ℚ) 1 2 2 0 0) ∧
      latticeEnv.Length (RenderPixel.vector (4 : ℚ) 1 2 2 0 0) *
          latticeEnv.Length (RenderPixel.vector (4 : ℚ) 1 2 2 0 0) =
        Dot (RenderPixel.vector (4 : ℚ) 1 2 2 0 0) (RenderPixel.vector (4 : ℚ) 1 2 2 0 0) := by
    rw [hlen, hv]
    simp only [Dot]
    norm_num
  have h := RenderPixel_direction latticeEnv (fun c => c) 4 1 2 2 [] [] 0 0 0 (by norm_num)
    (by norm_num) (by norm_num) (by norm_num) hL
  refine ⟨by norm_num, by norm_num, by norm_num, by norm_num, hL, hv, ?_, ?_, ?_,
    h.2.2.1, h.2.2.2.1, h.2.2.2.2.1, h.2.2.2.2.2.1⟩
  · have hlen2 : latticeEnv.Length (⟨-2, 2, 1⟩ : Vec3 ℚ) = 3 := by
      rw [← hv]
      exact hlen
    simp only [Normalize, hv, hlen2, Vec3.divs, Vec3.mk.injEq]
  · simp only [RenderPixel.vector]
    norm_num
  · simp only [RenderPixel.vector]
    norm_num

end Directions

/-! ## The light factories -/

section Factories

/-- C20 (the code at the failing input): the object a factory returns is built
by `make_unique<Light>` from the base part of the derived object, so whatever
`Light::Illuminate` is, the light `MakePointLight` returns does not depend on
the position and the light `MakeDistantLight` returns does not depend on the
direction. For the point `(0, 0, 0)`, the lights made for the positions
`(0, 0, 1)` and `(0, 0, -1)` answer alike, while `PointLight::Illuminate`
answers `dir = (0, 0, -1)` for one and `(0, 0, 1)` for the other; so at least
one of the two does not illuminate as a point light, and likewise for the
distant lights made for `(0, 0, 1)` and `(1, 0, 0)`. -/
theorem MakeLight_sliced :
    (∀ (li : LightType → Color ℚ → ℚ → Vec3 ℚ → Vec3 ℚ × Vec3 ℚ × WithTop ℚ)
        (p1 p2 : Vec3 ℚ) (c : Color ℚ) (i : ℚ),
      MakePointLight axisEnv li p1 c i = MakePointLight axisEnv li p2 c i ∧
      MakeDistantLight axisEnv li p1 c i = MakeDistantLight axisEnv li p2 c i) ∧
    (∀ li : LightType → Color ℚ → ℚ → Vec3 ℚ → Vec3 ℚ × Vec3 ℚ × WithTop ℚ,
      (MakePointLight axisEnv li ⟨0, 0, 1⟩ ⟨1, 1, 1⟩ 1).Illuminate ⟨0, 0, 0⟩ ≠
          PointLight.Illuminate axisEnv ⟨0, 0, 1⟩ ⟨1, 1, 1⟩ 1 ⟨0, 0, 0⟩ ∨
        (MakePointLight axisEnv li ⟨0, 0, -1⟩ ⟨1, 1, 1⟩ 1).Illuminate ⟨0, 0, 0⟩ ≠
          PointLight.Illuminate axisEnv ⟨0, 0, -1⟩ ⟨1, 1, 1⟩ 1 ⟨0, 0, 0⟩) ∧
    (∀ li : LightType → Color ℚ → ℚ → Vec3 ℚ → Vec3 ℚ × Vec3 ℚ × WithTop ℚ,
      (MakeDistantLight axisEnv li ⟨0, 0, 1⟩ ⟨1, 1, 1⟩ 1).Illuminate ⟨0, 0, 0⟩ ≠
          DistantLight.Illuminate (Normalize axisEnv ⟨0, 0, 1⟩) ⟨1, 1, 1⟩ 1 ⟨0, 0, 0⟩ ∨
        (MakeDistantLight axisEnv li ⟨1, 0, 0⟩ ⟨1, 1, 1⟩ 1).Illuminate ⟨0, 0, 0⟩ ≠
          DistantLight.Illuminate (Normalize axisEnv ⟨1, 0, 0⟩) ⟨1, 1, 1⟩ 1 ⟨0, 0, 0⟩) := by
  refine ⟨fun li p1 p2 c i => ⟨rfl, rfl⟩, ?_, ?_⟩
  · intro li
    by_contra hc
    rw [not_or, not_not, not_not] at hc
    obtain ⟨h1, h2⟩ := hc
    have h3 : PointLight.Illuminate axisEnv ⟨0, 0, 1⟩ ⟨1, 1, 1⟩ 1 ⟨0, 0, 0⟩ =
        PointLight.Illuminate axisEnv ⟨0, 0, -1⟩ ⟨1, 1, 1⟩ 1 ⟨0, 0, 0⟩ := by
      rw [← h1, ← h2]
      rfl
    have h4 := congrArg (fun r => r.1.z) h3
    simp only [PointLight.Illuminate, axisEnv, Vec3.sub, Vec3.divs] at h4
    norm_num at h4
  · intro li
    by_contra hc
    rw [not_or, not_not, not_not] at hc
    obtain ⟨h1, h2⟩ := hc
    have h3 : DistantLight.Illuminate (Normalize axisEnv ⟨0, 0, 1⟩) ⟨1, 1, 1⟩ 1 ⟨0, 0, 0⟩ =
        DistantLight.Illuminate (Normalize axisEnv ⟨1, 0, 0⟩) ⟨1, 1, 1⟩ 1 ⟨0, 0, 0⟩ := by
      rw [← h1, ← h2]
      rfl
    have h4 := congrArg (fun r => r.1.z) h3
    simp only [DistantLight.Illuminate, Normalize, axisEnv, Vec3.divs] at h4
    norm_num at h4

end Factories

/-! ## The entry point -/

section Entry

variable {K : Type} [LinearOrderedField K]

/-- C12 as stated fails: with the field of view `0`, on a `1 x 1` image,
`Render` plots the pixel; with `width = 0` it returns normally too. The
tangent of `0` is `0`, as with the stand-in `tan x = x` used here. -/
theorem Render_accepts_invalid :
    (Render (fun x : ℚ => x) (fun _ _ _ _ i j => tagPixel i j) 1 1 1 0
        RenderStyle.SINGLE_PASS 0 emptySink).map (fun r => r.points) =
      some [((0, 0), tagPixel 0 0)] ∧
    (Render (fun x : ℚ => x) (fun _ _ _ _ i j => tagPixel i j) 1 0 5 1
        RenderStyle.SINGLE_PASS 0 emptySink).map (fun r => (r.points, r.updates)) =
      some ([], 1) := by
  constructor
  · rfl
  · rfl

/-- C12, amended: `Render` tests none of its arguments. For every width,
height, field of view and pass count, the Single, Horizontal and Vertical
strategies run to the end and leave every pixel of the image plotted once
(no pixel when `width = 0` or `height = 0`); so do the Scatter strategy when
the pass count, converted to `unsigned`, is at least `1` and
`width * height + passes <= 2 ^ 32`, and the Concurrent strategy when the
converted pass count is at least `1` (each pixel then shows its own colour
when `width * height <= 2 ^ 32`); with a converted pass count of `0` the
Scatter strategy plots nothing. -/
theorem Render_no_validation (tan : K → K) (pixel : K → K → Nat → Nat → Nat → Nat → Color K)
    (fuel width height : Nat) (fov : K) (style : RenderStyle) (passes : Int) (s : Sink K) :
    ((style = RenderStyle.SINGLE_PASS ∨ style = RenderStyle.HORIZONTAL_PASS ∨
        style = RenderStyle.VERTICAL_PASS) →
      ∃ r, Render tan pixel fuel width height fov style passes s = some r ∧
        ImageWritten (pixel (tan (fov / 2)) ((width : K) / (height : K)) width height)
          width height s r) ∧
    (style = RenderStyle.SCATTER_PASS → 1 ≤ toUnsigned passes →
      height * width + toUnsigned passes ≤ 2 ^ 32 → height * width < fuel →
      ∃ r, Render tan pixel fuel width height fov style passes s = some r ∧
        ImageWritten (pixel (tan (fov / 2)) ((width : K) / (height : K)) width height)
          width height s r) ∧
    (style = RenderStyle.MULTI_THREAD → 1 ≤ toUnsigned passes →
      ∃ r, Render tan pixel fuel width height fov style passes s = some r ∧
        (∀ x y, r.writes x y = s.writes x y + if y < height ∧ x < width then 1 else 0) ∧
        (height * width ≤ 2 ^ 32 →
          ImageWritten (pixel (tan (fov / 2)) ((width : K) / (height : K)) width height)
            width height s r)) ∧
    (style = RenderStyle.SCATTER_PASS → toUnsigned passes = 0 →
      ∃ r, Render tan pixel fuel width height fov style passes s = some r ∧
        r.points = s.points) := by
  refine ⟨?_, ?_, ?_, ?_⟩
  · rintro (rfl | rfl | rfl)
    · exact ⟨_, rfl, Plots_imageWritten _ width height s _
        (Plots_update _ s _ _ (RenderSinglePass_Plots _ width height s))⟩
    · exact ⟨_, rfl, Plots_imageWritten _ width height s _
        (Plots_update _ s _ _ (RenderHorizontalPass_Plots _ width height s))⟩
    · exact ⟨_, rfl, Plots_imageWritten _ width height s _
        (Plots_update _ s _ _ (RenderVerticalPass_Plots _ width height s))⟩
  · rintro rfl hp hno hfuel
    obtain ⟨r, hr, hP⟩ := RenderScatterPass_Plots
      (pixel (tan (fov / 2)) ((width : K) / (height : K)) width height) width height
      (toUnsigned passes) s hp hno fuel hfuel
    refine ⟨entis_update r, ?_, Plots_imageWritten _ width height s _
      (Plots_update _ s _ _ hP)⟩
    simp only [Render, hr]
    rfl
  · rintro rfl hp
    obtain ⟨pixel2, hP, _⟩ := RenderMultiThreadPass_Plots_wrapped
      (pixel (tan (fov / 2)) ((width : K) / (height : K)) width height) width height
      (toUnsigned passes) s hp
    refine ⟨_, rfl, ?_, ?_⟩
    · intro x y
      have hw := Plots_writes_eq pixel2 s _ _ (Plots_update _ s _ _ hP) y x
      by_cases hD : y < height ∧ x < width
      · rw [if_pos hD]
        exact hw.1 hD
      · rw [if_neg hD]
        exact hw.2 hD
    · intro hb
      exact Plots_imageWritten _ width height s _
        (Plots_update _ s _ _
          (RenderMultiThreadPass_Plots _ width height (toUnsigned passes) s hp hb))
  · rintro rfl hp
    refine ⟨entis_update s, ?_, rfl⟩
    simp only [Render, RenderScatterPass, hp]
    rw [forRange_done _ _ _ _ (le_refl _)]
    rfl

/-- Witness for C12, amended: a `2 x 2` image rendered with a field of view of
`0` and a pass count of `-1`. -/
theorem Render_no_validation_witness :
    (RenderStyle.HORIZONTAL_PASS = RenderStyle.SINGLE_PASS ∨
      RenderStyle.HORIZONTAL_PASS = RenderStyle.HORIZONTAL_PASS ∨
      RenderStyle.HORIZONTAL_PASS = RenderStyle.VERTICAL_PASS) ∧
    ∃ r, Render (fun x : ℚ => x) (fun _ _ _ _ i j => tagPixel i j) 0 2 2 0
        RenderStyle.HORIZONTAL_PASS (-1) emptySink = some r ∧
      ImageWritten ((fun _ _ _ _ i j => tagPixel i j) ((fun x : ℚ => x) (0 / 2))
          (((2 : Nat) : ℚ) / ((2 : Nat) : ℚ)) 2 2) 2 2 emptySink r :=
  ⟨Or.inr (Or.inl rfl),
   (Render_no_validation (fun x : ℚ => x) (fun _ _ _ _ i j => tagPixel i j) 0 2 2 0
      RenderStyle.HORIZONTAL_PASS (-1) emptySink).1 (Or.inr (Or.inl rfl))⟩

end Entry

/-! ## Order of the writes of the concurrent pass -/

section Events

variable {K : Type}

/-- A loop that appends to a list appends the rounds' pieces in order. -/
theorem forRange_append {α : Type} (n : Nat) (g : Nat → List α) (tr : List α) :
    forRange 0 n (fun id tr => tr ++ g id) tr = tr ++ (List.range n).flatMap g := by
  have key := forRange_induction 0 n (fun id tr => tr ++ g id)
    (fun i t => t = tr ++ (List.range i).flatMap g) (Nat.zero_le _)
    (by
      intro i t _ _ hP
      beta_reduce at hP ⊢
      rw [hP, List.range_succ, List.flatMap_append, List.flatMap_singleton, List.append_assoc])
    tr (by simp)
  exact key

/-- The plotting loops for one row range write its points in row-major
order. -/
theorem pointRows_eq (width start end_ : Nat) (tr : List PassEvent) :
    RenderMultiThreadPass.pointRows width start end_ tr =
      tr ++ rowMajorPoints width start end_ := by
  rcases Nat.lt_or_ge end_ start with hlt | h
  · simp only [RenderMultiThreadPass.pointRows, rowMajorPoints]
    rw [forRange_done _ _ _ _ (Nat.le_of_lt hlt), Nat.sub_eq_zero_of_le (Nat.le_of_lt hlt)]
    simp
  have key := forRange_induction start end_
    (fun i tr => forRange 0 width (fun j tr => tr ++ [PassEvent.point j i]) tr)
    (fun i t => t = tr ++ (List.range ((i - start) * width)).map
      (fun k => PassEvent.point (k % width) (start + k / width))) h
    (by
      intro i t h1 h2 hP
      have inner := forRange_induction 0 width (fun j tr => tr ++ [PassEvent.point j i])
        (fun j t => t = tr ++ (List.range ((i - start) * width + j)).map
          (fun k => PassEvent.point (k % width) (start + k / width))) (Nat.zero_le _)
        (by
          intro j t _ hj hQ
          beta_reduce at hQ ⊢
          rw [hQ, show (i - start) * width + (j + 1) = ((i - start) * width + j) + 1 by omega,
            List.range_succ, List.map_append, List.map_singleton,
            rowMajor_div _ _ _ hj, rowMajor_mod _ _ _ hj,
            show start + (i - start) = i by omega, List.append_assoc])
        t (by beta_reduce; rw [hP, Nat.add_zero])
      beta_reduce at inner ⊢
      rw [inner, show (i + 1 - start) * width = (i - start) * width + width by
        rw [show i + 1 - start = (i - start) + 1 by omega, Nat.add_mul, Nat.one_mul]])
    tr (by simp)
  exact key

/-- The coordinates written by the row-major writes of a row range. -/
theorem rowMajorPoints_coordinate (width start end_ : Nat) :
    (rowMajorPoints width start end_).filterMap PassEvent.coordinate =
      (List.range ((end_ - start) * width)).map (fun k => (k % width, start + k / width)) := by
  simp only [rowMajorPoints, List.filterMap_map]
  exact congrFun (List.filterMap_eq_map (fun k => (k % width, start + k / width))) _

/-- The events of `RenderMultiThreadPass` in closed form. -/
theorem events_eq (width height passes : Nat) :
    RenderMultiThreadPass.events width height passes =
      (List.range (passes - 1)).map PassEvent.launch ++
      rowMajorPoints width (height / passes * (passes - 1)) height ++
      (List.range (passes - 1)).flatMap (fun id =>
        PassEvent.get id ::
          rowMajorPoints width (height / passes * id) (height / passes * (id + 1))) ++
      [PassEvent.update] := by
  simp only [RenderMultiThreadPass.events]
  have e1 : forRange 0 (passes - 1) (fun id tr => tr ++ [PassEvent.launch id]) [] =
      (List.range (passes - 1)).map PassEvent.launch := by
    rw [forRange_append (passes - 1) (fun id => [PassEvent.launch id]) [],
      List.nil_append, List.map_eq_flatMap]
  have e2 : ∀ tr, forRange 0 (passes - 1)
      (fun id tr =>
        RenderMultiThreadPass.pointRows width (height / passes * id) (height / passes * (id + 1))
          (tr ++ [PassEvent.get id])) tr =
      tr ++ (List.range (passes - 1)).flatMap (fun id =>
        PassEvent.get id ::
          rowMajorPoints width (height / passes * id) (height / passes * (id + 1))) := by
    intro tr
    rw [← forRange_append (passes - 1) (fun id => PassEvent.get id ::
          rowMajorPoints width (height / passes * id) (height / passes * (id + 1))) tr]
    apply forRange_congr
    intro i t _ _
    beta_reduce
    rw [pointRows_eq, List.append_assoc, List.singleton_append]
  rw [e1, pointRows_eq, e2]

/-- The coordinates `RenderMultiThreadPass` plots, in the order of plotting,
are those of the `point` events. -/
theorem RenderMultiThreadPass_points (pixel : Nat → Nat → Color K) (width height passes : Nat)
    (s : Sink K) :
    (RenderMultiThreadPass pixel width height passes s).points.map Prod.fst =
      s.points.map Prod.fst ++
        (RenderMultiThreadPass.events width height passes).filterMap PassEvent.coordinate := by
  have hrow : ∀ (st en : Nat) (t : Sink K), st ≤ en →
      (RenderMultiThreadPass.plotRows width (RenderThread pixel width st en) st en t).1.points.map
        Prod.fst = t.points.map Prod.fst ++
          (rowMajorPoints width st en).filterMap PassEvent.coordinate := by
    intro st en t h
    rw [plotRows_thread_points pixel width st en t h, rowMajorPoints_coordinate,
      List.map_append, List.map_map]
    rfl
  have hlast := rowRange_last_le height passes
  have key := forRange_induction 0 (passes - 1)
    (fun id s =>
      (RenderMultiThreadPass.plotRows width
        (((List.range (passes - 1)).map
          (fun id => RenderThread pixel width (height / passes * id)
            (height / passes * (id + 1)))).getD id [])
        (height / passes * id) (height / passes * (id + 1)) s).1)
    (fun i (t : Sink K) => t.points.map Prod.fst = s.points.map Prod.fst ++
      (rowMajorPoints width (height / passes * (passes - 1)) height).filterMap
        PassEvent.coordinate ++
      ((List.range i).flatMap (fun id =>
        PassEvent.get id ::
          rowMajorPoints width (height / passes * id) (height / passes * (id + 1)))).filterMap
        PassEvent.coordinate) (Nat.zero_le _)
    (by
      intro id t _ hid hP
      have hget : ((List.range (passes - 1)).map
          (fun id => RenderThread pixel width (height / passes * id)
            (height / passes * (id + 1)))).getD id [] =
          RenderThread pixel width (height / passes * id) (height / passes * (id + 1)) := by
        rw [List.getD_eq_getElem?_getD, List.getElem?_map, List.getElem?_range hid]
        rfl
      beta_reduce at hP ⊢
      rw [hget, hrow _ _ t (Nat.mul_le_mul_left _ (Nat.le_succ id)), hP, List.range_succ,
        List.flatMap_append, List.flatMap_singleton, List.filterMap_append,
        List.filterMap_cons]
      simp only [PassEvent.coordinate, List.append_assoc])
    (RenderMultiThreadPass.plotRows width
      (RenderThread pixel width (height / passes * (passes - 1)) height)
      (height / passes * (passes - 1)) height s).1
    (by
      beta_reduce
      rw [hrow _ _ s hlast]
      simp)
  have hm : ((List.range (passes - 1)).map PassEvent.launch).filterMap PassEvent.coordinate =
      [] := by
    rw [List.filterMap_map]
    apply List.filterMap_eq_nil_iff.mpr
    intro a _
    rfl
  rw [events_eq, List.filterMap_append, List.filterMap_append, List.filterMap_append, hm]
  simp only [RenderMultiThreadPass, entis_update]
  beta_reduce at key
  rw [key]
  simp [PassEvent.coordinate]

/-- C11 as stated fails: with two passes on an image of one column and two
rows, the first write to the pixel sink (row `1`, the range the caller
rendered itself) comes before `threads[0].get()` has returned, and row `1` is
written before row `0`. -/
theorem RenderMultiThreadPass_writes_before_get :
    RenderMultiThreadPass.events 1 2 2 =
      [PassEvent.launch 0, PassEvent.point 0 1, PassEvent.get 0, PassEvent.point 0 0,
        PassEvent.update] ∧
    (RenderMultiThreadPass (fun i j => tagPixel i j) 1 2 2 emptySink).points.map Prod.fst =
      [(0, 1), (0, 0)] := by
  constructor
  · rfl
  · rfl

/-- C11, amended: for `passes >= 1` the flow that runs `RenderMultiThreadPass`
starts the `passes - 1` workers, writes the rows of its own range (from
`ppt * (passes - 1)` to `height - 1`) without waiting for any worker, then for
each worker `id` in ascending order waits for that worker alone and writes
its rows `ppt * id` to `ppt * (id + 1) - 1`, and calls `entis_update` last;
within each range the writes are row-major. The points the sink receives are
exactly the `point` events, in that order. -/
theorem RenderMultiThreadPass_write_order (pixel : Nat → Nat → Color K)
    (width height passes : Nat) (s : Sink K) (_hp : 1 ≤ passes) :
    RenderMultiThreadPass.events width height passes =
      (List.range (passes - 1)).map PassEvent.launch ++
      rowMajorPoints width (height / passes * (passes - 1)) height ++
      (List.range (passes - 1)).flatMap (fun id =>
        PassEvent.get id ::
          rowMajorPoints width (height / passes * id) (height / passes * (id + 1))) ++
      [PassEvent.update] ∧
    (RenderMultiThreadPass pixel width height passes s).points.map Prod.fst =
      s.points.map Prod.fst ++
        (RenderMultiThreadPass.events width height passes).filterMap PassEvent.coordinate :=
  ⟨events_eq width height passes, RenderMultiThreadPass_points pixel width height passes s⟩

/-- Witness for C11, amended: three passes on an image of two columns and
three rows. -/
theorem RenderMultiThreadPass_write_order_witness :
    1 ≤ 3 ∧
    RenderMultiThreadPass.events 2 3 3 =
      [PassEvent.launch 0, PassEvent.launch 1, PassEvent.point 0 2, PassEvent.point 1 2,
        PassEvent.get 0, PassEvent.point 0 0, PassEvent.point 1 0,
        PassEvent.get 1, PassEvent.point 0 1, PassEvent.point 1 1, PassEvent.update] :=
  ⟨by decide,
   ((RenderMultiThreadPass_write_order (fun i j => (tagPixel i j : Color ℚ)) 2 3 3 emptySink
      (by decide)).1).trans rfl⟩

end Events

end ray
